import Mathlib

/-!
# Canny edge detection split between a host (GPP) and a co-processor (DSP)

A shallow embedding of `src/dsp/task.c` (co-processor side: handshake and the
fixed-point separable gaussian blur) and of `src/gpp/canny_edge.c` (host side: the
kernel generator, the rescale loop of `gaussian_smooth`, the derivative stage and the
magnitude stage), followed by theorems about them.

Conventions of the embedding.

* C `int` values (`rows`, `cols`, `windowSize`, loop counters, index
  expressions) are `Int`; index arithmetic is exact, as it is on the target for
  every index inside the static arrays (`76800` cells, far below `2^31`).
* `uint16_t` / `uint32_t` arithmetic is `Nat` arithmetic with an explicit
  reduction modulo `2^16` / `2^32` at each place where the C type truncates.
* A global array is a map from the value of the index expression to the stored
  cell. The capacity of the static arrays (`image`, `tempim`, `smoothedim`:
  `76800`, `kernel`: `20`) is not part of the map; where a theorem needs it,
  it is a hypothesis.
* A counted `for` loop whose body changes neither its counter nor its bounds is
  a left fold over the successive counter values (`forLoop`).
* The static counter of `Task_notify` is exact as well: it takes `2^31`
  notifications to overflow it.
* A `float` or `double` value is a natural number scaled by a fixed power of two, and
  an IEEE operation is the exact operation followed by a rounding to 24 or 53
  significant bits (`roundSig`).
-/

/-- The loop `for (i = lo; i < hi; i++) st = body st i`, started in `init`. -/
def forLoop {σ : Type} (lo hi : Int) (body : σ → Int → σ) (init : σ) : σ :=
  (List.range (hi - lo).toNat).foldl (fun (st : σ) (k : Nat) => body st (lo + (k : Int))) init

/-- The value of a C conversion to `int` (32 bits, two's complement) of a 32-bit word. -/
def toInt32 (w : Nat) : Int :=
  if w % 4294967296 < 2147483648 then ((w % 4294967296 : Nat) : Int)
  else ((w % 4294967296 : Nat) : Int) - 4294967296

/-- The value of a C conversion to `short` (16 bits, two's complement) of an integer. -/
def toShort (w : Int) : Int :=
  (w + 32768) % 65536 - 32768

/-! ## The fixed-point blur of the co-processor (`task.c`) -/

namespace Dsp

/-- The macro `#define INT_FIXED(number) (((uint16_t)number)<<8)`: the operand is cut to
16 bits, promoted to `int` and shifted; the shifted value is below `2^24`, so
the `int` shift is exact. -/
def INT_FIXED (number : Nat) : Nat :=
  (number % 65536) * 256

/-- The macro `#define MULTIPLICATION(A,B) (uint16_t)(((uint32_t)A*(uint32_t)B+(1<<(7)))>>8)`:
product and sum are formed in `uint32_t`, the shifted value is cut to 16 bits. -/
def MULTIPLICATION (A B : Nat) : Nat :=
  (((A % 4294967296) * (B % 4294967296) % 4294967296 + 128) % 4294967296 / 256) % 65536

/-- The macro `#define DIVISION(A,B) (uint16_t)((((uint32_t)A<<8)+(B/2))/B)`: `B` is a
`uint32_t` at every use; shift and sum are formed in `uint32_t`, the quotient is
cut to 16 bits. Division by `B = 0` is undefined in C; the value `0` that `Nat`
division gives there is a placeholder on which no theorem below relies. -/
def DIVISION (A B : Nat) : Nat :=
  ((((A % 4294967296) * 256) % 4294967296 + (B % 4294967296) / 2) % 4294967296
    / (B % 4294967296)) % 65536

/-- The globals of `task.c`, with the static counter of `Task_notify` and the
count of the semaphore `info->notifySemObj`. -/
structure State where
  /-- Holds `unsigned char* buf`, the address of the shared buffer. -/
  buf : Nat
  /-- Holds `int rows`. -/
  rows : Int
  /-- Holds `int cols`. -/
  cols : Int
  /-- Holds `int windowSize`. -/
  windowSize : Int
  /-- Holds `unsigned char image[76800]`. -/
  image : Int → Nat
  /-- Holds `uint16_t kernel[20]`. -/
  kernel : Int → Nat
  /-- Holds `uint16_t tempim[76800]`. -/
  tempim : Int → Nat
  /-- Holds `uint16_t smoothedim[76800]`. -/
  smoothedim : Int → Nat
  /-- Holds `static int count` of `Task_notify`. -/
  count : Int
  /-- Holds the count of the semaphore `notifySemObj`. -/
  sem : Nat

/-- One trip of the inner loop of the x-pass (`task.c` lines 157-161), on the
pair of accumulators `(dot, sum)`, both `uint32_t`. -/
def xTap (s : State) (center r c : Int) (acc : Nat × Nat) (cc : Int) : Nat × Nat :=
  if 0 ≤ c + cc ∧ c + cc < s.cols then
    ((acc.1 + MULTIPLICATION (INT_FIXED (s.image (r * s.cols + (c + cc))))
        (s.kernel (center + cc))) % 4294967296,
     (acc.2 + s.kernel (center + cc)) % 4294967296)
  else acc

/-- The accumulators `(dot, sum)` after the loop `for(cc=(-center); cc<=center; cc++)`
of the x-pass, started at `dot = 0; sum = 0`. -/
def xAcc (s : State) (center r c : Int) : Nat × Nat :=
  forLoop (-center) (center + 1) (xTap s center r c) (0, 0)

/-- The value stored in `tempim[r*cols+c]` (line 163). -/
def xPixel (s : State) (center r c : Int) : Nat :=
  DIVISION (xAcc s center r c).1 (xAcc s center r c).2

/-- Blur in the x direction (lines 149-165): the loop nest over `r` then `c`
writes `tempim`; it reads `image`, `kernel`, `cols` only. -/
def blurX (s : State) : State :=
  let center := Int.tdiv s.windowSize 2
  { s with
    tempim :=
      forLoop 0 s.rows
        (fun t r =>
          forLoop 0 s.cols
            (fun t c => Function.update t (r * s.cols + c) (xPixel s center r c)) t)
        s.tempim }

/-- One trip of the inner loop of the y-pass (lines 177-181). -/
def yTap (s : State) (center r c : Int) (acc : Nat × Nat) (rr : Int) : Nat × Nat :=
  if 0 ≤ r + rr ∧ r + rr < s.rows then
    ((acc.1 + MULTIPLICATION (s.tempim ((r + rr) * s.cols + c))
        (s.kernel (center + rr))) % 4294967296,
     (acc.2 + s.kernel (center + rr)) % 4294967296)
  else acc

/-- The accumulators `(dot, sum)` after the loop `for(rr=(-center); rr<=center; rr++)`
of the y-pass. -/
def yAcc (s : State) (center r c : Int) : Nat × Nat :=
  forLoop (-center) (center + 1) (yTap s center r c) (0, 0)

/-- The value stored in `smoothedim[r*cols+c]` (line 183). -/
def yPixel (s : State) (center r c : Int) : Nat :=
  DIVISION (yAcc s center r c).1 (yAcc s center r c).2

/-- Blur in the y direction (lines 169-186): the loop nest over `c` then `r`
writes `smoothedim`; it reads `tempim`, `kernel`, `rows`, `cols` only. -/
def blurY (s : State) : State :=
  let center := Int.tdiv s.windowSize 2
  { s with
    smoothedim :=
      forLoop 0 s.cols
        (fun t c =>
          forLoop 0 s.rows
            (fun t r => Function.update t (r * s.cols + c) (yPixel s center r c)) t)
        s.smoothedim }

/-- The co-processor `gaussian_smooth()`: the x-pass, then the y-pass on its result. -/
def gaussian_smooth (s : State) : State :=
  blurY (blurX s)


/-! ### The sums of the two passes, as exact integers -/

/-- The half-width `center = windowSize / 2` (C division, truncating). -/
def center (s : State) : Int :=
  Int.tdiv s.windowSize 2

/-- The offsets `cc` in `[-center, center]` whose column `c + cc` is in range. -/
def xTaps (s : State) (c : Int) : Finset Int :=
  (Finset.Icc (-(center s)) (center s)).filter (fun cc => 0 ≤ c + cc ∧ c + cc < s.cols)

/-- The exact sum `Σ MULTIPLICATION(INT_FIXED(image[r*cols+c+cc]), kernel[center+cc])`
over the in-range offsets of the x-pass. -/
def xDotSpec (s : State) (r c : Int) : Nat :=
  ∑ cc ∈ xTaps s c,
    MULTIPLICATION (INT_FIXED (s.image (r * s.cols + (c + cc)))) (s.kernel (center s + cc))

/-- The exact sum `Σ kernel[center+cc]` over the in-range offsets of the x-pass. -/
def xSumSpec (s : State) (c : Int) : Nat :=
  ∑ cc ∈ xTaps s c, s.kernel (center s + cc)

/-- The offsets `rr` in `[-center, center]` whose row `r + rr` is in range. -/
def yTaps (s : State) (r : Int) : Finset Int :=
  (Finset.Icc (-(center s)) (center s)).filter (fun rr => 0 ≤ r + rr ∧ r + rr < s.rows)

/-- The exact sum `Σ MULTIPLICATION(t[(r+rr)*cols+c], kernel[center+rr])` over the
in-range offsets of the y-pass, for a first-pass result `t`. -/
def yDotSpec (s : State) (t : Int → Nat) (r c : Int) : Nat :=
  ∑ rr ∈ yTaps s r, MULTIPLICATION (t ((r + rr) * s.cols + c)) (s.kernel (center s + rr))

/-- The exact sum `Σ kernel[center+rr]` over the in-range offsets of the y-pass. -/
def ySumSpec (s : State) (r : Int) : Nat :=
  ∑ rr ∈ yTaps s r, s.kernel (center s + rr)


/-! ### Sample inputs -/

/-- A 3 x 4 raster with a 5-tap kernel `[10, 60, 116, 60, 10]`. -/
def sampleState : State where
  buf := 0
  rows := 3
  cols := 4
  windowSize := 5
  image := fun i => (i.toNat * 37) % 256
  kernel := fun i => if i = 2 then 116 else if i = 1 ∨ i = 3 then 60 else 10
  tempim := fun _ => 0
  smoothedim := fun _ => 0
  count := 0
  sem := 0

/-- A 1 x 1 raster of value 255 with the one-tap kernel `[300]`. -/
def heavyKernelState : State where
  buf := 0
  rows := 1
  cols := 1
  windowSize := 1
  image := fun _ => 255
  kernel := fun _ => 300
  tempim := fun _ => 0
  smoothedim := fun _ => 0
  count := 0
  sem := 0

/-- A 4 x 4 raster of constant value 100 with the 3-tap kernel `[64, 128, 64]`. -/
def uniformState : State where
  buf := 0
  rows := 4
  cols := 4
  windowSize := 3
  image := fun _ => 100
  kernel := fun i => if i = 1 then 128 else 64
  tempim := fun _ => 0
  smoothedim := fun _ => 0
  count := 0
  sem := 0

end Dsp


/-! ## The handshake of the co-processor (`task.c`) -/

namespace Dsp

/-- The callback `Task_notify (eventNo, arg, info)`: `info` is the 32-bit payload of
the notification, `arg` the transfer structure whose semaphore is posted. The event
number is not used. The static counter is incremented, the payload is stored in the
field the counter selects (`buf` as a pointer, the others through a cast to `int`), the
branch `count==5` is empty, and the semaphore is posted. -/
def Task_notify (s : State) (info : Nat) : State :=
  let count := s.count + 1
  let s1 := { s with count := count }
  let s2 := if count = 1 then { s1 with buf := info } else s1
  let s3 := if count = 2 then { s2 with rows := toInt32 info } else s2
  let s4 := if count = 3 then { s3 with cols := toInt32 info } else s3
  let s5 := if count = 4 then { s4 with windowSize := toInt32 info } else s4
  { s5 with sem := s5.sem + 1 }

/-- The state after the notifications with payloads `ps` have run, in that order. -/
def deliver (s : State) (ps : List Nat) : State :=
  ps.foldl Task_notify s

/-- The state at program start: the static counter is `0`, nothing is stored. -/
def initState : State where
  buf := 0
  rows := 0
  cols := 0
  windowSize := 0
  image := fun _ => 0
  kernel := fun _ => 0
  tempim := fun _ => 0
  smoothedim := fun _ => 0
  count := 0
  sem := 0

/-- The status values of DSP/BIOS that the task distinguishes. -/
inductive Status where
  | SYS_OK
  | SYS_EALLOC
  | failure (code : Nat)
  deriving DecidableEq, Repr

/-- The results of the DSP/BIOS calls made by `Task_create`. -/
structure Bios where
  /-- Tells whether `MEM_calloc` returned a structure (not `NULL`). -/
  allocOk : Bool
  /-- The status returned by `NOTIFY_register`. -/
  registerStatus : Status
  /-- The status returned by `NOTIFY_notify`. -/
  notifyStatus : Status

/-- The effects of the task on its environment, in program order. -/
inductive Effect where
  /-- The call `MEM_calloc` for the transfer structure. -/
  | memCalloc
  /-- The stores `info->dataBuf = NULL; info->bufferSize = MPCSXFER_BufferSize`. -/
  | fillInfo
  /-- The call `SEM_new (&(info->notifySemObj), 0)`. -/
  | semNew
  /-- The call `NOTIFY_register (..., Task_notify, info)`. -/
  | notifyRegister
  /-- The call `NOTIFY_notify (ID_GPP, ..., 0)`: a notification to the host. -/
  | notifyHost
  /-- The call `SEM_pend (&(info->notifySemObj), SYS_FOREVER)`; the flag tells whether `info`
  points to a structure. -/
  | semPend (infoValid : Bool)
  /-- The call `BCACHE_inv (buf, ...)`. -/
  | cacheInv
  /-- The copy `memcpy(image, buf, rows*cols)`. -/
  | copyImage
  /-- The copy `memcpy(kernel, buf, windowSize*sizeof(uint16_t))`. -/
  | copyKernel
  /-- The call `gaussian_smooth()`. -/
  | smooth
  /-- The copy `memcpy(buf, smoothedim, 76800*sizeof(uint16_t))`. -/
  | copyResult
  /-- The call `BCACHE_wb (buf, ...)`. -/
  | cacheWb
  deriving DecidableEq, Repr

/-- The function `Task_create`: the effects it performs, in order, and the status it
returns, block by block as in the source. `status1` is the status after the allocation
block (`SYS_EALLOC` when `MEM_calloc` returned `NULL`, and then `info` stays `NULL`),
`status3` after the registration block, `status4` after the notification block; a block
runs only if the status before it is `SYS_OK`, and the registration and notification
blocks return at once with a status that is not `SYS_OK`. The three `SEM_pend` calls
that follow are outside any guard: they are reached with `info == NULL` after a failed
allocation. -/
def Task_create (b : Bios) : List Effect × Status :=
  let status0 := Status.SYS_OK
  let tr1 := [Effect.memCalloc]
  let status1 := if b.allocOk then status0 else Status.SYS_EALLOC
  let tr2 := if status1 = Status.SYS_OK then tr1 ++ [Effect.fillInfo, Effect.semNew] else tr1
  let tr3 := if status1 = Status.SYS_OK then tr2 ++ [Effect.notifyRegister] else tr2
  let status3 := if status1 = Status.SYS_OK then b.registerStatus else status1
  if status1 = Status.SYS_OK ∧ status3 ≠ Status.SYS_OK then (tr3, status3)
  else
    let tr4 := if status3 = Status.SYS_OK then tr3 ++ [Effect.notifyHost] else tr3
    let status4 := if status3 = Status.SYS_OK then b.notifyStatus else status3
    if status3 = Status.SYS_OK ∧ status4 ≠ Status.SYS_OK then (tr4, status4)
    else
      (tr4 ++ [Effect.semPend b.allocOk, Effect.semPend b.allocOk, Effect.semPend b.allocOk],
        status4)

/-- The function `Task_execute`: the effects it performs, in order, and the status it
returns; `info` is the structure that `Task_create` allocated. The statuses that the
three `NOTIFY_notify` calls return are not looked at. -/
def Task_execute : List Effect × Status :=
  ([Effect.semPend true, Effect.cacheInv, Effect.copyImage, Effect.notifyHost,
    Effect.semPend true, Effect.cacheInv, Effect.copyKernel,
    Effect.smooth,
    Effect.copyResult, Effect.cacheWb, Effect.notifyHost], Status.SYS_OK)

/-- The effects of a run of `Task_create` followed by `Task_execute`. -/
def session (b : Bios) : List Effect :=
  (Task_create b).1 ++ Task_execute.1

/-- Tells whether an effect copies data out of the shared buffer. -/
def Effect.readsBuffer : Effect → Bool
  | Effect.copyImage => true
  | Effect.copyKernel => true
  | _ => false

/-- A configuration of a run: the globals, the number of effects of the program
the task has performed, whether the callback is registered, and the payloads of the
notifications the callback has received, in arrival order. -/
structure Config where
  /-- The globals of `task.c`. -/
  st : State
  /-- The number of effects already performed. -/
  pc : Nat
  /-- Tells whether `Task_notify` is registered. -/
  registered : Bool
  /-- The payloads received so far. -/
  received : List Nat

/-- What can happen next in a run: the host sends a notification with a payload, or
the task performs its next effect. -/
inductive Event where
  | notify (payload : Nat)
  | task
  deriving DecidableEq, Repr

/-- A notification with payload `p` arrives: the callback, when registered, runs to
completion; a notification that finds no registered callback is not delivered to
`Task_notify`. -/
def onNotify (cfg : Config) (p : Nat) : Config :=
  if cfg.registered then
    { cfg with st := Task_notify cfg.st p, received := cfg.received ++ [p] }
  else cfg

/-- The task performs its next effect. `SEM_pend` needs a positive semaphore count,
which it decrements, and otherwise the task stays blocked (no step). A `SEM_pend` on an
absent structure and a finished program have no step. The copies and the cache
operations move data between the shared buffer and the arrays; they touch neither the
handshake fields nor the counter nor the semaphore, and the data they move is left out
of the configuration. -/
def taskStep (prog : List Effect) (cfg : Config) : Option Config :=
  match prog[cfg.pc]? with
  | none => none
  | some Effect.semNew => some { cfg with st := { cfg.st with sem := 0 }, pc := cfg.pc + 1 }
  | some Effect.notifyRegister => some { cfg with registered := true, pc := cfg.pc + 1 }
  | some (Effect.semPend true) =>
    if 0 < cfg.st.sem then
      some { cfg with st := { cfg.st with sem := cfg.st.sem - 1 }, pc := cfg.pc + 1 }
    else none
  | some (Effect.semPend false) => none
  | some Effect.smooth => some { cfg with st := gaussian_smooth cfg.st, pc := cfg.pc + 1 }
  | some _ => some { cfg with pc := cfg.pc + 1 }

/-- One step of a run of the program `prog`. -/
def step (prog : List Effect) (cfg : Config) : Event → Option Config
  | Event.notify p => some (onNotify cfg p)
  | Event.task => taskStep prog cfg

/-- The configuration reached from `cfg` by the events `evs`, if every step exists. -/
def run (prog : List Effect) (cfg : Config) : List Event → Option Config
  | [] => some cfg
  | ev :: evs =>
    match step prog cfg ev with
    | none => none
    | some cfg2 => run prog cfg2 evs

/-- The configuration in which a run starts from the globals `s`. -/
def start (s : State) : Config where
  st := s
  pc := 0
  registered := false
  received := []


/-- The number of `SEM_pend` calls among the first `n` effects of a program. -/
def pendsBefore (prog : List Effect) (n : Nat) : Nat :=
  (prog.take n).count (Effect.semPend true)

/-- The results of the DSP/BIOS calls in a run where every call succeeds. -/
def allOk : Bios where
  allocOk := true
  registerStatus := Status.SYS_OK
  notifyStatus := Status.SYS_OK

/-- What holds of every configuration of a run of a successful session started from
globals `s0`: the callback is registered exactly after the fourth effect, the handshake
fields are those that the received payloads produce, and once the semaphore exists the
number of notifications received is its count plus the number of completed waits. -/
structure SessionInv (s0 : State) (cfg : Config) : Prop where
  reg : cfg.registered = true ↔ 4 ≤ cfg.pc
  none_before : cfg.pc < 4 → cfg.received = []
  count_eq : cfg.st.count = (deliver s0 cfg.received).count
  buf_eq : cfg.st.buf = (deliver s0 cfg.received).buf
  rows_eq : cfg.st.rows = (deliver s0 cfg.received).rows
  cols_eq : cfg.st.cols = (deliver s0 cfg.received).cols
  windowSize_eq : cfg.st.windowSize = (deliver s0 cfg.received).windowSize
  balance : 3 ≤ cfg.pc →
    cfg.received.length = cfg.st.sem + pendsBefore (session allOk) cfg.pc

/-- A run of a successful session up to the image copy: the task sets up and registers,
the host sends the four establishment notifications, the task sends its readiness
notification, passes its four waits and invalidates its cache view. -/
def sampleEvents : List Event :=
  [Event.task, Event.task, Event.task, Event.task,
   Event.notify 2348810240, Event.task, Event.notify 240, Event.notify 320, Event.task,
   Event.task, Event.notify 13, Event.task, Event.task, Event.task]

/-- The configuration that the run `sampleEvents` reaches. -/
def sampleRun : Config :=
  (run (session allOk) (start initState) sampleEvents).getD (start initState)

end Dsp

/-! ## The derivative stage of the host (`canny_edge.c`) -/

namespace Gpp

/-- The value stored by `d[...] = (short)smoothedim[a] - (short)smoothedim[b]`: each
sample is cast to `short`, the difference is formed in `int` and stored in a `short`. -/
def shortDiff (smoothedim : Int → Nat) (a b : Int) : Int :=
  toShort (toShort (smoothedim a) - toShort (smoothedim b))

/-- One trip of the loop over `r` of `derrivative_x_y` (lines 457-465): the forward
difference at the start of the row, the central differences, the backward difference
at its end; `pos` runs along the row. -/
def dxRow (smoothedim : Int → Nat) (cols : Int) (delta_x : Int → Int) (r : Int) : Int → Int :=
  let pos := r * cols
  let d1 := Function.update delta_x pos (shortDiff smoothedim (pos + 1) pos)
  let st := forLoop 1 (cols - 1)
    (fun (st : (Int → Int) × Int) (_ : Int) =>
      (Function.update st.1 st.2 (shortDiff smoothedim (st.2 + 1) (st.2 - 1)), st.2 + 1))
    (d1, pos + 1)
  Function.update st.1 st.2 (shortDiff smoothedim st.2 (st.2 - 1))

/-- One trip of the loop over `c` of `derrivative_x_y` (lines 467-475); `pos` runs
down the column in steps of `cols`. -/
def dyCol (smoothedim : Int → Nat) (rows cols : Int) (delta_y : Int → Int) (c : Int) :
    Int → Int :=
  let pos := c
  let d1 := Function.update delta_y pos (shortDiff smoothedim (pos + cols) pos)
  let st := forLoop 1 (rows - 1)
    (fun (st : (Int → Int) × Int) (_ : Int) =>
      (Function.update st.1 st.2 (shortDiff smoothedim (st.2 + cols) (st.2 - cols)),
       st.2 + cols))
    (d1, pos + cols)
  Function.update st.1 st.2 (shortDiff smoothedim st.2 (st.2 - cols))

/-- The function `derrivative_x_y` on the path where both allocations succeed (a failed allocation
ends the program with `exit(1)`): `dx0` and `dy0` are the contents of the freshly
allocated arrays, the result is the pair `(delta_x, delta_y)`. -/
def derrivative_x_y (smoothedim : Int → Nat) (rows cols : Int) (dx0 dy0 : Int → Int) :
    (Int → Int) × (Int → Int) :=
  (forLoop 0 rows (fun d r => dxRow smoothedim cols d r) dx0,
   forLoop 0 cols (fun d c => dyCol smoothedim rows cols d c) dy0)

/-- A raster of samples below `1000`, all of which fit a `short`. -/
def sampleRaster : Int → Nat :=
  fun i => (i.toNat * i.toNat * 3) % 1000

end Gpp

/-! ## The fixed-point macros of the host (`canny_edge.c`) -/

namespace Gpp

/-- The macro `#define INT_FIXED(number) (((uint16_t)number)<<8)` of the host: the
operand is cut to 16 bits, promoted to `int` and shifted; the shifted value is below
`2^24`, so the `int` shift is exact. -/
def INT_FIXED (number : Nat) : Nat :=
  (number % 65536) * 256

/-- The macro `#define MULTIPLICATION(A,B) (uint16_t)(((uint32_t)A*(uint32_t)B+(1<<(7)))>>8)`
of the host: product and sum are formed in `uint32_t`, the shifted value is cut to 16
bits. -/
def MULTIPLICATION (A B : Nat) : Nat :=
  (((A % 4294967296) * (B % 4294967296) % 4294967296 + 128) % 4294967296 / 256) % 65536

/-- The macro `#define DIVISION(A,B) (uint16_t)((((uint32_t)A<<8)+(B/2))/B)` of the
host: `B` is the `uint32_t` sum at its one use; shift and sum are formed in `uint32_t`,
the quotient is cut to 16 bits. Division by `B = 0` is undefined in C; the value `0`
that `Nat` division gives there is a placeholder. -/
def DIVISION (A B : Nat) : Nat :=
  ((((A % 4294967296) * 256) % 4294967296 + (B % 4294967296) / 2) % 4294967296
    / (B % 4294967296)) % 65536

/-- The single row `[10, 20, 30, 40]` (cells outside the row hold `0`). -/
def rampRow : Int → Nat :=
  fun i => if i = 0 then 10 else if i = 1 then 20 else if i = 2 then 30
    else if i = 3 then 40 else 0

end Gpp

namespace Dsp

/-- The results of the DSP/BIOS calls in a run where the registration of the callback
fails with status code `7`. -/
def registerFails : Bios where
  allocOk := true
  registerStatus := Status.failure 7
  notifyStatus := Status.SYS_OK

end Dsp

/-! ## IEEE arithmetic on scaled integers

The `float` and `double` values that occur below are finite, not negative and normal.
Such a value is `k * 2^e` with `k` a natural number of at most 24 bits (`float`) or 53
bits (`double`). Scaled by a fixed power of two, the values of an expression are natural
numbers, and the IEEE result of an operation, the exact result rounded to nearest with
ties to even, is `roundSig 24` (`float`) or `roundSig 53` (`double`) of the scaled exact
result. -/

/-- The number of bits of `n`, with `fuel` steps. -/
def bitLengthAux : Nat → Nat → Nat
  | 0, _ => 0
  | fuel + 1, n => if n = 0 then 0 else bitLengthAux fuel (n / 2) + 1

/-- The number of bits of `n`: the least `b` with `n < 2^b`. -/
def bitLength (n : Nat) : Nat :=
  bitLengthAux n n

/-- Rounding of `n` to `p` significant bits, to nearest with ties to even: the low
`bitLength n - p` bits are dropped, and the kept part is incremented when the dropped
part is above one half of its range, or equal to it with an odd kept part. -/
def roundSig (p n : Nat) : Nat :=
  let sh := bitLength n - p
  let q := n / 2 ^ sh
  let r := n % 2 ^ sh
  if 2 * r < 2 ^ sh ∨ (2 * r = 2 ^ sh ∧ q % 2 = 0) then q * 2 ^ sh else (q + 1) * 2 ^ sh

/-! ## The rescale loop of the host `gaussian_smooth` (`canny_edge.c`) -/

namespace Gpp

/-- The macro `#define FIXED_FLOAT(number) (((float)number)/256)`, as a `float` scaled
by `256`: the conversion of the sample to `float`; the division by the power of two
`256` is exact. -/
def FIXED_FLOAT (number : Nat) : Nat :=
  roundSig 24 number

/-- One lane of the vector operations of a batch, on a `float` scaled by `256`:
`vmulq_f32` by `90.0f`, `vaddq_f32` of `0.5f`, `vcvtq_u32_f32` (truncation toward zero,
saturating at `2^32 - 1`) and `vqmovn_u32` (saturating at `2^16 - 1`). -/
def boostLane (f : Nat) : Nat :=
  let product := roundSig 24 (f * 90)
  let sum := roundSig 24 (product + 128)
  let tempU32 := min (sum / 256) 4294967295
  min tempU32 65535

/-- The loop `for(j = 0; j < 4; j++) smoothedimSIMD[j] = FIXED_FLOAT(*smoothedimTemp++)`:
the four loaded lanes and the advanced read position `src`. -/
def loadBatch (smoothedimTemp : Int → Nat) (src : Int) : (Int → Nat) × Int :=
  forLoop 0 4
    (fun (st : (Int → Nat) × Int) (j : Int) =>
      (Function.update st.1 j (FIXED_FLOAT (smoothedimTemp st.2)), st.2 + 1))
    (fun _ => 0, src)

/-- One trip of the loop over `i` (lines 520-536): four samples are loaded, the four
lanes are computed, `vst1_u16` stores them at the write position `dst`, which then
advances by four. The state is the allocated output array, indexed from its first cell,
with the read position `src` and the write position `dst`. -/
def rescaleBatch (smoothedimTemp : Int → Nat) (st : (Int → Nat) × Int × Int) :
    (Int → Nat) × Int × Int :=
  let loaded := loadBatch smoothedimTemp st.2.1
  let out0 := Function.update st.1 st.2.2 (boostLane (loaded.1 0))
  let out1 := Function.update out0 (st.2.2 + 1) (boostLane (loaded.1 1))
  let out2 := Function.update out1 (st.2.2 + 2) (boostLane (loaded.1 2))
  let out3 := Function.update out2 (st.2.2 + 3) (boostLane (loaded.1 3))
  (out3, loaded.2, st.2.2 + 4)

/-- The loop `for(i = 0; i < cols*rows/4; i++)` of the host `gaussian_smooth`, started
at the first cell of the returned buffer `smoothedimTemp` and of the allocated array,
whose fresh content is `heap0`. The counter `i` is a `short int`: when `cols*rows/4`
exceeds `32767` the counter wraps around before it reaches the bound and the loop does
not end, so there is no result. -/
def rescaleLoop (smoothedimTemp : Int → Nat) (rows cols : Int) (heap0 : Int → Nat) :
    Option ((Int → Nat) × Int × Int) :=
  if Int.tdiv (cols * rows) 4 ≤ 32767 then
    some (forLoop 0 (Int.tdiv (cols * rows) 4)
      (fun (st : (Int → Nat) × Int × Int) (_ : Int) => rescaleBatch smoothedimTemp st)
      (heap0, 0, 0))
  else none

/-- The part of the host `gaussian_smooth` that follows the exchange with the
co-processor: `smoothedimTemp` is the smoothed raster that the co-processor returned,
`heap0` the memory around the array that `malloc` returned (cell `0` is the first cell
of the array; the result of `malloc` is not checked). After the loop the pointer
`smoothedim`, which the loop advanced by four per trip, is moved back by `cols*rows`,
and the function returns it: cell `k` of the result is the memory cell `k` cells after
that pointer. -/
def gaussian_smooth (smoothedimTemp : Int → Nat) (rows cols : Int) (heap0 : Int → Nat) :
    Option (Int → Nat) :=
  match rescaleLoop smoothedimTemp rows cols heap0 with
  | none => none
  | some st => some (fun k => st.1 (st.2.2 - cols * rows + k))

/-- The returned fixed-point samples `256, 512, 768, 1024, 1280` of a 1 x 5 raster. -/
def fiveSamples : Int → Nat :=
  fun i => if 0 ≤ i ∧ i < 5 then 256 * (i.toNat + 1) else 0

end Gpp

/-! ## The kernel generator of the host (`canny_edge.c`) -/

namespace Gpp

/-- A finite `float` that is not negative: the value `mant * 2^exp`, with a mantissa of
at most 24 bits. -/
structure Float32 where
  /-- The mantissa. -/
  mant : Nat
  /-- The exponent of the last mantissa bit. -/
  exp : Int
  /-- The mantissa has at most 24 bits. -/
  mant_lt : mant < 16777216

/-- The exact value of a `float`. -/
def Float32.toRat (x : Float32) : ℚ :=
  (x.mant : ℚ) * (2 : ℚ) ^ x.exp

/-- The value of `ceil(2.5 * sigma)`: `sigma` is promoted to `double`, the product
`2.5 * sigma = 5 * mant * 2^(exp - 1)` is rounded to `double`, and `ceil` gives the
least integer that is not below it. -/
def ceilProduct (sigma : Float32) : Nat :=
  let product := roundSig 53 (5 * sigma.mant)
  if 0 ≤ sigma.exp - 1 then product * 2 ^ (sigma.exp - 1).toNat
  else (product + 2 ^ (1 - sigma.exp).toNat - 1) / 2 ^ (1 - sigma.exp).toNat

/-- The assignment `*windowsize = 1 + 2 * ceil(2.5 * sigma)`: the right-hand side is a
`double`, and its conversion to `int` is defined only for a value below `2^31`. -/
def windowsizeOf (sigma : Float32) : Option Int :=
  let value := roundSig 53 (1 + 2 * ceilProduct sigma)
  if value < 2147483648 then some (value : Int) else none

/-- The first loop of `make_gaussian_kernel` (lines 569-575), on the pair of the kernel
array and the `uint32_t` accumulator `sum`. The value `fx` of
`FLOAT_FIXED(pow(2.71828, -0.5*x*x/(sigma*sigma)) / (sigma * sqrt(6.2831853)))`, a
`uint16_t`, comes from the mathematical library and is a parameter: `rawWeight`
gives it as a function of `x*x`, through which alone the expression depends on `x`
(the product `-0.5*x*x` is the same `double` for `x` and `-x`). -/
def rawLoop (rawWeight : Int → Nat) (windowsize center : Int) (kernel0 : Int → Nat) :
    (Int → Nat) × Nat :=
  forLoop 0 windowsize
    (fun (st : (Int → Nat) × Nat) (i : Int) =>
      (Function.update st.1 i (rawWeight ((i - center) * (i - center))),
       (st.2 + rawWeight ((i - center) * (i - center))) % 4294967296))
    (kernel0, 0)

/-- The second loop of `make_gaussian_kernel` (line 577):
`(*kernel)[i] = DIVISION((*kernel)[i], sum)`. -/
def normalizeLoop (windowsize : Int) (sum : Nat) (kernel : Int → Nat) : Int → Nat :=
  forLoop 0 windowsize (fun (k : Int → Nat) (i : Int) =>
    Function.update k i (DIVISION (k i) sum)) kernel

/-- The function `make_gaussian_kernel` on the path where the allocation succeeds:
`kernel0` is the content of the freshly allocated array, the result is the pair of the
kernel and `windowsize`; there is no result when the conversion that gives `windowsize`
is undefined. -/
def make_gaussian_kernel (sigma : Float32) (rawWeight : Int → Nat) (kernel0 : Int → Nat) :
    Option ((Int → Nat) × Int) :=
  match windowsizeOf sigma with
  | none => none
  | some windowsize =>
    let center := Int.tdiv windowsize 2
    let st := rawLoop rawWeight windowsize center kernel0
    some (normalizeLoop windowsize st.2 st.1, windowsize)

/-- The `float` `2.5`, the value of `sigma` that `main` passes. -/
def sigmaDefault : Float32 where
  mant := 5
  exp := -1
  mant_lt := by decide

/-- The `float` `2.0`. -/
def sigmaTwo : Float32 where
  mant := 1
  exp := 1
  mant_lt := by decide

/-- The `float` `1.0`. -/
def sigmaOne : Float32 where
  mant := 1
  exp := 0
  mant_lt := by decide

/-- The raw weights for `sigma = 2.0`, as a function of `x*x`: the integer parts
`51, 45, 30, 16, 6, 2` of `256 * 2.71828^(-x*x/8) / (2 * sqrt(6.2831853))` for
`x = 0, ..., 5`. -/
def rawTwo : Int → Nat :=
  fun xx => if xx = 0 then 51 else if xx = 1 then 45 else if xx = 4 then 30
    else if xx = 9 then 16 else if xx = 16 then 6 else if xx = 25 then 2 else 0

/-- The raw weights for `sigma = 1.0`, as a function of `x*x`: the integer parts
`102, 61, 13, 1` of `256 * 2.71828^(-x*x/2) / sqrt(6.2831853)` for `x = 0, ..., 3`. -/
def rawOne : Int → Nat :=
  fun xx => if xx = 0 then 102 else if xx = 1 then 61 else if xx = 4 then 13
    else if xx = 9 then 1 else 0

end Gpp

namespace Gpp

/-- The exact sum of the raw weights of a kernel of `windowsize` entries. -/
def rawSum (rawWeight : Int → Nat) (windowsize : Int) : Nat :=
  ∑ i ∈ Finset.range windowsize.toNat,
    rawWeight (((i : Int) - Int.tdiv windowsize 2) * ((i : Int) - Int.tdiv windowsize 2))

/-- The exact sum of the entries of a kernel of `windowsize` entries. -/
def kernelSum (kernel : Int → Nat) (windowsize : Int) : Nat :=
  ∑ i ∈ Finset.range windowsize.toNat, kernel (i : Int)

end Gpp

/-- The integer square root of `n` found bit by bit from bit `b` down, on top of the
bits already set in `r`. -/
def isqrtAux (n : Nat) : Nat → Nat → Nat
  | 0, r => r
  | b + 1, r =>
    if (r + 2 ^ b) * (r + 2 ^ b) ≤ n then isqrtAux n b (r + 2 ^ b) else isqrtAux n b r

/-- The integer square root of `n`: the greatest `r` with `r * r ≤ n`. -/
def isqrt (n : Nat) : Nat :=
  isqrtAux n (bitLength n) 0

/-! ## The magnitude stage of the host (`canny_edge.c`) -/

namespace Gpp

/-- The value of `sqrt(y)` for a `double` `y` that is an integer, as a `double` scaled
by `2^52`: the IEEE square root is the exact root rounded to 53 significant bits. The
exact root of `y * 2^104` lies between `root` and `root + 1`; its leading 53 bits are
`q`, and the rounding goes up exactly when the root is above the midpoint
`(2*q + 1) * 2^sh / 2` (it is never equal to it). -/
def sqrtDouble (y : Nat) : Nat :=
  let root := isqrt (y * 2 ^ 104)
  let sh := bitLength root - 53
  let q := root / 2 ^ sh
  if (2 * q + 1) * (2 * q + 1) * 4 ^ sh < 4 * (y * 2 ^ 104) then (q + 1) * 2 ^ sh
  else q * 2 ^ sh

/-- The value stored by
`magnitude[pos] = (short)(0.5 + sqrt((float)sq1 + (float)sq2))` for the derivatives
`dx` and `dy` at `pos`: the squares are formed in `int`, converted to `float` and added
in `float`; the sum is promoted to `double`, `sqrt` and the addition of `0.5` are
`double` operations, and the conversion to `short` drops the fraction. C leaves that
conversion undefined for a value above `32767`; the model takes the low 16 bits of the
integer part, which is what the conversion instruction followed by the 16-bit store
leaves. -/
def magnitudeCell (dx dy : Int) : Int :=
  let sq1 := dx * dx
  let sq2 := dy * dy
  let sumF := roundSig 24 (roundSig 24 sq1.toNat + roundSig 24 sq2.toNat)
  let biased := roundSig 53 (2 ^ 51 + sqrtDouble sumF)
  toShort ((biased / 2 ^ 52 : Nat) : Int)

/-- The function `magnitude_x_y`: the loop nest over `r` and `c` with the running
position `pos`, which starts at `0` and advances with `c`. -/
def magnitude_x_y (delta_x delta_y : Int → Int) (rows cols : Int) (magnitude : Int → Int) :
    Int → Int :=
  (forLoop 0 rows
    (fun (st : (Int → Int) × Int) (_ : Int) =>
      forLoop 0 cols
        (fun (st : (Int → Int) × Int) (_ : Int) =>
          (Function.update st.1 st.2 (magnitudeCell (delta_x st.2) (delta_y st.2)),
           st.2 + 1))
        st)
    (magnitude, 0)).1

end Gpp

namespace Gpp

/-- The integer nearest to the square root of `y`, `floor(sqrt(y) + 1/2)`, in integer
arithmetic. -/
def roundSqrt (y : Nat) : Nat :=
  (isqrt (4 * y) + 1) / 2

end Gpp

namespace Dsp

/-- The globals of `task.c` once `Task_execute` has copied a uniform 4 x 4 raster of
value 100 into `image` and the 7 entries of a kernel into `kernel` (the other cells of
the static array `kernel[20]` keep their initial `0`). -/
def uniformSevenTap (kernel : Int → Nat) : State where
  buf := 0
  rows := 4
  cols := 4
  windowSize := 7
  image := fun _ => 100
  kernel := fun i => if 0 ≤ i ∧ i < 7 then kernel i else 0
  tempim := fun _ => 0
  smoothedim := fun _ => 0
  count := 4
  sem := 0

end Dsp

/-! ## Runs of the task with the effects they perform -/

namespace Dsp

/-- The effects that the task performs along the events `evs` from the configuration
`cfg`, in the order in which it performs them: each step of the task performs the
effect at the program counter, a notification performs none. -/
def performed (prog : List Effect) (cfg : Config) : List Event → List Effect
  | [] => []
  | Event.notify p :: evs => performed prog (onNotify cfg p) evs
  | Event.task :: evs =>
    match taskStep prog cfg with
    | none => []
    | some cfg2 => (prog[cfg.pc]?).toList ++ performed prog cfg2 evs

/-- The configuration in which `Task_execute` starts: the callback is registered, the
semaphore holds the count that `Task_create` left. -/
def executeStart (s : State) : Config where
  st := s
  pc := 0
  registered := true
  received := []

/-- A run of `Task_execute` to its end: the host sends a notification before each of
the two waits. -/
def executeEvents (p q : Nat) : List Event :=
  [Event.notify p, Event.task, Event.task, Event.task, Event.task,
   Event.notify q, Event.task, Event.task, Event.task,
   Event.task,
   Event.task, Event.task, Event.task]

/-- The results of the DSP/BIOS calls in a run where `MEM_calloc` returns `NULL`. -/
def allocFails : Bios where
  allocOk := false
  registerStatus := Status.SYS_OK
  notifyStatus := Status.SYS_OK

end Dsp

namespace Gpp

/-- A 2 x 2 raster of rescaled samples: the rescaled values of the fixed-point samples
`0, 65535, 65535, 0`. -/
def extremeRaster : Int → Nat :=
  fun i => if i = 1 ∨ i = 2 then boostLane (FIXED_FLOAT 65535) else boostLane (FIXED_FLOAT 0)

/-- A raster whose cell `0` holds `3` and whose other cells hold `8`. -/
def stepRaster : Int → Nat :=
  fun i => if i = 0 then 3 else 8

end Gpp

/-! # Theorems -/
/-! ## Loops that fill an array -/

theorem foldl_update_other {A β : Type} (idx : A → Int) (v : A → β) (l : List A)
    (t : Int → β) (j : Int) (h : ∀ x ∈ l, idx x ≠ j) :
    (l.foldl (fun t x => Function.update t (idx x) (v x)) t) j = t j := by
  induction l generalizing t with
  | nil => rfl
  | cons x l ih =>
    rw [List.foldl_cons, ih _ (fun y hy => h y (List.mem_cons_of_mem _ hy))]
    exact Function.update_noteq (Ne.symm (h x (List.mem_cons_self _ _))) _ _

theorem foldl_update_hit {A β : Type} (idx : A → Int) (v : A → β) (l : List A)
    (t : Int → β) (j : Int) (w : β) (hex : ∃ x ∈ l, idx x = j)
    (hall : ∀ x ∈ l, idx x = j → v x = w) :
    (l.foldl (fun t x => Function.update t (idx x) (v x)) t) j = w := by
  induction l generalizing t with
  | nil => obtain ⟨x, hx, _⟩ := hex; cases hx
  | cons x l ih =>
    rw [List.foldl_cons]
    by_cases h : ∃ y ∈ l, idx y = j
    · exact ih _ h (fun y hy => hall y (List.mem_cons_of_mem _ hy))
    · have h2 : ∀ y ∈ l, idx y ≠ j := fun y hy hj => h ⟨y, hy, hj⟩
      rw [foldl_update_other idx v l _ j h2]
      obtain ⟨y, hy, hj⟩ := hex
      rcases List.mem_cons.1 hy with rfl | hy2
      · rw [← hj, Function.update_same]
        exact hall y (List.mem_cons_self _ _) hj
      · exact absurd hj (h2 y hy2)

theorem nest_update_other {A B β : Type} (idx : A → B → Int) (v : A → B → β)
    (la : List A) (lb : List B) (t : Int → β) (j : Int)
    (h : ∀ x ∈ la, ∀ y ∈ lb, idx x y ≠ j) :
    (la.foldl (fun t x => lb.foldl (fun t y => Function.update t (idx x y) (v x y)) t) t) j
      = t j := by
  induction la generalizing t with
  | nil => rfl
  | cons x la ih =>
    rw [List.foldl_cons, ih _ (fun a ha => h a (List.mem_cons_of_mem _ ha))]
    exact foldl_update_other (idx x) (v x) lb t j (h x (List.mem_cons_self _ _))

theorem nest_update_hit {A B β : Type} (idx : A → B → Int) (v : A → B → β)
    (la : List A) (lb : List B) (t : Int → β) (j : Int) (w : β)
    (hex : ∃ x ∈ la, ∃ y ∈ lb, idx x y = j)
    (hall : ∀ x ∈ la, ∀ y ∈ lb, idx x y = j → v x y = w) :
    (la.foldl (fun t x => lb.foldl (fun t y => Function.update t (idx x y) (v x y)) t) t) j
      = w := by
  induction la generalizing t with
  | nil => obtain ⟨x, hx, _⟩ := hex; cases hx
  | cons x la ih =>
    rw [List.foldl_cons]
    by_cases h : ∃ a ∈ la, ∃ y ∈ lb, idx a y = j
    · exact ih _ h (fun a ha => hall a (List.mem_cons_of_mem _ ha))
    · have h2 : ∀ a ∈ la, ∀ y ∈ lb, idx a y ≠ j := fun a ha y hy hj => h ⟨a, ha, y, hy, hj⟩
      rw [nest_update_other idx v la lb _ j h2]
      obtain ⟨a, ha, y, hy, hj⟩ := hex
      rcases List.mem_cons.1 ha with rfl | ha2
      · exact foldl_update_hit (idx a) (v a) lb t j w ⟨y, hy, hj⟩
          (hall a (List.mem_cons_self _ _))
      · exact absurd hj (h2 a ha2 y hy)

/-- A cell `r * cols + c` with `0 ≤ c < cols` determines `r` and `c`. -/
theorem cell_index_inj (cols r c r2 c2 : Int) (hc : 0 ≤ c ∧ c < cols)
    (hc2 : 0 ≤ c2 ∧ c2 < cols) (h : r * cols + c = r2 * cols + c2) : r = r2 ∧ c = c2 := by
  have hr : r = r2 := by
    rcases lt_trichotomy r r2 with hlt | heq | hgt
    · exfalso
      have : (r + 1) * cols ≤ r2 * cols :=
        Int.mul_le_mul_of_nonneg_right (by omega) (by omega)
      rw [add_mul] at this
      omega
    · exact heq
    · exfalso
      have : (r2 + 1) * cols ≤ r * cols :=
        Int.mul_le_mul_of_nonneg_right (by omega) (by omega)
      rw [add_mul] at this
      omega
  subst hr
  exact ⟨rfl, by omega⟩

/-- The row-major loop nest `for r < rows, for c < cols: t[r*cols+c] = v r c`
leaves `v r c` in cell `r*cols+c`. -/
theorem forLoop_rows_cols {β : Type} (v : Int → Int → β) (rows cols : Int) (t : Int → β)
    (r c : Int) (hr : 0 ≤ r ∧ r < rows) (hc : 0 ≤ c ∧ c < cols) :
    forLoop 0 rows (fun t r => forLoop 0 cols
      (fun t c => Function.update t (r * cols + c) (v r c)) t) t (r * cols + c) = v r c := by
  unfold forLoop
  refine nest_update_hit (fun (x y : Nat) => (0 + (x : Int)) * cols + (0 + (y : Int)))
    (fun (x y : Nat) => v (0 + (x : Int)) (0 + (y : Int))) _ _ t _ _ ?_ ?_
  · refine ⟨r.toNat, List.mem_range.2 (by omega), c.toNat, List.mem_range.2 (by omega), ?_⟩
    simp only [zero_add, Int.toNat_of_nonneg hr.1, Int.toNat_of_nonneg hc.1]
  · intro x _ y hy h
    have hy2 := List.mem_range.1 hy
    simp only [zero_add] at h ⊢
    obtain ⟨h1, h2⟩ := cell_index_inj cols x y r c ⟨by omega, by omega⟩ hc h
    rw [h1, h2]

/-- The column-major loop nest `for c < cols, for r < rows: t[r*cols+c] = v r c`
leaves `v r c` in cell `r*cols+c`. -/
theorem forLoop_cols_rows {β : Type} (v : Int → Int → β) (rows cols : Int) (t : Int → β)
    (r c : Int) (hr : 0 ≤ r ∧ r < rows) (hc : 0 ≤ c ∧ c < cols) :
    forLoop 0 cols (fun t c => forLoop 0 rows
      (fun t r => Function.update t (r * cols + c) (v r c)) t) t (r * cols + c) = v r c := by
  unfold forLoop
  refine nest_update_hit (fun (y x : Nat) => (0 + (x : Int)) * cols + (0 + (y : Int)))
    (fun (y x : Nat) => v (0 + (x : Int)) (0 + (y : Int))) _ _ t _ _ ?_ ?_
  · refine ⟨c.toNat, List.mem_range.2 (by omega), r.toNat, List.mem_range.2 (by omega), ?_⟩
    simp only [zero_add, Int.toNat_of_nonneg hr.1, Int.toNat_of_nonneg hc.1]
  · intro y hy x _ h
    have hy2 := List.mem_range.1 hy
    simp only [zero_add] at h ⊢
    obtain ⟨h1, h2⟩ := cell_index_inj cols x y r c ⟨by omega, by omega⟩ hc h
    rw [h1, h2]

/-! ## Accumulation loops -/

/-- A loop that adds, modulo `2^32`, the terms `f cc` and `g cc` of the trips
that pass the guard `p` holds the two guarded sums modulo `2^32`. -/
theorem foldl_guarded_acc (p : Int → Prop) [DecidablePred p] (f g : Int → Nat) (lo : Int)
    (n : Nat) :
    (List.range n).foldl
        (fun (acc : Nat × Nat) (k : Nat) =>
          if p (lo + (k : Int)) then
            ((acc.1 + f (lo + (k : Int))) % 4294967296,
             (acc.2 + g (lo + (k : Int))) % 4294967296)
          else acc) (0, 0)
      = ((∑ k ∈ Finset.range n, if p (lo + (k : Int)) then f (lo + (k : Int)) else 0)
            % 4294967296,
         (∑ k ∈ Finset.range n, if p (lo + (k : Int)) then g (lo + (k : Int)) else 0)
            % 4294967296) := by
  induction n with
  | zero => rfl
  | succ n ih =>
    rw [List.range_succ, List.foldl_append, ih, Finset.sum_range_succ, Finset.sum_range_succ]
    simp only [List.foldl_cons, List.foldl_nil]
    by_cases hp : p (lo + (n : Int))
    · simp only [hp, if_true, Nat.mod_add_mod]
    · simp only [hp, if_false, Nat.add_zero]

/-- The guarded sum over the trips of a loop is the sum over the interval of
counter values that pass the guard. -/
theorem sum_range_eq_sum_Icc (p : Int → Prop) [DecidablePred p] (f : Int → Nat) (lo hi : Int) :
    (∑ k ∈ Finset.range (hi + 1 - lo).toNat, if p (lo + (k : Int)) then f (lo + (k : Int)) else 0)
      = ∑ cc ∈ (Finset.Icc lo hi).filter p, f cc := by
  rw [Finset.sum_filter, Int.Icc_eq_finset_map, Finset.sum_map]
  rfl

/-- A guarded sum of at most `n` terms, each at most `b`, is at most `n * b`. -/
theorem guarded_sum_le (p : Int → Prop) [DecidablePred p] (f : Int → Nat) (lo : Int)
    (n b : Nat) (hf : ∀ i, f i ≤ b) :
    (∑ k ∈ Finset.range n, if p (lo + (k : Int)) then f (lo + (k : Int)) else 0) ≤ n * b := by
  calc (∑ k ∈ Finset.range n, if p (lo + (k : Int)) then f (lo + (k : Int)) else 0)
      ≤ ∑ _k ∈ Finset.range n, b := by
        apply Finset.sum_le_sum
        intro k _
        split
        · exact hf _
        · exact Nat.zero_le _
    _ = n * b := by simp

/-- The accumulators of a guarded loop over `[-center, center]` with at most 21
trips and terms below `2^16` hold the exact guarded sums: no wraparound. -/
theorem forLoop_guarded_acc_exact (p : Int → Prop) [DecidablePred p] (f g : Int → Nat)
    (center : Int) (hcen : 2 * center + 1 ≤ 21) (hf : ∀ i, f i ≤ 65535)
    (hg : ∀ i, g i ≤ 65535) :
    forLoop (-center) (center + 1)
        (fun (acc : Nat × Nat) (cc : Int) =>
          if p cc then ((acc.1 + f cc) % 4294967296, (acc.2 + g cc) % 4294967296) else acc)
        (0, 0)
      = (∑ cc ∈ (Finset.Icc (-center) center).filter p, f cc,
         ∑ cc ∈ (Finset.Icc (-center) center).filter p, g cc) := by
  unfold forLoop
  rw [foldl_guarded_acc p f g (-center) _]
  have hn : (center + 1 - -center).toNat ≤ 21 := by omega
  have h1 := guarded_sum_le p f (-center) (center + 1 - -center).toNat 65535 hf
  have h2 := guarded_sum_le p g (-center) (center + 1 - -center).toNat 65535 hg
  have h3 : (center + 1 - -center).toNat * 65535 ≤ 21 * 65535 := Nat.mul_le_mul_right _ hn
  rw [Nat.mod_eq_of_lt (by omega), Nat.mod_eq_of_lt (by omega),
    sum_range_eq_sum_Icc p f (-center) center, sum_range_eq_sum_Icc p g (-center) center]

/-! ## Fixed-point multiply and divide against exact integer arithmetic -/

/-- C4 (as stated) fails: the operands `a = 65280` (the Q8 value of 255) and `b = 258`
are unsigned 16-bit values, the exact `(a*b + 128) >> 8` is `65790`, and the macro,
which cuts its result to 16 bits, returns `254`. -/
theorem Dsp.MULTIPLICATION_truncates :
    65280 < 65536 ∧ 258 < 65536 ∧ (65280 * 258 + 128) / 256 = 65790 ∧
    Dsp.MULTIPLICATION 65280 258 = 254 ∧
    Dsp.MULTIPLICATION 65280 258 ≠ (65280 * 258 + 128) / 256 := by
  decide

/-- C4 (amended). For all unsigned 16-bit operands `a` and `b`, `MULTIPLICATION(a,b)` is
the exact integer `(a*b + 128) >> 8` reduced modulo `2^16`; whenever `a*b + 128 < 2^24`
it is that exact integer, which is `a*b/256` rounded to nearest:
`256*m ≤ a*b + 128 < 256*(m+1)`. -/
theorem Dsp.MULTIPLICATION_spec (a b : Nat) (ha : a < 65536) (hb : b < 65536) :
    Dsp.MULTIPLICATION a b = (a * b + 128) / 256 % 65536 ∧
    (a * b + 128 < 16777216 →
      Dsp.MULTIPLICATION a b = (a * b + 128) / 256 ∧
      256 * Dsp.MULTIPLICATION a b ≤ a * b + 128 ∧
      a * b + 128 < 256 * (Dsp.MULTIPLICATION a b + 1)) := by
  have hab : a * b ≤ 65535 * 65535 := Nat.mul_le_mul (by omega) (by omega)
  have h1 : Dsp.MULTIPLICATION a b = (a * b + 128) / 256 % 65536 := by
    unfold Dsp.MULTIPLICATION
    rw [Nat.mod_eq_of_lt (show a < 4294967296 by omega),
      Nat.mod_eq_of_lt (show b < 4294967296 by omega)]
    generalize a * b = p at hab
    omega
  refine ⟨h1, fun hsmall => ?_⟩
  rw [h1]
  generalize a * b = p at hab hsmall
  omega

theorem Dsp.MULTIPLICATION_spec_witness :
    Dsp.MULTIPLICATION 65280 64 = (65280 * 64 + 128) / 256 % 65536 ∧
    (65280 * 64 + 128 < 16777216 →
      Dsp.MULTIPLICATION 65280 64 = (65280 * 64 + 128) / 256 ∧
      256 * Dsp.MULTIPLICATION 65280 64 ≤ 65280 * 64 + 128 ∧
      65280 * 64 + 128 < 256 * (Dsp.MULTIPLICATION 65280 64 + 1)) :=
  Dsp.MULTIPLICATION_spec 65280 64 (by decide) (by decide)

/-- C5 (as stated) fails: for the numerator `a = 256` and the divisor `b = 1` the exact
`((a << 8) + b/2) / b` is `65536`, and the macro, which cuts its result to 16 bits,
returns `0`; for `a = 2^24`, `b = 1` the 32-bit shift itself wraps to `0`. -/
theorem Dsp.DIVISION_truncates :
    256 < 4294967296 ∧ 0 < 1 ∧ (256 * 256 + 1 / 2) / 1 = 65536 ∧ Dsp.DIVISION 256 1 = 0 ∧
    Dsp.DIVISION 256 1 ≠ (256 * 256 + 1 / 2) / 1 ∧
    Dsp.DIVISION 16777216 1 ≠ (16777216 * 256 + 1 / 2) / 1 := by
  decide

/-- C5 (amended). For every unsigned 32-bit numerator `a` and divisor `b > 0` such that
`(a << 8) + b/2` stays below `2^32` and the quotient stays below `2^16`,
`DIVISION(a,b)` is the exact integer `floor((256*a + floor(b/2)) / b)`, which is
`256*a/b` rounded to nearest: `b*q ≤ 256*a + floor(b/2) < b*(q+1)`. -/
theorem Dsp.DIVISION_spec (a b : Nat) (hb : 0 < b) (hb32 : b < 4294967296)
    (hnum : a * 256 + b / 2 < 4294967296) (hq : (a * 256 + b / 2) / b < 65536) :
    Dsp.DIVISION a b = (a * 256 + b / 2) / b ∧
    b * Dsp.DIVISION a b ≤ a * 256 + b / 2 ∧
    a * 256 + b / 2 < b * (Dsp.DIVISION a b + 1) := by
  have h1 : Dsp.DIVISION a b = (a * 256 + b / 2) / b := by
    unfold Dsp.DIVISION
    rw [Nat.mod_eq_of_lt (show a < 4294967296 by omega), Nat.mod_eq_of_lt hb32,
      Nat.mod_eq_of_lt (show a * 256 < 4294967296 by omega), Nat.mod_eq_of_lt hnum,
      Nat.mod_eq_of_lt hq]
  rw [h1]
  exact ⟨rfl, Nat.mul_div_le _ _, Nat.lt_mul_div_succ _ hb⟩

theorem Dsp.DIVISION_spec_witness :
    Dsp.DIVISION 100 3 = (100 * 256 + 3 / 2) / 3 ∧
    3 * Dsp.DIVISION 100 3 ≤ 100 * 256 + 3 / 2 ∧
    100 * 256 + 3 / 2 < 3 * (Dsp.DIVISION 100 3 + 1) :=
  Dsp.DIVISION_spec 100 3 (by decide) (by decide) (by decide) (by decide)

/-! ## The fixed-point primitives -/

theorem Dsp.MULTIPLICATION_le (a b : Nat) : Dsp.MULTIPLICATION a b ≤ 65535 := by
  unfold Dsp.MULTIPLICATION
  omega

theorem tdiv_two_le (w : Int) (h : w ≤ 20) : Int.tdiv w 2 ≤ 10 := by
  rcases le_or_lt 0 w with h0 | h0
  · rw [Int.tdiv_eq_ediv h0 (by decide)]
    omega
  · have h1 : Int.tdiv (-w) 2 = -Int.tdiv w 2 := Int.neg_tdiv w 2
    have h2 : 0 ≤ Int.tdiv (-w) 2 := Int.tdiv_nonneg (by omega) (by decide)
    omega

/-! ## The two passes of the co-processor blur -/

theorem Dsp.xAcc_eq (s : Dsp.State) (r c : Int) (hker : ∀ i, s.kernel i < 65536)
    (hcap : s.windowSize ≤ 20) :
    Dsp.xAcc s (Dsp.center s) r c = (Dsp.xDotSpec s r c, Dsp.xSumSpec s c) := by
  have hcen := tdiv_two_le s.windowSize hcap
  exact forLoop_guarded_acc_exact (fun cc => 0 ≤ c + cc ∧ c + cc < s.cols)
    (fun cc => Dsp.MULTIPLICATION (Dsp.INT_FIXED (s.image (r * s.cols + (c + cc))))
      (s.kernel (Dsp.center s + cc)))
    (fun cc => s.kernel (Dsp.center s + cc)) (Dsp.center s)
    (by unfold Dsp.center; omega) (fun _ => Dsp.MULTIPLICATION_le _ _)
    (fun i => Nat.le_of_lt_succ (hker _))

theorem Dsp.yAcc_eq (s : Dsp.State) (r c : Int) (hker : ∀ i, s.kernel i < 65536)
    (hcap : s.windowSize ≤ 20) :
    Dsp.yAcc s (Dsp.center s) r c = (Dsp.yDotSpec s s.tempim r c, Dsp.ySumSpec s r) := by
  have hcen := tdiv_two_le s.windowSize hcap
  exact forLoop_guarded_acc_exact (fun rr => 0 ≤ r + rr ∧ r + rr < s.rows)
    (fun rr => Dsp.MULTIPLICATION (s.tempim ((r + rr) * s.cols + c))
      (s.kernel (Dsp.center s + rr)))
    (fun rr => s.kernel (Dsp.center s + rr)) (Dsp.center s)
    (by unfold Dsp.center; omega) (fun _ => Dsp.MULTIPLICATION_le _ _)
    (fun i => Nat.le_of_lt_succ (hker _))

theorem Dsp.blurX_tempim (s : Dsp.State) (r c : Int) (hr : 0 ≤ r ∧ r < s.rows)
    (hc : 0 ≤ c ∧ c < s.cols) :
    (Dsp.blurX s).tempim (r * s.cols + c) = Dsp.xPixel s (Dsp.center s) r c :=
  forLoop_rows_cols (fun r c => Dsp.xPixel s (Dsp.center s) r c) s.rows s.cols s.tempim r c hr hc

theorem Dsp.blurY_smoothedim (s : Dsp.State) (r c : Int) (hr : 0 ≤ r ∧ r < s.rows)
    (hc : 0 ≤ c ∧ c < s.cols) :
    (Dsp.blurY s).smoothedim (r * s.cols + c) = Dsp.yPixel s (Dsp.center s) r c :=
  forLoop_cols_rows (fun r c => Dsp.yPixel s (Dsp.center s) r c) s.rows s.cols s.smoothedim
    r c hr hc

theorem Dsp.tempim_eq (s : Dsp.State) (r c : Int)
    (hker : ∀ i, s.kernel i < 65536) (hcap : s.windowSize ≤ 20)
    (hr : 0 ≤ r ∧ r < s.rows) (hc : 0 ≤ c ∧ c < s.cols) :
    (Dsp.gaussian_smooth s).tempim (r * s.cols + c)
      = Dsp.DIVISION (Dsp.xDotSpec s r c) (Dsp.xSumSpec s c) := by
  show (Dsp.blurX s).tempim (r * s.cols + c) = _
  rw [Dsp.blurX_tempim s r c hr hc, Dsp.xPixel, Dsp.xAcc_eq s r c hker hcap]

theorem Dsp.smoothedim_eq (s : Dsp.State) (r c : Int)
    (hker : ∀ i, s.kernel i < 65536) (hcap : s.windowSize ≤ 20)
    (hr : 0 ≤ r ∧ r < s.rows) (hc : 0 ≤ c ∧ c < s.cols) :
    (Dsp.gaussian_smooth s).smoothedim (r * s.cols + c)
      = Dsp.DIVISION (Dsp.yDotSpec s (Dsp.blurX s).tempim r c) (Dsp.ySumSpec s r) := by
  show (Dsp.blurY (Dsp.blurX s)).smoothedim (r * (Dsp.blurX s).cols + c) = _
  rw [Dsp.blurY_smoothedim (Dsp.blurX s) r c hr hc, Dsp.yPixel,
    Dsp.yAcc_eq (Dsp.blurX s) r c hker hcap]
  rfl

/-- C1. X-pass of the co-processor `gaussian_smooth` with boundary renormalization: at
every pixel `(r, c)` of the raster whose in-range weight sum is non-zero, the divisor
the code uses is that non-zero sum and `tempim[r*cols+c] = DIVISION(dot, sum)`, where
`dot` and `sum` are the exact sums of `MULTIPLICATION(INT_FIXED(image[r*cols+c+cc]),
kernel[center+cc])` and of `kernel[center+cc]` over the offsets `cc` in
`[-center, center]` with `0 ≤ c+cc < cols`; taps out of range enter neither sum. The
kernel is any content of the 20-cell `uint16_t` array. -/
theorem Dsp.gaussian_smooth_xpass (s : Dsp.State) (r c : Int)
    (hker : ∀ i, s.kernel i < 65536) (hcap : s.windowSize ≤ 20)
    (hr : 0 ≤ r ∧ r < s.rows) (hc : 0 ≤ c ∧ c < s.cols)
    (hsum : Dsp.xSumSpec s c ≠ 0) :
    (Dsp.xAcc s (Int.tdiv s.windowSize 2) r c).2 ≠ 0 ∧
    (Dsp.gaussian_smooth s).tempim (r * s.cols + c)
      = Dsp.DIVISION (Dsp.xDotSpec s r c) (Dsp.xSumSpec s c) := by
  refine ⟨?_, Dsp.tempim_eq s r c hker hcap hr hc⟩
  show (Dsp.xAcc s (Dsp.center s) r c).2 ≠ 0
  rw [Dsp.xAcc_eq s r c hker hcap]
  exact hsum

/-- C2. Y-pass of the co-processor `gaussian_smooth`: at every pixel `(r, c)` of the
raster whose in-range weight sum is non-zero, the divisor the code uses is that non-zero
sum and `smoothedim[r*cols+c] = DIVISION(dot, sum)`, where `dot` and `sum` are the exact
sums of `MULTIPLICATION(tempim[(r+rr)*cols+c], kernel[center+rr])` and of
`kernel[center+rr]` over the offsets `rr` in `[-center, center]` with `0 ≤ r+rr < rows`,
and `tempim` is the result of the x-pass: the smoothed raster is the y-pass of the
x-pass. Rows out of range enter neither sum. -/
theorem Dsp.gaussian_smooth_ypass (s : Dsp.State) (r c : Int)
    (hker : ∀ i, s.kernel i < 65536) (hcap : s.windowSize ≤ 20)
    (hr : 0 ≤ r ∧ r < s.rows) (hc : 0 ≤ c ∧ c < s.cols)
    (hsum : Dsp.ySumSpec s r ≠ 0) :
    (Dsp.yAcc (Dsp.blurX s) (Int.tdiv s.windowSize 2) r c).2 ≠ 0 ∧
    (Dsp.gaussian_smooth s).smoothedim (r * s.cols + c)
      = Dsp.DIVISION (Dsp.yDotSpec s (Dsp.blurX s).tempim r c) (Dsp.ySumSpec s r) := by
  refine ⟨?_, Dsp.smoothedim_eq s r c hker hcap hr hc⟩
  show (Dsp.yAcc (Dsp.blurX s) (Dsp.center (Dsp.blurX s)) r c).2 ≠ 0
  rw [Dsp.yAcc_eq (Dsp.blurX s) r c hker hcap]
  exact hsum

theorem Dsp.gaussian_smooth_xpass_witness :
    Dsp.xSumSpec Dsp.sampleState 0 ≠ 0 ∧
    (Dsp.xAcc Dsp.sampleState (Int.tdiv Dsp.sampleState.windowSize 2) 1 0).2 ≠ 0 ∧
    (Dsp.gaussian_smooth Dsp.sampleState).tempim (1 * Dsp.sampleState.cols + 0)
      = Dsp.DIVISION (Dsp.xDotSpec Dsp.sampleState 1 0) (Dsp.xSumSpec Dsp.sampleState 0) :=
  ⟨by decide,
   Dsp.gaussian_smooth_xpass Dsp.sampleState 1 0
    (fun i => by
      show (if i = 2 then 116 else if i = 1 ∨ i = 3 then 60 else 10) < 65536
      split_ifs <;> decide)
    (by decide) (by decide) (by decide) (by decide)⟩

theorem Dsp.gaussian_smooth_ypass_witness :
    Dsp.ySumSpec Dsp.sampleState 2 ≠ 0 ∧
    (Dsp.yAcc (Dsp.blurX Dsp.sampleState) (Int.tdiv Dsp.sampleState.windowSize 2) 2 3).2 ≠ 0 ∧
    (Dsp.gaussian_smooth Dsp.sampleState).smoothedim (2 * Dsp.sampleState.cols + 3)
      = Dsp.DIVISION (Dsp.yDotSpec Dsp.sampleState (Dsp.blurX Dsp.sampleState).tempim 2 3)
          (Dsp.ySumSpec Dsp.sampleState 2) :=
  ⟨by decide,
   Dsp.gaussian_smooth_ypass Dsp.sampleState 2 3
    (fun i => by
      show (if i = 2 then 116 else if i = 1 ∨ i = 3 then 60 else 10) < 65536
      split_ifs <;> decide)
    (by decide) (by decide) (by decide) (by decide)⟩


/-! ## Constant rasters -/

theorem Dsp.MULTIPLICATION_const (v k : Nat) (hv : v ≤ 255) (hk : k ≤ 256) :
    Dsp.MULTIPLICATION (256 * v) k = v * k := by
  have hvk : v * k ≤ 255 * 256 := Nat.mul_le_mul hv hk
  unfold Dsp.MULTIPLICATION
  rw [Nat.mod_eq_of_lt (show 256 * v < 4294967296 by omega),
    Nat.mod_eq_of_lt (show k < 4294967296 by omega),
    show 256 * v * k = 256 * (v * k) by ring]
  generalize v * k = p at hvk
  omega

theorem Dsp.INT_FIXED_byte (v : Nat) (hv : v ≤ 255) : Dsp.INT_FIXED v = 256 * v := by
  unfold Dsp.INT_FIXED
  omega

theorem Dsp.DIVISION_const (v S : Nat) (hv : v ≤ 255) (hS : S ≠ 0) (hS2 : S ≤ 5376) :
    Dsp.DIVISION (v * S) S = 256 * v := by
  have hvS : v * S ≤ 255 * 5376 := Nat.mul_le_mul hv hS2
  have hpos : 0 < S := Nat.pos_of_ne_zero hS
  have hq : (v * S * 256 + S / 2) / S = 256 * v := by
    rw [show v * S * 256 = S * (256 * v) by ring, Nat.mul_add_div hpos,
      Nat.div_eq_of_lt (by omega)]
    rfl
  unfold Dsp.DIVISION
  rw [Nat.mod_eq_of_lt (show v * S < 4294967296 by omega),
    Nat.mod_eq_of_lt (show S < 4294967296 by omega),
    Nat.mod_eq_of_lt (show v * S * 256 < 4294967296 by omega),
    Nat.mod_eq_of_lt (show v * S * 256 + S / 2 < 4294967296 by omega), hq]
  omega

/-- A sum of weights, each at most 256, over offsets of a window of at most 21 trips. -/
theorem Dsp.window_sum_le (p : Int → Prop) [DecidablePred p] (g : Int → Nat) (cen : Int)
    (hcen : 2 * cen + 1 ≤ 21) (hg : ∀ i, g i ≤ 256) :
    (∑ cc ∈ (Finset.Icc (-cen) cen).filter p, g cc) ≤ 5376 := by
  rw [← sum_range_eq_sum_Icc p g (-cen) cen]
  have h := guarded_sum_le p g (-cen) (cen + 1 - -cen).toNat 256 hg
  have hn : (cen + 1 - -cen).toNat * 256 ≤ 21 * 256 := Nat.mul_le_mul_right _ (by omega)
  omega

theorem Dsp.xPixel_const (s : Dsp.State) (v : Nat) (r c : Int) (hv : v ≤ 255)
    (himg : ∀ r c : Int, 0 ≤ r ∧ r < s.rows → 0 ≤ c ∧ c < s.cols →
      s.image (r * s.cols + c) = v)
    (hker : ∀ i, s.kernel i ≤ 256) (hcap : s.windowSize ≤ 20)
    (hr : 0 ≤ r ∧ r < s.rows) (hx : Dsp.xSumSpec s c ≠ 0) :
    Dsp.xPixel s (Dsp.center s) r c = 256 * v := by
  have hcen := tdiv_two_le s.windowSize hcap
  have hdot : Dsp.xDotSpec s r c = v * Dsp.xSumSpec s c := by
    unfold Dsp.xDotSpec Dsp.xSumSpec
    rw [Finset.mul_sum]
    refine Finset.sum_congr rfl (fun cc hcc => ?_)
    have hin := (Finset.mem_filter.1 hcc).2
    rw [himg r (c + cc) hr hin, Dsp.INT_FIXED_byte v hv,
      Dsp.MULTIPLICATION_const v _ hv (hker _)]
  have hle : Dsp.xSumSpec s c ≤ 5376 :=
    Dsp.window_sum_le _ (fun cc => s.kernel (Dsp.center s + cc)) (Dsp.center s)
      (by unfold Dsp.center; omega) (fun _ => hker _)
  rw [Dsp.xPixel, Dsp.xAcc_eq s r c (fun i => lt_of_le_of_lt (hker i) (by decide)) hcap, hdot]
  exact Dsp.DIVISION_const v _ hv hx hle

/-- C3 (as stated) fails: the 1 x 1 raster of value 255 smoothed with the one-tap kernel
`[300]`, which is symmetric, gives `9356`, far from the Q8 value `65280` of 255: each
product `MULTIPLICATION(INT_FIXED(255), 300)` is cut to 16 bits. -/
theorem Dsp.gaussian_smooth_constant_fails :
    (∀ i : Int, Dsp.heavyKernelState.kernel i
        = Dsp.heavyKernelState.kernel (Dsp.heavyKernelState.windowSize - 1 - i)) ∧
    (∀ i : Int, Dsp.heavyKernelState.image i = 255) ∧
    (Dsp.gaussian_smooth Dsp.heavyKernelState).smoothedim (0 * Dsp.heavyKernelState.cols + 0)
      = 9356 ∧
    ¬ ((Dsp.gaussian_smooth Dsp.heavyKernelState).smoothedim
          (0 * Dsp.heavyKernelState.cols + 0) + 1 ≥ 256 * 255 ∧
       (Dsp.gaussian_smooth Dsp.heavyKernelState).smoothedim
          (0 * Dsp.heavyKernelState.cols + 0) ≤ 256 * 255 + 1) :=
  ⟨fun _ => rfl, fun _ => rfl, by decide, by decide⟩

/-- C3 (amended). Constant preservation: for every raster size, every constant 8-bit
value `v` and any kernel, symmetric or not, held in the 20-cell kernel array with every
weight at most 256 (as a normalized kernel's weights are), the co-processor
`gaussian_smooth` output at every pixel, border pixels included, whose in-range weight
sums of the two passes are non-zero equals the Q8 value `256*v` exactly, so it differs
from it by at most 1. -/
theorem Dsp.gaussian_smooth_constant (s : Dsp.State) (v : Nat) (r c : Int) (hv : v ≤ 255)
    (himg : ∀ r c : Int, 0 ≤ r ∧ r < s.rows → 0 ≤ c ∧ c < s.cols →
      s.image (r * s.cols + c) = v)
    (hker : ∀ i, s.kernel i ≤ 256) (hcap : s.windowSize ≤ 20)
    (hr : 0 ≤ r ∧ r < s.rows) (hc : 0 ≤ c ∧ c < s.cols)
    (hx : Dsp.xSumSpec s c ≠ 0) (hy : Dsp.ySumSpec s r ≠ 0) :
    (Dsp.gaussian_smooth s).smoothedim (r * s.cols + c) = 256 * v := by
  have hcen := tdiv_two_le s.windowSize hcap
  have hker16 : ∀ i, s.kernel i < 65536 := fun i => lt_of_le_of_lt (hker i) (by decide)
  have hdot : Dsp.yDotSpec s (Dsp.blurX s).tempim r c = v * Dsp.ySumSpec s r := by
    unfold Dsp.yDotSpec Dsp.ySumSpec
    rw [Finset.mul_sum]
    refine Finset.sum_congr rfl (fun rr hrr => ?_)
    have hin := (Finset.mem_filter.1 hrr).2
    rw [Dsp.blurX_tempim s (r + rr) c hin hc,
      Dsp.xPixel_const s v (r + rr) c hv himg hker hcap hin hx,
      Dsp.MULTIPLICATION_const v _ hv (hker _)]
  have hle : Dsp.ySumSpec s r ≤ 5376 :=
    Dsp.window_sum_le _ (fun rr => s.kernel (Dsp.center s + rr)) (Dsp.center s)
      (by unfold Dsp.center; omega) (fun _ => hker _)
  rw [Dsp.smoothedim_eq s r c hker16 hcap hr hc, hdot]
  exact Dsp.DIVISION_const v _ hv hy hle

theorem Dsp.gaussian_smooth_constant_witness :
    Dsp.xSumSpec Dsp.uniformState 0 ≠ 0 ∧ Dsp.ySumSpec Dsp.uniformState 3 ≠ 0 ∧
    (Dsp.gaussian_smooth Dsp.uniformState).smoothedim (3 * Dsp.uniformState.cols + 0)
      = 256 * 100 :=
  ⟨by decide, by decide,
   Dsp.gaussian_smooth_constant Dsp.uniformState 100 3 0 (by decide) (fun _ _ _ _ => rfl)
    (fun i => by
      show (if i = 1 then 128 else 64) ≤ 256
      split_ifs <;> decide)
    (by decide) (by decide) (by decide) (by decide) (by decide)⟩

/-! ## The handshake -/

theorem Dsp.Task_notify_count (s : Dsp.State) (p : Nat) :
    (Dsp.Task_notify s p).count = s.count + 1 := by
  obtain ⟨b, r, c, w, im, k, t, sm, n, se⟩ := s
  simp only [Dsp.Task_notify]
  split_ifs <;> rfl

theorem Dsp.Task_notify_sem (s : Dsp.State) (p : Nat) :
    (Dsp.Task_notify s p).sem = s.sem + 1 := by
  obtain ⟨b, r, c, w, im, k, t, sm, n, se⟩ := s
  simp only [Dsp.Task_notify]
  split_ifs <;> rfl

theorem Dsp.Task_notify_buf (s : Dsp.State) (p : Nat) :
    (Dsp.Task_notify s p).buf = if s.count = 0 then p else s.buf := by
  obtain ⟨b, r, c, w, im, k, t, sm, n, se⟩ := s
  simp only [Dsp.Task_notify]
  split_ifs <;> first | rfl | (exfalso; omega)

theorem Dsp.Task_notify_rows (s : Dsp.State) (p : Nat) :
    (Dsp.Task_notify s p).rows = if s.count = 1 then toInt32 p else s.rows := by
  obtain ⟨b, r, c, w, im, k, t, sm, n, se⟩ := s
  simp only [Dsp.Task_notify]
  split_ifs <;> first | rfl | (exfalso; omega)

theorem Dsp.Task_notify_cols (s : Dsp.State) (p : Nat) :
    (Dsp.Task_notify s p).cols = if s.count = 2 then toInt32 p else s.cols := by
  obtain ⟨b, r, c, w, im, k, t, sm, n, se⟩ := s
  simp only [Dsp.Task_notify]
  split_ifs <;> first | rfl | (exfalso; omega)

theorem Dsp.Task_notify_windowSize (s : Dsp.State) (p : Nat) :
    (Dsp.Task_notify s p).windowSize = if s.count = 3 then toInt32 p else s.windowSize := by
  obtain ⟨b, r, c, w, im, k, t, sm, n, se⟩ := s
  simp only [Dsp.Task_notify]
  split_ifs <;> first | rfl | (exfalso; omega)

theorem Dsp.deliver_snoc (s : Dsp.State) (ps : List Nat) (p : Nat) :
    Dsp.deliver s (ps ++ [p]) = Dsp.Task_notify (Dsp.deliver s ps) p := by
  unfold Dsp.deliver
  rw [List.foldl_append]
  rfl

theorem Dsp.deliver_count (s : Dsp.State) (ps : List Nat) :
    (Dsp.deliver s ps).count = s.count + ps.length := by
  induction ps using List.reverseRecOn with
  | nil => simp [Dsp.deliver]
  | append_singleton ps p ih =>
    rw [Dsp.deliver_snoc, Dsp.Task_notify_count, ih, List.length_append]
    simp
    omega

theorem Dsp.deliver_sem (s : Dsp.State) (ps : List Nat) :
    (Dsp.deliver s ps).sem = s.sem + ps.length := by
  induction ps using List.reverseRecOn with
  | nil => simp [Dsp.deliver]
  | append_singleton ps p ih =>
    rw [Dsp.deliver_snoc, Dsp.Task_notify_sem, ih, List.length_append]
    simp
    omega

theorem getElem?_snoc (ps : List Nat) (p k : Nat) :
    (ps ++ [p])[k]? = if ps.length = k then some p else ps[k]? := by
  split_ifs with h
  · subst h
    simp
  · rcases Nat.lt_or_gt_of_ne h with hlt | hgt
    · rw [List.getElem?_eq_none (by simp; omega), List.getElem?_eq_none (by omega)]
    · rw [List.getElem?_append_left hgt]

/-- The handshake fields after a sequence of notifications that starts at `count = 0`:
each holds the payload of its position if that notification has arrived, and its
initial value otherwise. -/
theorem Dsp.deliver_fields (s : Dsp.State) (hs : s.count = 0) (ps : List Nat) :
    (Dsp.deliver s ps).buf = (ps[0]?).getD s.buf ∧
    (Dsp.deliver s ps).rows = ((ps[1]?).map toInt32).getD s.rows ∧
    (Dsp.deliver s ps).cols = ((ps[2]?).map toInt32).getD s.cols ∧
    (Dsp.deliver s ps).windowSize = ((ps[3]?).map toInt32).getD s.windowSize := by
  induction ps using List.reverseRecOn with
  | nil => simp [Dsp.deliver]
  | append_singleton ps p ih =>
    obtain ⟨h0, h1, h2, h3⟩ := ih
    have hc := Dsp.deliver_count s ps
    rw [hs, zero_add] at hc
    have e0 : ((ps.length : Int) = 0) ↔ ps.length = 0 := by omega
    have e1 : ((ps.length : Int) = 1) ↔ ps.length = 1 := by omega
    have e2 : ((ps.length : Int) = 2) ↔ ps.length = 2 := by omega
    have e3 : ((ps.length : Int) = 3) ↔ ps.length = 3 := by omega
    rw [Dsp.deliver_snoc, Dsp.Task_notify_buf, Dsp.Task_notify_rows, Dsp.Task_notify_cols,
      Dsp.Task_notify_windowSize, hc, h0, h1, h2, h3]
    simp only [e0, e1, e2, e3, getElem?_snoc]
    refine ⟨?_, ?_, ?_, ?_⟩ <;> split_ifs <;> simp

/-- C6. Handshake field assignment by arrival order: starting from `count = 0`, after
any sequence of notification payloads `buf` holds the 1st payload, `rows` the 2nd,
`cols` the 3rd and `windowSize` the 4th (each cast to the type of its field), a field
whose notification has not arrived keeping its initial value; and the next notification,
the `k`-th, changes none of the four fields but the `k`-th, so that every notification
after the fourth leaves all four unchanged. -/
theorem Dsp.Task_notify_arrival_order (s : Dsp.State) (hs : s.count = 0) (ps : List Nat) :
    ((Dsp.deliver s ps).buf = (ps[0]?).getD s.buf ∧
     (Dsp.deliver s ps).rows = ((ps[1]?).map toInt32).getD s.rows ∧
     (Dsp.deliver s ps).cols = ((ps[2]?).map toInt32).getD s.cols ∧
     (Dsp.deliver s ps).windowSize = ((ps[3]?).map toInt32).getD s.windowSize) ∧
    ∀ p : Nat,
      (ps.length + 1 ≠ 1 → (Dsp.Task_notify (Dsp.deliver s ps) p).buf = (Dsp.deliver s ps).buf) ∧
      (ps.length + 1 ≠ 2 →
        (Dsp.Task_notify (Dsp.deliver s ps) p).rows = (Dsp.deliver s ps).rows) ∧
      (ps.length + 1 ≠ 3 →
        (Dsp.Task_notify (Dsp.deliver s ps) p).cols = (Dsp.deliver s ps).cols) ∧
      (ps.length + 1 ≠ 4 →
        (Dsp.Task_notify (Dsp.deliver s ps) p).windowSize = (Dsp.deliver s ps).windowSize) := by
  refine ⟨Dsp.deliver_fields s hs ps, fun p => ?_⟩
  have hc := Dsp.deliver_count s ps
  rw [hs, zero_add] at hc
  rw [Dsp.Task_notify_buf, Dsp.Task_notify_rows, Dsp.Task_notify_cols,
    Dsp.Task_notify_windowSize, hc]
  refine ⟨fun h => ?_, fun h => ?_, fun h => ?_, fun h => ?_⟩ <;>
    exact if_neg (fun hk => h (by omega))

theorem Dsp.Task_notify_arrival_order_witness :
    ((Dsp.deliver Dsp.initState [2348810240, 240, 320, 13, 0]).buf
        = ([2348810240, 240, 320, 13, 0][0]?).getD Dsp.initState.buf ∧
     (Dsp.deliver Dsp.initState [2348810240, 240, 320, 13, 0]).rows
        = (([2348810240, 240, 320, 13, 0][1]?).map toInt32).getD Dsp.initState.rows ∧
     (Dsp.deliver Dsp.initState [2348810240, 240, 320, 13, 0]).cols
        = (([2348810240, 240, 320, 13, 0][2]?).map toInt32).getD Dsp.initState.cols ∧
     (Dsp.deliver Dsp.initState [2348810240, 240, 320, 13, 0]).windowSize
        = (([2348810240, 240, 320, 13, 0][3]?).map toInt32).getD Dsp.initState.windowSize) :=
  (Dsp.Task_notify_arrival_order Dsp.initState rfl [2348810240, 240, 320, 13, 0]).1

/-- C8 (as stated) fails: the four establishment payloads (buffer pointer `2348810240`,
rows `240`, cols `320`, window size `13`) delivered with the first two exchanged are
stored all the same, `240` as the buffer pointer and the pointer, cast to `int`, as the
row count, and each of the four notifications posts the semaphore. -/
theorem Dsp.Task_notify_misordered_stored :
    [240, 2348810240, 320, 13] ≠ [2348810240, 240, 320, 13] ∧
    (Dsp.deliver Dsp.initState [240, 2348810240, 320, 13]).buf = 240 ∧
    (Dsp.deliver Dsp.initState [240, 2348810240, 320, 13]).rows = -1946157056 ∧
    (Dsp.deliver Dsp.initState [240, 2348810240, 320, 13]).cols = 320 ∧
    (Dsp.deliver Dsp.initState [240, 2348810240, 320, 13]).windowSize = 13 ∧
    (Dsp.deliver Dsp.initState [240, 2348810240, 320, 13]).sem = 4 ∧
    ¬ ((Dsp.deliver Dsp.initState [240, 2348810240, 320, 13]).buf = Dsp.initState.buf ∧
       (Dsp.deliver Dsp.initState [240, 2348810240, 320, 13]).rows = Dsp.initState.rows ∧
       (Dsp.deliver Dsp.initState [240, 2348810240, 320, 13]).cols = Dsp.initState.cols ∧
       (Dsp.deliver Dsp.initState [240, 2348810240, 320, 13]).windowSize
          = Dsp.initState.windowSize ∧
       (Dsp.deliver Dsp.initState [240, 2348810240, 320, 13]).sem = Dsp.initState.sem) := by
  decide

/-- C8 (amended). Handshake ordering: `Task_notify` has no means to tell the
notifications apart and rejects nothing: when the four establishment payloads (buffer
pointer, rows, cols, window size) are delivered in any order, it stores them in `buf`,
`rows`, `cols` and `windowSize` in their order of arrival, and each of the four
notifications posts the semaphore, releasing the waiting task. -/
theorem Dsp.Task_notify_any_order (s : Dsp.State) (hs : s.count = 0) (pb pr pc pw : Nat)
    (l : List Nat) (hperm : l.Perm [pb, pr, pc, pw]) :
    ∃ a b c d, l = [a, b, c, d] ∧
      (Dsp.deliver s l).buf = a ∧ (Dsp.deliver s l).rows = toInt32 b ∧
      (Dsp.deliver s l).cols = toInt32 c ∧ (Dsp.deliver s l).windowSize = toInt32 d ∧
      (Dsp.deliver s l).sem = s.sem + 4 := by
  have hlen : l.length = 4 := by rw [hperm.length_eq]; rfl
  match l, hlen with
  | [a, b, c, d], _ =>
    obtain ⟨h0, h1, h2, h3⟩ := Dsp.deliver_fields s hs [a, b, c, d]
    exact ⟨a, b, c, d, rfl, by simpa using h0, by simpa using h1, by simpa using h2,
      by simpa using h3, by rw [Dsp.deliver_sem]; rfl⟩

theorem Dsp.Task_notify_any_order_witness :
    ∃ a b c d, [13, 320, 240, 2348810240] = [a, b, c, d] ∧
      (Dsp.deliver Dsp.initState [13, 320, 240, 2348810240]).buf = a ∧
      (Dsp.deliver Dsp.initState [13, 320, 240, 2348810240]).rows = toInt32 b ∧
      (Dsp.deliver Dsp.initState [13, 320, 240, 2348810240]).cols = toInt32 c ∧
      (Dsp.deliver Dsp.initState [13, 320, 240, 2348810240]).windowSize = toInt32 d ∧
      (Dsp.deliver Dsp.initState [13, 320, 240, 2348810240]).sem = Dsp.initState.sem + 4 :=
  Dsp.Task_notify_any_order Dsp.initState rfl 2348810240 240 320 13
    [13, 320, 240, 2348810240] (by decide)

/-! ## The session: `Task_create` followed by `Task_execute` -/

theorem Dsp.session_allOk :
    Dsp.session Dsp.allOk
      = [Dsp.Effect.memCalloc, Dsp.Effect.fillInfo, Dsp.Effect.semNew,
         Dsp.Effect.notifyRegister, Dsp.Effect.notifyHost, Dsp.Effect.semPend true,
         Dsp.Effect.semPend true, Dsp.Effect.semPend true, Dsp.Effect.semPend true,
         Dsp.Effect.cacheInv, Dsp.Effect.copyImage, Dsp.Effect.notifyHost,
         Dsp.Effect.semPend true, Dsp.Effect.cacheInv, Dsp.Effect.copyKernel,
         Dsp.Effect.smooth, Dsp.Effect.copyResult, Dsp.Effect.cacheWb,
         Dsp.Effect.notifyHost] := by
  decide

theorem Dsp.Task_create_ok (b : Dsp.Bios) (hok : (Dsp.Task_create b).2 = Dsp.Status.SYS_OK) :
    Dsp.session b = Dsp.session Dsp.allOk := by
  obtain ⟨a, rs, ns⟩ := b
  cases a
  · simp [Dsp.Task_create] at hok
  · by_cases hr : rs = Dsp.Status.SYS_OK
    · by_cases hn : ns = Dsp.Status.SYS_OK
      · subst hr hn
        rfl
      · simp [Dsp.Task_create, hr, hn] at hok
    · simp [Dsp.Task_create, hr] at hok

theorem Dsp.gaussian_smooth_handshake (s : Dsp.State) :
    (Dsp.gaussian_smooth s).count = s.count ∧ (Dsp.gaussian_smooth s).buf = s.buf ∧
    (Dsp.gaussian_smooth s).rows = s.rows ∧ (Dsp.gaussian_smooth s).cols = s.cols ∧
    (Dsp.gaussian_smooth s).windowSize = s.windowSize ∧
    (Dsp.gaussian_smooth s).sem = s.sem :=
  ⟨rfl, rfl, rfl, rfl, rfl, rfl⟩

theorem Dsp.start_inv (s0 : Dsp.State) : Dsp.SessionInv s0 (Dsp.start s0) where
  reg := by simp [Dsp.start]
  none_before := fun _ => rfl
  count_eq := rfl
  buf_eq := rfl
  rows_eq := rfl
  cols_eq := rfl
  windowSize_eq := rfl
  balance := by simp [Dsp.start]

theorem Dsp.onNotify_inv (s0 : Dsp.State) (cfg : Dsp.Config) (p : Nat)
    (hinv : Dsp.SessionInv s0 cfg) : Dsp.SessionInv s0 (Dsp.onNotify cfg p) := by
  unfold Dsp.onNotify
  by_cases hreg : cfg.registered = true
  · rw [if_pos hreg]
    have hpc := hinv.reg.1 hreg
    refine ⟨hinv.reg, fun hlt => absurd hpc (by dsimp only at hlt; omega), ?_, ?_, ?_, ?_, ?_,
      fun h3 => ?_⟩
    · show (Dsp.Task_notify cfg.st p).count = (Dsp.deliver s0 (cfg.received ++ [p])).count
      rw [Dsp.deliver_snoc, Dsp.Task_notify_count, Dsp.Task_notify_count, hinv.count_eq]
    · show (Dsp.Task_notify cfg.st p).buf = (Dsp.deliver s0 (cfg.received ++ [p])).buf
      rw [Dsp.deliver_snoc, Dsp.Task_notify_buf, Dsp.Task_notify_buf, hinv.count_eq,
        hinv.buf_eq]
    · show (Dsp.Task_notify cfg.st p).rows = (Dsp.deliver s0 (cfg.received ++ [p])).rows
      rw [Dsp.deliver_snoc, Dsp.Task_notify_rows, Dsp.Task_notify_rows, hinv.count_eq,
        hinv.rows_eq]
    · show (Dsp.Task_notify cfg.st p).cols = (Dsp.deliver s0 (cfg.received ++ [p])).cols
      rw [Dsp.deliver_snoc, Dsp.Task_notify_cols, Dsp.Task_notify_cols, hinv.count_eq,
        hinv.cols_eq]
    · show (Dsp.Task_notify cfg.st p).windowSize
        = (Dsp.deliver s0 (cfg.received ++ [p])).windowSize
      rw [Dsp.deliver_snoc, Dsp.Task_notify_windowSize, Dsp.Task_notify_windowSize,
        hinv.count_eq, hinv.windowSize_eq]
    · show (cfg.received ++ [p]).length
        = (Dsp.Task_notify cfg.st p).sem + Dsp.pendsBefore (Dsp.session Dsp.allOk) cfg.pc
      have := hinv.balance h3
      rw [List.length_append, Dsp.Task_notify_sem, this]
      simp
      omega
  · rw [if_neg hreg]
    exact hinv

theorem Dsp.pendsBefore_table :
    (List.range 20).map (Dsp.pendsBefore (Dsp.session Dsp.allOk))
      = [0, 0, 0, 0, 0, 0, 1, 2, 3, 4, 4, 4, 4, 5, 5, 5, 5, 5, 5, 5] := by
  decide

theorem Dsp.taskStep_inv (s0 : Dsp.State) (cfg cfg2 : Dsp.Config)
    (hinv : Dsp.SessionInv s0 cfg)
    (h : Dsp.taskStep (Dsp.session Dsp.allOk) cfg = some cfg2) :
    Dsp.SessionInv s0 cfg2 := by
  obtain ⟨st, pc, reg, received⟩ := cfg
  obtain ⟨hreg, hnone, hcount, hbuf, hrows, hcols, hws, hbal⟩ := hinv
  simp only at hreg hnone hcount hbuf hrows hcols hws hbal
  have hpc : pc < 19 := by
    by_contra hge
    have : (Dsp.session Dsp.allOk)[pc]? = none :=
      List.getElem?_eq_none (by rw [Dsp.session_allOk]; simp; omega)
    simp [Dsp.taskStep, this] at h
  rw [Dsp.session_allOk] at h
  interval_cases pc <;> simp [Dsp.taskStep] at h
  all_goals
    have htab := Dsp.pendsBefore_table
    simp only [List.range, List.range.loop, List.map, List.cons.injEq, and_true] at htab
    obtain ⟨t0, t1, t2, t3, t4, t5, t6, t7, t8, t9, t10, t11, t12, t13, t14, t15, t16, t17,
      t18, t19⟩ := htab
    first
      | (have hpos : 0 < st.sem := h.1
         replace h := h.2
         subst h)
      | subst h
    have hg := Dsp.gaussian_smooth_handshake st
    refine ⟨?_, ?_, ?_, ?_, ?_, ?_, ?_, ?_⟩ <;> simp_all <;> omega

theorem Dsp.run_inv (s0 : Dsp.State) (evs : List Dsp.Event) (cfg cfg2 : Dsp.Config)
    (hinv : Dsp.SessionInv s0 cfg)
    (h : Dsp.run (Dsp.session Dsp.allOk) cfg evs = some cfg2) : Dsp.SessionInv s0 cfg2 := by
  induction evs generalizing cfg with
  | nil =>
    obtain rfl := Option.some.inj h
    exact hinv
  | cons ev evs ih =>
    unfold Dsp.run at h
    cases ev with
    | notify p => exact ih _ (Dsp.onNotify_inv s0 cfg p hinv) h
    | task =>
      cases hstep : Dsp.taskStep (Dsp.session Dsp.allOk) cfg with
      | none => simp [Dsp.step, hstep] at h
      | some cfg3 =>
        simp only [Dsp.step, hstep] at h
        exact ih _ (Dsp.taskStep_inv s0 cfg cfg3 hinv hstep) h

/-- C7. Session invariant: in every run of a successful `Task_create` followed by
`Task_execute`, interleaved in any way with notifications from the host, whenever a copy
out of the shared buffer (the image `memcpy` first) is the next effect of the task or
has been performed, at least four `SEM_pend` calls come before it in the program, at
least four notifications have been received, and `buf`, `rows`, `cols` and `windowSize`
hold the payloads of the first four, in that order. -/
theorem Dsp.session_copy_after_handshake (b : Dsp.Bios)
    (hok : (Dsp.Task_create b).2 = Dsp.Status.SYS_OK) (s0 : Dsp.State) (hs0 : s0.count = 0)
    (evs : List Dsp.Event) (cfg : Dsp.Config)
    (hrun : Dsp.run (Dsp.session b) (Dsp.start s0) evs = some cfg)
    (i : Nat) (e : Dsp.Effect) (hi : i ≤ cfg.pc) (he : (Dsp.session b)[i]? = some e)
    (hcopy : e.readsBuffer = true) :
    4 ≤ ((Dsp.session b).take i).count (Dsp.Effect.semPend true) ∧
    ∃ pb pr pc pw rest, cfg.received = pb :: pr :: pc :: pw :: rest ∧
      cfg.st.buf = pb ∧ cfg.st.rows = toInt32 pr ∧ cfg.st.cols = toInt32 pc ∧
      cfg.st.windowSize = toInt32 pw := by
  rw [Dsp.Task_create_ok b hok] at hrun he ⊢
  have hinv := Dsp.run_inv s0 evs _ cfg (Dsp.start_inv s0) hrun
  have htab := Dsp.pendsBefore_table
  simp only [List.range, List.range.loop, List.map, List.cons.injEq, and_true] at htab
  obtain ⟨t0, t1, t2, t3, t4, t5, t6, t7, t8, t9, t10, t11, t12, t13, t14, t15, t16, t17,
    t18, t19⟩ := htab
  have hi19 : i < 19 := by
    by_contra hge
    have : (Dsp.session Dsp.allOk)[i]? = none :=
      List.getElem?_eq_none (by rw [Dsp.session_allOk]; simp; omega)
    rw [this] at he
    cases he
  have hi10 : 10 ≤ i := by
    by_contra hlt
    have hlt2 : i < 10 := by omega
    rw [Dsp.session_allOk] at he
    interval_cases i <;> simp at he <;> subst he <;> cases hcopy
  refine ⟨?_, ?_⟩
  · show 4 ≤ Dsp.pendsBefore (Dsp.session Dsp.allOk) i
    interval_cases i <;> simp [*]
  · have hcnt : 4 ≤ cfg.received.length := by
      have hb := hinv.balance (by omega)
      have hmono : Dsp.pendsBefore (Dsp.session Dsp.allOk) 10
          ≤ Dsp.pendsBefore (Dsp.session Dsp.allOk) cfg.pc :=
        (List.take_sublist_take_left _ (by omega)).count_le _
      omega
    obtain ⟨h0, h1, h2, h3⟩ := Dsp.deliver_fields s0 hs0 cfg.received
    match hrec : cfg.received, hcnt with
    | pb :: pr :: pc :: pw :: rest, _ =>
      rw [hrec] at h0 h1 h2 h3
      exact ⟨pb, pr, pc, pw, rest, rfl, by rw [hinv.buf_eq, hrec]; simpa using h0,
        by rw [hinv.rows_eq, hrec]; simpa using h1,
        by rw [hinv.cols_eq, hrec]; simpa using h2,
        by rw [hinv.windowSize_eq, hrec]; simpa using h3⟩

theorem Dsp.session_copy_after_handshake_witness :
    4 ≤ ((Dsp.session Dsp.allOk).take 10).count (Dsp.Effect.semPend true) ∧
    ∃ pb pr pc pw rest, Dsp.sampleRun.received = pb :: pr :: pc :: pw :: rest ∧
      Dsp.sampleRun.st.buf = pb ∧ Dsp.sampleRun.st.rows = toInt32 pr ∧
      Dsp.sampleRun.st.cols = toInt32 pc ∧ Dsp.sampleRun.st.windowSize = toInt32 pw :=
  Dsp.session_copy_after_handshake Dsp.allOk rfl Dsp.initState rfl Dsp.sampleEvents
    Dsp.sampleRun rfl 10 Dsp.Effect.copyImage (by decide) rfl rfl

/-! ## The derivative stage -/

/-- A loop that writes `f pos` at `pos` and advances `pos` by `stride` on each trip. -/
theorem forLoop_strided {β : Type} (f : Int → β) (stride lo hi : Int) (t : Int → β)
    (p0 : Int) :
    (forLoop lo hi
        (fun (st : (Int → β) × Int) (_ : Int) =>
          (Function.update st.1 st.2 (f st.2), st.2 + stride)) (t, p0)).2
      = p0 + ((hi - lo).toNat : Int) * stride ∧
    (∀ i : Nat, i < (hi - lo).toNat →
      (forLoop lo hi
        (fun (st : (Int → β) × Int) (_ : Int) =>
          (Function.update st.1 st.2 (f st.2), st.2 + stride)) (t, p0)).1
        (p0 + (i : Int) * stride) = f (p0 + (i : Int) * stride)) ∧
    (∀ j : Int, (∀ i : Nat, i < (hi - lo).toNat → j ≠ p0 + (i : Int) * stride) →
      (forLoop lo hi
        (fun (st : (Int → β) × Int) (_ : Int) =>
          (Function.update st.1 st.2 (f st.2), st.2 + stride)) (t, p0)).1 j = t j) := by
  unfold forLoop
  generalize (hi - lo).toNat = n
  induction n with
  | zero =>
    refine ⟨by simp, fun i hi => absurd hi (Nat.not_lt_zero _), fun j _ => rfl⟩
  | succ n ih =>
    obtain ⟨ih2, ihhit, ihother⟩ := ih
    rw [List.range_succ, List.foldl_append]
    simp only [List.foldl_cons, List.foldl_nil]
    rw [ih2]
    refine ⟨by push_cast; ring, fun i hi => ?_, fun j hj => ?_⟩
    · by_cases hin : p0 + (i : Int) * stride = p0 + (n : Int) * stride
      · rw [hin, Function.update_same]
      · rw [Function.update_noteq hin]
        rcases Nat.lt_succ_iff_lt_or_eq.1 hi with hlt | heq
        · exact ihhit i hlt
        · exact absurd (by rw [heq]) hin
    · rw [Function.update_noteq (hj n (Nat.lt_succ_self n))]
      exact ihother j (fun i hi => hj i (Nat.lt_succ_of_lt hi))

/-- A loop whose trip `a` writes the cells `idx a i` of its own block, with values
`val a i`, and no other cell, leaves `val a i` in cell `idx a i`, when distinct trips
have disjoint blocks. -/
theorem forLoop_blocks {β : Type} (body : (Int → β) → Int → (Int → β)) (idx : Int → Int → Int)
    (val : Int → Int → β) (n m : Int)
    (hhit : ∀ t a i, 0 ≤ a ∧ a < n → 0 ≤ i ∧ i < m → body t a (idx a i) = val a i)
    (hother : ∀ t a j, 0 ≤ a ∧ a < n → (∀ i, 0 ≤ i ∧ i < m → j ≠ idx a i) → body t a j = t j)
    (hinj : ∀ a i a2 i2, 0 ≤ a ∧ a < n → 0 ≤ i ∧ i < m → 0 ≤ a2 ∧ a2 < n → 0 ≤ i2 ∧ i2 < m →
      idx a i = idx a2 i2 → a = a2)
    (t : Int → β) (a i : Int) (ha : 0 ≤ a ∧ a < n) (hi : 0 ≤ i ∧ i < m) :
    forLoop 0 n body t (idx a i) = val a i := by
  unfold forLoop
  have key : ∀ k : Nat, (k : Int) ≤ n → a < k →
      (List.range k).foldl (fun (st : Int → β) (k : Nat) => body st (0 + (k : Int))) t (idx a i)
        = val a i := by
    intro k
    induction k with
    | zero => intro _ h; exact absurd h (by simp; omega)
    | succ k ih =>
      intro hk hak
      rw [List.range_succ, List.foldl_append]
      simp only [List.foldl_cons, List.foldl_nil, zero_add]
      by_cases hke : a = (k : Int)
      · rw [← hke]
        exact hhit _ a i ha hi
      · have hk2 : (0 : Int) ≤ (k : Int) ∧ (k : Int) < n := ⟨by omega, by push_cast at hk; omega⟩
        rw [hother _ (k : Int) (idx a i) hk2
          (fun i2 hi2 heq => hke (hinj a i k i2 ha hi hk2 hi2 heq))]
        simpa using ih (by push_cast at hk; omega) (by push_cast at hak; omega)
  exact key (n - 0).toNat (by omega) (by omega)

theorem toShort_of_fits (x : Int) (h : -32768 ≤ x ∧ x ≤ 32767) : toShort x = x := by
  unfold toShort
  omega

theorem Gpp.shortDiff_exact (S : Int → Nat) (a b : Int) (ha : S a ≤ 32767) (hb : S b ≤ 32767) :
    Gpp.shortDiff S a b = (S a : Int) - (S b : Int) := by
  unfold Gpp.shortDiff
  rw [toShort_of_fits (S a) (by omega), toShort_of_fits (S b) (by omega),
    toShort_of_fits _ (by omega)]

/-- The value that the trip `r` of the loop over rows leaves in `delta_x[r*cols+c]`. -/
theorem Gpp.dxRow_hit (S : Int → Nat) (cols : Int) (hcols : 2 ≤ cols) (t : Int → Int)
    (r c : Int) (hc : 0 ≤ c ∧ c < cols) :
    Gpp.dxRow S cols t r (r * cols + c)
      = if c = 0 then Gpp.shortDiff S (r * cols + 1) (r * cols)
        else if c = cols - 1 then
          Gpp.shortDiff S (r * cols + (cols - 1)) (r * cols + (cols - 2))
        else Gpp.shortDiff S (r * cols + (c + 1)) (r * cols + (c - 1)) := by
  unfold Gpp.dxRow
  obtain ⟨h2, hhit, hother⟩ := forLoop_strided
    (fun p => Gpp.shortDiff S (p + 1) (p - 1)) 1 1 (cols - 1)
    (Function.update t (r * cols) (Gpp.shortDiff S (r * cols + 1) (r * cols))) (r * cols + 1)
  have hn : ((cols - 1 - 1).toNat : Int) = cols - 2 := by omega
  rw [h2, hn, mul_one]
  by_cases hlast : c = cols - 1
  · have hpos : r * cols + c = r * cols + 1 + (cols - 2) := by omega
    rw [hpos, Function.update_same, if_neg (by omega), if_pos hlast]
    congr 1 <;> ring
  · rw [Function.update_noteq (by omega)]
    by_cases hfirst : c = 0
    · rw [hother _ (fun i _ => by omega), hfirst, add_zero, Function.update_same, if_pos rfl]
    · have hi := hhit (c - 1).toNat (by omega)
      have hci : (((c - 1).toNat : Nat) : Int) = c - 1 := by omega
      rw [hci, mul_one] at hi
      have hpos : r * cols + c = r * cols + 1 + (c - 1) := by omega
      rw [hpos, hi, if_neg hfirst, if_neg hlast]
      congr 1 <;> ring

/-- The trip `r` of the loop over rows leaves the cells outside row `r` as they were. -/
theorem Gpp.dxRow_other (S : Int → Nat) (cols : Int) (hcols : 2 ≤ cols) (t : Int → Int)
    (r j : Int) (hj : ∀ c, 0 ≤ c ∧ c < cols → j ≠ r * cols + c) :
    Gpp.dxRow S cols t r j = t j := by
  unfold Gpp.dxRow
  obtain ⟨h2, -, hother⟩ := forLoop_strided
    (fun p => Gpp.shortDiff S (p + 1) (p - 1)) 1 1 (cols - 1)
    (Function.update t (r * cols) (Gpp.shortDiff S (r * cols + 1) (r * cols))) (r * cols + 1)
  have hn : ((cols - 1 - 1).toNat : Int) = cols - 2 := by omega
  rw [h2, hn, mul_one]
  have h0 := hj 0 (by omega)
  have hl := hj (cols - 1) (by omega)
  rw [Function.update_noteq (by omega), hother j (fun i hi => by
    have := hj (1 + i) (by omega)
    omega), Function.update_noteq (by omega)]

theorem column_cell_inj (cols c a b : Int) (hcols : 1 ≤ cols) (h : a * cols + c = b * cols + c) :
    a = b := by
  have h2 : a * cols = b * cols := by omega
  exact Int.eq_of_mul_eq_mul_right (by omega) h2

/-- The value that the trip `c` of the loop over columns leaves in `delta_y[i*cols+c]`. -/
theorem Gpp.dyCol_hit (S : Int → Nat) (rows cols : Int) (hrows : 2 ≤ rows) (hcols : 1 ≤ cols)
    (t : Int → Int) (c i : Int) (hi : 0 ≤ i ∧ i < rows) :
    Gpp.dyCol S rows cols t c (i * cols + c)
      = if i = 0 then Gpp.shortDiff S (1 * cols + c) (0 * cols + c)
        else if i = rows - 1 then
          Gpp.shortDiff S ((rows - 1) * cols + c) ((rows - 2) * cols + c)
        else Gpp.shortDiff S ((i + 1) * cols + c) ((i - 1) * cols + c) := by
  unfold Gpp.dyCol
  obtain ⟨h2, hhit, hother⟩ := forLoop_strided
    (fun p => Gpp.shortDiff S (p + cols) (p - cols)) cols 1 (rows - 1)
    (Function.update t c (Gpp.shortDiff S (c + cols) c)) (c + cols)
  have hn : ((rows - 1 - 1).toNat : Int) = rows - 2 := by omega
  rw [h2, hn]
  have hend : c + cols + (rows - 2) * cols = (rows - 1) * cols + c := by ring
  rw [hend]
  by_cases hlast : i = rows - 1
  · rw [hlast, Function.update_same, if_neg (by omega), if_pos rfl]
    congr 1
    ring
  · rw [Function.update_noteq (fun h => hlast (column_cell_inj cols c _ _ hcols h))]
    by_cases hfirst : i = 0
    · rw [hfirst, zero_mul, zero_add, hother c (fun k _ h => by
        have h3 : (0 : Int) * cols + c = ((k : Int) + 1) * cols + c := by
          rw [zero_mul, zero_add]
          calc c = c + cols + (k : Int) * cols := h
            _ = ((k : Int) + 1) * cols + c := by ring
        have := column_cell_inj cols c _ _ hcols h3
        omega), Function.update_same, if_pos rfl]
      congr 1
      ring
    · have hk := hhit (i - 1).toNat (by omega)
      have hci : (((i - 1).toNat : Nat) : Int) = i - 1 := by omega
      rw [hci] at hk
      have hpos : c + cols + (i - 1) * cols = i * cols + c := by ring
      rw [hpos] at hk
      rw [hk, if_neg hfirst, if_neg hlast]
      congr 1 <;> ring

/-- The trip `c` of the loop over columns leaves the cells outside column `c` as they
were. -/
theorem Gpp.dyCol_other (S : Int → Nat) (rows cols : Int) (hrows : 2 ≤ rows)
    (t : Int → Int) (c j : Int) (hj : ∀ i, 0 ≤ i ∧ i < rows → j ≠ i * cols + c) :
    Gpp.dyCol S rows cols t c j = t j := by
  unfold Gpp.dyCol
  obtain ⟨h2, -, hother⟩ := forLoop_strided
    (fun p => Gpp.shortDiff S (p + cols) (p - cols)) cols 1 (rows - 1)
    (Function.update t c (Gpp.shortDiff S (c + cols) c)) (c + cols)
  have hn : ((rows - 1 - 1).toNat : Int) = rows - 2 := by omega
  rw [h2, hn]
  have hend : c + cols + (rows - 2) * cols = (rows - 1) * cols + c := by ring
  have h0 : j ≠ c := by
    have := hj 0 (by omega)
    rwa [zero_mul, zero_add] at this
  rw [hend, Function.update_noteq (hj (rows - 1) (by omega)), hother j (fun k hk h => by
    have h3 : c + cols + (k : Int) * cols = ((k : Int) + 1) * cols + c := by ring
    exact hj ((k : Int) + 1) (by omega) (h.trans h3)), Function.update_noteq h0]

theorem Gpp.delta_x_cell (S : Int → Nat) (rows cols : Int) (dx0 dy0 : Int → Int)
    (hcols : 2 ≤ cols) (r c : Int) (hr : 0 ≤ r ∧ r < rows) (hc : 0 ≤ c ∧ c < cols) :
    (Gpp.derrivative_x_y S rows cols dx0 dy0).1 (r * cols + c)
      = if c = 0 then Gpp.shortDiff S (r * cols + 1) (r * cols)
        else if c = cols - 1 then
          Gpp.shortDiff S (r * cols + (cols - 1)) (r * cols + (cols - 2))
        else Gpp.shortDiff S (r * cols + (c + 1)) (r * cols + (c - 1)) :=
  forLoop_blocks (fun d r => Gpp.dxRow S cols d r) (fun r c => r * cols + c)
    (fun r c => if c = 0 then Gpp.shortDiff S (r * cols + 1) (r * cols)
        else if c = cols - 1 then
          Gpp.shortDiff S (r * cols + (cols - 1)) (r * cols + (cols - 2))
        else Gpp.shortDiff S (r * cols + (c + 1)) (r * cols + (c - 1)))
    rows cols
    (fun t a i _ hi => Gpp.dxRow_hit S cols hcols t a i hi)
    (fun t a j _ hj => Gpp.dxRow_other S cols hcols t a j hj)
    (fun a i a2 i2 _ hi _ hi2 h => (cell_index_inj cols a i a2 i2 hi hi2 h).1)
    dx0 r c hr hc

theorem Gpp.delta_y_cell (S : Int → Nat) (rows cols : Int) (dx0 dy0 : Int → Int)
    (hrows : 2 ≤ rows) (r c : Int) (hr : 0 ≤ r ∧ r < rows) (hc : 0 ≤ c ∧ c < cols) :
    (Gpp.derrivative_x_y S rows cols dx0 dy0).2 (r * cols + c)
      = if r = 0 then Gpp.shortDiff S (1 * cols + c) (0 * cols + c)
        else if r = rows - 1 then
          Gpp.shortDiff S ((rows - 1) * cols + c) ((rows - 2) * cols + c)
        else Gpp.shortDiff S ((r + 1) * cols + c) ((r - 1) * cols + c) :=
  forLoop_blocks (fun d c => Gpp.dyCol S rows cols d c) (fun c r => r * cols + c)
    (fun c r => if r = 0 then Gpp.shortDiff S (1 * cols + c) (0 * cols + c)
        else if r = rows - 1 then
          Gpp.shortDiff S ((rows - 1) * cols + c) ((rows - 2) * cols + c)
        else Gpp.shortDiff S ((r + 1) * cols + c) ((r - 1) * cols + c))
    cols rows
    (fun t a i ha hi => Gpp.dyCol_hit S rows cols hrows (by omega) t a i hi)
    (fun t a j _ hj => Gpp.dyCol_other S rows cols hrows t a j hj)
    (fun a i a2 i2 ha _ ha2 _ h => (cell_index_inj cols i a i2 a2 ha ha2 h).2)
    dy0 c r hc hr

/-- C9. X derivative: for a raster with `cols ≥ 2` whose samples fit a signed 16-bit
integer, `derrivative_x_y` leaves in every row `r` the exact differences
`dx[r,0] = S[r,1] - S[r,0]`, `dx[r,c] = S[r,c+1] - S[r,c-1]` for `0 < c < cols-1`, and
`dx[r,cols-1] = S[r,cols-1] - S[r,cols-2]`. -/
theorem Gpp.derrivative_x (S : Int → Nat) (rows cols : Int) (dx0 dy0 : Int → Int)
    (hcols : 2 ≤ cols)
    (hS : ∀ r c : Int, 0 ≤ r ∧ r < rows → 0 ≤ c ∧ c < cols → S (r * cols + c) ≤ 32767)
    (r : Int) (hr : 0 ≤ r ∧ r < rows) :
    (Gpp.derrivative_x_y S rows cols dx0 dy0).1 (r * cols + 0)
      = (S (r * cols + 1) : Int) - (S (r * cols + 0) : Int) ∧
    (∀ c : Int, 0 < c → c < cols - 1 →
      (Gpp.derrivative_x_y S rows cols dx0 dy0).1 (r * cols + c)
        = (S (r * cols + (c + 1)) : Int) - (S (r * cols + (c - 1)) : Int)) ∧
    (Gpp.derrivative_x_y S rows cols dx0 dy0).1 (r * cols + (cols - 1))
      = (S (r * cols + (cols - 1)) : Int) - (S (r * cols + (cols - 2)) : Int) := by
  refine ⟨?_, fun c hc1 hc2 => ?_, ?_⟩
  · rw [Gpp.delta_x_cell S rows cols dx0 dy0 hcols r 0 hr (by omega), if_pos rfl, add_zero]
    have h1 := hS r 1 hr (by omega)
    have h0 := hS r 0 hr (by omega)
    rw [add_zero] at h0
    exact Gpp.shortDiff_exact S _ _ h1 h0
  · rw [Gpp.delta_x_cell S rows cols dx0 dy0 hcols r c hr (by omega), if_neg (by omega),
      if_neg (by omega)]
    exact Gpp.shortDiff_exact S _ _ (hS r (c + 1) hr (by omega)) (hS r (c - 1) hr (by omega))
  · rw [Gpp.delta_x_cell S rows cols dx0 dy0 hcols r (cols - 1) hr (by omega),
      if_neg (by omega), if_pos rfl]
    exact Gpp.shortDiff_exact S _ _ (hS r (cols - 1) hr (by omega))
      (hS r (cols - 2) hr (by omega))

/-- C10. Y derivative, the same scheme along rows: for a raster with `rows ≥ 2` and
`cols ≥ 1` whose samples fit a signed 16-bit integer, `derrivative_x_y` leaves in every
column `c` the exact differences `dy[0,c] = S[1,c] - S[0,c]`,
`dy[r,c] = S[r+1,c] - S[r-1,c]` for `0 < r < rows-1`, and
`dy[rows-1,c] = S[rows-1,c] - S[rows-2,c]`. -/
theorem Gpp.derrivative_y (S : Int → Nat) (rows cols : Int) (dx0 dy0 : Int → Int)
    (hrows : 2 ≤ rows)
    (hS : ∀ r c : Int, 0 ≤ r ∧ r < rows → 0 ≤ c ∧ c < cols → S (r * cols + c) ≤ 32767)
    (c : Int) (hc : 0 ≤ c ∧ c < cols) :
    (Gpp.derrivative_x_y S rows cols dx0 dy0).2 (0 * cols + c)
      = (S (1 * cols + c) : Int) - (S (0 * cols + c) : Int) ∧
    (∀ r : Int, 0 < r → r < rows - 1 →
      (Gpp.derrivative_x_y S rows cols dx0 dy0).2 (r * cols + c)
        = (S ((r + 1) * cols + c) : Int) - (S ((r - 1) * cols + c) : Int)) ∧
    (Gpp.derrivative_x_y S rows cols dx0 dy0).2 ((rows - 1) * cols + c)
      = (S ((rows - 1) * cols + c) : Int) - (S ((rows - 2) * cols + c) : Int) := by
  refine ⟨?_, fun r hr1 hr2 => ?_, ?_⟩
  · rw [Gpp.delta_y_cell S rows cols dx0 dy0 hrows 0 c (by omega) hc, if_pos rfl]
    exact Gpp.shortDiff_exact S _ _ (hS 1 c (by omega) hc) (hS 0 c (by omega) hc)
  · rw [Gpp.delta_y_cell S rows cols dx0 dy0 hrows r c (by omega) hc, if_neg (by omega),
      if_neg (by omega)]
    exact Gpp.shortDiff_exact S _ _ (hS (r + 1) c (by omega) hc) (hS (r - 1) c (by omega) hc)
  · rw [Gpp.delta_y_cell S rows cols dx0 dy0 hrows (rows - 1) c (by omega) hc,
      if_neg (by omega), if_pos rfl]
    exact Gpp.shortDiff_exact S _ _ (hS (rows - 1) c (by omega) hc)
      (hS (rows - 2) c (by omega) hc)

theorem Gpp.sampleRaster_fits (i : Int) : Gpp.sampleRaster i ≤ 32767 := by
  unfold Gpp.sampleRaster
  omega

theorem Gpp.derrivative_x_witness :
    (2 : Int) ≤ 4 ∧
    (Gpp.derrivative_x_y Gpp.sampleRaster 2 4 (fun _ => 7) (fun _ => 7)).1 (1 * 4 + 0)
      = (Gpp.sampleRaster (1 * 4 + 1) : Int) - (Gpp.sampleRaster (1 * 4 + 0) : Int) ∧
    (∀ c : Int, 0 < c → c < 4 - 1 →
      (Gpp.derrivative_x_y Gpp.sampleRaster 2 4 (fun _ => 7) (fun _ => 7)).1 (1 * 4 + c)
        = (Gpp.sampleRaster (1 * 4 + (c + 1)) : Int)
          - (Gpp.sampleRaster (1 * 4 + (c - 1)) : Int)) ∧
    (Gpp.derrivative_x_y Gpp.sampleRaster 2 4 (fun _ => 7) (fun _ => 7)).1 (1 * 4 + (4 - 1))
      = (Gpp.sampleRaster (1 * 4 + (4 - 1)) : Int)
        - (Gpp.sampleRaster (1 * 4 + (4 - 2)) : Int) :=
  ⟨by decide,
   Gpp.derrivative_x Gpp.sampleRaster 2 4 (fun _ => 7) (fun _ => 7) (by decide)
    (fun _ _ _ _ => Gpp.sampleRaster_fits _) 1 (by decide)⟩

theorem Gpp.derrivative_y_witness :
    (2 : Int) ≤ 3 ∧
    (Gpp.derrivative_x_y Gpp.sampleRaster 3 2 (fun _ => 7) (fun _ => 7)).2 (0 * 2 + 1)
      = (Gpp.sampleRaster (1 * 2 + 1) : Int) - (Gpp.sampleRaster (0 * 2 + 1) : Int) ∧
    (∀ r : Int, 0 < r → r < 3 - 1 →
      (Gpp.derrivative_x_y Gpp.sampleRaster 3 2 (fun _ => 7) (fun _ => 7)).2 (r * 2 + 1)
        = (Gpp.sampleRaster ((r + 1) * 2 + 1) : Int)
          - (Gpp.sampleRaster ((r - 1) * 2 + 1) : Int)) ∧
    (Gpp.derrivative_x_y Gpp.sampleRaster 3 2 (fun _ => 7) (fun _ => 7)).2 ((3 - 1) * 2 + 1)
      = (Gpp.sampleRaster ((3 - 1) * 2 + 1) : Int)
        - (Gpp.sampleRaster ((3 - 2) * 2 + 1) : Int) :=
  ⟨by decide,
   Gpp.derrivative_y Gpp.sampleRaster 3 2 (fun _ => 7) (fun _ => 7) (by decide)
    (fun _ _ _ _ => Gpp.sampleRaster_fits _) 1 (by decide)⟩

/-! ## The derivative of a ramp -/

/-- C11 (as stated) fails: for the single row `S = [10, 20, 30, 40]` the second cell of
`dx` is the central difference `S[2] - S[0] = 20`, so `dx` is not `[10, 10, 10, 10]`. -/
theorem Gpp.derrivative_ramp_not_constant :
    (Gpp.derrivative_x_y Gpp.rampRow 1 4 (fun _ => 0) (fun _ => 0)).1 1 = 20 ∧
    (List.range 4).map
        (fun k => (Gpp.derrivative_x_y Gpp.rampRow 1 4 (fun _ => 0) (fun _ => 0)).1 (k : Int))
      ≠ [10, 10, 10, 10] := by
  decide

/-- C11 (amended). Derivative example: for the single row `S = [10, 20, 30, 40]`
(`cols = 4`), `derrivative_x_y` yields `dx = [10, 20, 20, 10]`: the forward and backward
differences at the two ends, and the central differences `S[c+1] - S[c-1]`, which the
filter `-1 0 +1` does not halve, in between. -/
theorem Gpp.derrivative_ramp (dx0 dy0 : Int → Int) :
    (List.range 4).map
        (fun k => (Gpp.derrivative_x_y Gpp.rampRow 1 4 dx0 dy0).1 (k : Int))
      = [10, 20, 20, 10] := by
  have h := fun c hc =>
    Gpp.delta_x_cell Gpp.rampRow 1 4 dx0 dy0 (by decide) 0 c (by decide) hc
  have h0 := h 0 (by decide)
  have h1 := h 1 (by decide)
  have h2 := h 2 (by decide)
  have h3 := h 3 (by decide)
  simp only [zero_mul, zero_add] at h0 h1 h2 h3
  simp only [List.range, List.range.loop, List.map, Nat.cast_ofNat, Nat.cast_zero,
    Nat.cast_one, h0, h1, h2, h3]
  decide

/-! ## The fixed-point macros on the two sides -/

/-- C20. The fixed-point primitives are the same function on both sides of the handoff:
`INT_FIXED` and `MULTIPLICATION` of the host return the values of `INT_FIXED` and
`MULTIPLICATION` of the co-processor for all operands, and so does `DIVISION` for every
numerator and every divisor that is not zero as a `uint32_t`. -/
theorem Gpp.fixed_point_macros_agree :
    (∀ n : Nat, Gpp.INT_FIXED n = Dsp.INT_FIXED n) ∧
    (∀ a b : Nat, Gpp.MULTIPLICATION a b = Dsp.MULTIPLICATION a b) ∧
    (∀ a b : Nat, b % 4294967296 ≠ 0 → Gpp.DIVISION a b = Dsp.DIVISION a b) :=
  ⟨fun _ => rfl, fun _ _ => rfl, fun _ _ _ => rfl⟩

theorem Gpp.fixed_point_macros_agree_witness :
    Gpp.INT_FIXED 255 = Dsp.INT_FIXED 255 ∧
    Gpp.MULTIPLICATION 65280 104 = Dsp.MULTIPLICATION 65280 104 ∧
    (3 % 4294967296 ≠ 0 ∧ Gpp.DIVISION 100 3 = Dsp.DIVISION 100 3) :=
  ⟨Gpp.fixed_point_macros_agree.1 255, Gpp.fixed_point_macros_agree.2.1 65280 104,
   by decide, Gpp.fixed_point_macros_agree.2.2 100 3 (by decide)⟩

/-! ## Failure of the notification channel in `Task_create` -/

/-- C19. Protocol failure during session creation: once the transfer structure is
allocated, if `NOTIFY_register` returns a status other than `SYS_OK`, `Task_create`
returns exactly that status right after the registration; if the registration succeeds
and the readiness `NOTIFY_notify` returns a status other than `SYS_OK`, `Task_create`
returns exactly that status right after the notification. In both cases no `SEM_pend`
is among its effects: it returns before waiting on any notification. -/
theorem Dsp.Task_create_protocol_failure (b : Dsp.Bios) (halloc : b.allocOk = true) :
    (b.registerStatus ≠ Dsp.Status.SYS_OK →
      (Dsp.Task_create b).2 = b.registerStatus ∧
      (Dsp.Task_create b).1
        = [Dsp.Effect.memCalloc, Dsp.Effect.fillInfo, Dsp.Effect.semNew,
           Dsp.Effect.notifyRegister] ∧
      ∀ v, Dsp.Effect.semPend v ∉ (Dsp.Task_create b).1) ∧
    (b.registerStatus = Dsp.Status.SYS_OK → b.notifyStatus ≠ Dsp.Status.SYS_OK →
      (Dsp.Task_create b).2 = b.notifyStatus ∧
      (Dsp.Task_create b).1
        = [Dsp.Effect.memCalloc, Dsp.Effect.fillInfo, Dsp.Effect.semNew,
           Dsp.Effect.notifyRegister, Dsp.Effect.notifyHost] ∧
      ∀ v, Dsp.Effect.semPend v ∉ (Dsp.Task_create b).1) := by
  obtain ⟨a, rs, ns⟩ := b
  simp only at halloc
  subst halloc
  refine ⟨fun hr => ?_, fun hr hn => ?_⟩
  · have h1 : (Dsp.Task_create ⟨true, rs, ns⟩)
        = ([Dsp.Effect.memCalloc, Dsp.Effect.fillInfo, Dsp.Effect.semNew,
            Dsp.Effect.notifyRegister], rs) := by
      simp [Dsp.Task_create, hr]
    rw [h1]
    exact ⟨rfl, rfl, fun v => by simp⟩
  · have h1 : (Dsp.Task_create ⟨true, rs, ns⟩)
        = ([Dsp.Effect.memCalloc, Dsp.Effect.fillInfo, Dsp.Effect.semNew,
            Dsp.Effect.notifyRegister, Dsp.Effect.notifyHost], ns) := by
      simp only at hr
      simp [Dsp.Task_create, hr, hn]
    rw [h1]
    exact ⟨rfl, rfl, fun v => by simp⟩

theorem Dsp.Task_create_protocol_failure_witness :
    Dsp.registerFails.registerStatus ≠ Dsp.Status.SYS_OK ∧
    (Dsp.Task_create Dsp.registerFails).2 = Dsp.Status.failure 7 ∧
    (Dsp.Task_create Dsp.registerFails).1
      = [Dsp.Effect.memCalloc, Dsp.Effect.fillInfo, Dsp.Effect.semNew,
         Dsp.Effect.notifyRegister] ∧
    ∀ v, Dsp.Effect.semPend v ∉ (Dsp.Task_create Dsp.registerFails).1 :=
  ⟨by decide, (Dsp.Task_create_protocol_failure Dsp.registerFails rfl).1 (by decide)⟩

/-! ## Rounding to significant bits -/

theorem bitLengthAux_le (fuel n p : Nat) (h : n < 2 ^ p) : bitLengthAux fuel n ≤ p := by
  induction fuel generalizing n p with
  | zero => exact Nat.zero_le _
  | succ fuel ih =>
    unfold bitLengthAux
    split_ifs with h0
    · exact Nat.zero_le _
    · cases p with
      | zero => exact absurd h (by simpa using h0)
      | succ p =>
        have : n / 2 < 2 ^ p := by
          rw [pow_succ] at h
          omega
        exact Nat.succ_le_succ (ih _ _ this)

theorem bitLength_le (n p : Nat) (h : n < 2 ^ p) : bitLength n ≤ p :=
  bitLengthAux_le n n p h

/-- A number of at most `p` bits is its own rounding to `p` significant bits. -/
theorem roundSig_of_lt (p n : Nat) (h : n < 2 ^ p) : roundSig p n = n := by
  unfold roundSig
  have hsh : bitLength n - p = 0 := Nat.sub_eq_zero_of_le (bitLength_le n p h)
  simp [hsh, Nat.mod_one]

/-! ## The rescale loop of the host -/

theorem forLoop_four {σ : Type} (body : σ → Int → σ) (init : σ) :
    forLoop 0 4 body init = body (body (body (body init 0) 1) 2) 3 :=
  rfl

theorem Gpp.boostLane_exact (s : Nat) (hs : s < 65536) :
    Gpp.boostLane (Gpp.FIXED_FLOAT s) = (90 * s + 128) / 256 := by
  unfold Gpp.boostLane Gpp.FIXED_FLOAT
  rw [roundSig_of_lt 24 s (by omega)]
  simp only []
  rw [roundSig_of_lt 24 (s * 90) (by omega), roundSig_of_lt 24 (s * 90 + 128) (by omega)]
  omega

theorem Gpp.loadBatch_spec (temp : Int → Nat) (src : Int) :
    (Gpp.loadBatch temp src).2 = src + 4 ∧
    (Gpp.loadBatch temp src).1 0 = Gpp.FIXED_FLOAT (temp src) ∧
    (Gpp.loadBatch temp src).1 1 = Gpp.FIXED_FLOAT (temp (src + 1)) ∧
    (Gpp.loadBatch temp src).1 2 = Gpp.FIXED_FLOAT (temp (src + 2)) ∧
    (Gpp.loadBatch temp src).1 3 = Gpp.FIXED_FLOAT (temp (src + 3)) := by
  unfold Gpp.loadBatch
  rw [forLoop_four]
  refine ⟨?_, ?_, ?_, ?_, ?_⟩
  · show src + 1 + 1 + 1 + 1 = src + 4
    ring
  · simp [Function.update_apply]
  · simp [Function.update_apply]
  · simp [Function.update_apply, add_assoc]
  · simp [Function.update_apply, add_assoc]

theorem Gpp.rescaleBatch_spec (temp : Int → Nat) (heap : Int → Nat) (src dst : Int) :
    (Gpp.rescaleBatch temp (heap, src, dst)).2.1 = src + 4 ∧
    (Gpp.rescaleBatch temp (heap, src, dst)).2.2 = dst + 4 ∧
    ∀ j : Int, (Gpp.rescaleBatch temp (heap, src, dst)).1 j
      = if dst ≤ j ∧ j < dst + 4 then
          Gpp.boostLane (Gpp.FIXED_FLOAT (temp (src + (j - dst))))
        else heap j := by
  obtain ⟨h4, h0, h1, h2, h3⟩ := Gpp.loadBatch_spec temp src
  refine ⟨h4, rfl, fun j => ?_⟩
  show Function.update (Function.update (Function.update (Function.update heap dst
      (Gpp.boostLane ((Gpp.loadBatch temp src).1 0))) (dst + 1)
      (Gpp.boostLane ((Gpp.loadBatch temp src).1 1))) (dst + 2)
      (Gpp.boostLane ((Gpp.loadBatch temp src).1 2))) (dst + 3)
      (Gpp.boostLane ((Gpp.loadBatch temp src).1 3)) j = _
  rw [h0, h1, h2, h3]
  by_cases e3 : j = dst + 3
  · subst e3
    rw [Function.update_same, if_pos (by omega)]
    congr 3
    omega
  · rw [Function.update_noteq e3]
    by_cases e2 : j = dst + 2
    · subst e2
      rw [Function.update_same, if_pos (by omega)]
      congr 3
      omega
    · rw [Function.update_noteq e2]
      by_cases e1 : j = dst + 1
      · subst e1
        rw [Function.update_same, if_pos (by omega)]
        congr 3
        omega
      · rw [Function.update_noteq e1]
        by_cases e0 : j = dst
        · subst e0
          rw [Function.update_same, if_pos (by omega)]
          congr 3
          omega
        · rw [Function.update_noteq e0, if_neg (by omega)]

/-- The state of the rescale loop after `n` trips. -/
theorem Gpp.rescale_trips (temp heap0 : Int → Nat) (n : Nat) :
    ((List.range n).foldl
        (fun (st : (Int → Nat) × Int × Int) (_ : Nat) => Gpp.rescaleBatch temp st)
        (heap0, 0, 0)).2.1 = 4 * (n : Int) ∧
    ((List.range n).foldl
        (fun (st : (Int → Nat) × Int × Int) (_ : Nat) => Gpp.rescaleBatch temp st)
        (heap0, 0, 0)).2.2 = 4 * (n : Int) ∧
    ∀ j : Int, ((List.range n).foldl
        (fun (st : (Int → Nat) × Int × Int) (_ : Nat) => Gpp.rescaleBatch temp st)
        (heap0, 0, 0)).1 j
      = if 0 ≤ j ∧ j < 4 * (n : Int) then Gpp.boostLane (Gpp.FIXED_FLOAT (temp j))
        else heap0 j := by
  induction n with
  | zero =>
    refine ⟨rfl, rfl, fun j => ?_⟩
    rw [if_neg (by push_cast; omega)]
    rfl
  | succ n ih =>
    obtain ⟨ih1, ih2, ih3⟩ := ih
    rw [List.range_succ, List.foldl_append]
    simp only [List.foldl_cons, List.foldl_nil]
    generalize (List.range n).foldl
        (fun (st : (Int → Nat) × Int × Int) (_ : Nat) => Gpp.rescaleBatch temp st)
        (heap0, 0, 0) = st at ih1 ih2 ih3 ⊢
    obtain ⟨heap, src, dst⟩ := st
    simp only at ih1 ih2 ih3
    subst ih1 ih2
    obtain ⟨b1, b2, b3⟩ := Gpp.rescaleBatch_spec temp heap (4 * (n : Int)) (4 * (n : Int))
    refine ⟨by rw [b1]; push_cast; ring, by rw [b2]; push_cast; ring, fun j => ?_⟩
    rw [b3 j, ih3 j]
    push_cast
    by_cases hj : 4 * (n : Int) ≤ j ∧ j < 4 * (n : Int) + 4
    · rw [if_pos hj, if_pos (by omega)]
      congr 3
      omega
    · rw [if_neg hj]
      by_cases hj2 : 0 ≤ j ∧ j < 4 * (n : Int)
      · rw [if_pos hj2, if_pos (by omega)]
      · rw [if_neg hj2, if_neg (by omega)]

theorem Gpp.rescaleLoop_spec (temp : Int → Nat) (rows cols : Int) (heap0 : Int → Nat)
    (hshort : Int.tdiv (cols * rows) 4 ≤ 32767) :
    ∃ st, Gpp.rescaleLoop temp rows cols heap0 = some st ∧
      st.2.2 = 4 * ((Int.tdiv (cols * rows) 4).toNat : Int) ∧
      ∀ j : Int, st.1 j
        = if 0 ≤ j ∧ j < 4 * ((Int.tdiv (cols * rows) 4).toNat : Int) then
            Gpp.boostLane (Gpp.FIXED_FLOAT (temp j))
          else heap0 j := by
  unfold Gpp.rescaleLoop
  rw [if_pos hshort]
  refine ⟨_, rfl, ?_⟩
  unfold forLoop
  rw [Int.sub_zero]
  obtain ⟨-, h2, h3⟩ := Gpp.rescale_trips temp heap0 (Int.tdiv (cols * rows) 4).toNat
  exact ⟨h2, h3⟩

/-- The raster that the host `gaussian_smooth` returns, for a raster of `cols*rows ≥ 0`
samples: with `r = cols*rows mod 4`, cell `k` of the result is cell `k - r` of the
allocated array, which holds a rescaled sample for `0 ≤ k - r < cols*rows - r` and
memory that the loop has not written otherwise. -/
theorem Gpp.gaussian_smooth_spec (temp : Int → Nat) (rows cols : Int) (heap0 : Int → Nat)
    (hshort : Int.tdiv (cols * rows) 4 ≤ 32767) (hn : 0 ≤ cols * rows) :
    ∃ out, Gpp.gaussian_smooth temp rows cols heap0 = some out ∧
      ∀ k : Int, out k
        = if 0 ≤ k - cols * rows % 4 ∧ k - cols * rows % 4 < cols * rows - cols * rows % 4
          then Gpp.boostLane (Gpp.FIXED_FLOAT (temp (k - cols * rows % 4)))
          else heap0 (k - cols * rows % 4) := by
  obtain ⟨st, hst, h2, h3⟩ := Gpp.rescaleLoop_spec temp rows cols heap0 hshort
  have hdiv : Int.tdiv (cols * rows) 4 = cols * rows / 4 :=
    Int.tdiv_eq_ediv hn (by decide)
  have hnat : ((Int.tdiv (cols * rows) 4).toNat : Int) = cols * rows / 4 := by
    rw [hdiv]
    omega
  rw [hnat] at h2 h3
  unfold Gpp.gaussian_smooth
  rw [hst]
  refine ⟨_, rfl, fun k => ?_⟩
  have hidx : st.2.2 - cols * rows + k = k - cols * rows % 4 := by
    rw [h2]
    omega
  show st.1 (st.2.2 - cols * rows + k) = _
  rw [hidx, h3]
  by_cases hk : 0 ≤ k - cols * rows % 4 ∧ k - cols * rows % 4 < 4 * (cols * rows / 4)
  · rw [if_pos hk, if_pos (by omega)]
  · rw [if_neg hk, if_neg (by omega)]

/-- C14. Rescale rule: every unsigned 16-bit fixed-point sample `s` goes through the
`float` steps `s/256`, `* 90.0`, `+ 0.5` without rounding, and the truncated, narrowed
result is the integer `floor((90*s + 128) / 256)`; the loop of the host
`gaussian_smooth`, which takes the samples four at a time, leaves exactly that value of
sample `k` in cell `k` of its output array, for every sample of a full batch. -/
theorem Gpp.rescale_rule (temp : Int → Nat) (rows cols : Int) (heap0 : Int → Nat)
    (hshort : Int.tdiv (cols * rows) 4 ≤ 32767) (htemp : ∀ i, temp i < 65536) :
    (∀ s : Nat, s < 65536 → Gpp.boostLane (Gpp.FIXED_FLOAT s) = (90 * s + 128) / 256) ∧
    ∃ st, Gpp.rescaleLoop temp rows cols heap0 = some st ∧
      ∀ k : Int, 0 ≤ k → k < 4 * Int.tdiv (cols * rows) 4 →
        st.1 k = (90 * temp k + 128) / 256 := by
  refine ⟨Gpp.boostLane_exact, ?_⟩
  obtain ⟨st, hst, -, h3⟩ := Gpp.rescaleLoop_spec temp rows cols heap0 hshort
  refine ⟨st, hst, fun k hk0 hk => ?_⟩
  rw [h3 k, if_pos ⟨hk0, by omega⟩]
  exact Gpp.boostLane_exact _ (htemp k)

theorem Gpp.rescale_rule_witness :
    (∀ s : Nat, s < 65536 → Gpp.boostLane (Gpp.FIXED_FLOAT s) = (90 * s + 128) / 256) ∧
    ∃ st, Gpp.rescaleLoop Gpp.fiveSamples 1 5 (fun _ => 7) = some st ∧
      ∀ k : Int, 0 ≤ k → k < 4 * Int.tdiv (5 * 1) 4 →
        st.1 k = (90 * Gpp.fiveSamples k + 128) / 256 :=
  Gpp.rescale_rule Gpp.fiveSamples 1 5 (fun _ => 7) (by decide)
    (fun i => by
      unfold Gpp.fiveSamples
      split_ifs <;> omega)

/-- C15 fails on the code: for the 1 x 5 raster whose returned fixed-point samples are
`256, 512, 768, 1024, 1280` the loop runs for `5/4 = 1` batch, so the fifth sample is
never rescaled, and the returned pointer, moved back by `5` after an advance of `4`,
lies one cell before the array: the result holds an unwritten memory cell, then
`90, 180, 270, 360`, where the scalar rule gives `90, 180, 270, 360, 450`. -/
theorem Gpp.gaussian_smooth_drops_remainder (heap0 : Int → Nat) :
    ∃ out, Gpp.gaussian_smooth Gpp.fiveSamples 1 5 heap0 = some out ∧
      out 0 = heap0 (-1) ∧ out 1 = 90 ∧ out 2 = 180 ∧ out 3 = 270 ∧ out 4 = 360 ∧
      (90 * Gpp.fiveSamples 4 + 128) / 256 = 450 ∧
      out 4 ≠ (90 * Gpp.fiveSamples 4 + 128) / 256 := by
  obtain ⟨out, hout, h⟩ := Gpp.gaussian_smooth_spec Gpp.fiveSamples 1 5 heap0 (by decide)
    (by decide)
  have hs : ∀ i : Int, Gpp.fiveSamples i < 65536 := fun i => by
    unfold Gpp.fiveSamples
    split_ifs <;> omega
  have hr : (5 * 1 : Int) % 4 = 1 := by decide
  have v0 : Gpp.fiveSamples 0 = 256 := by decide
  have v1 : Gpp.fiveSamples 1 = 512 := by decide
  have v2 : Gpp.fiveSamples 2 = 768 := by decide
  have v3 : Gpp.fiveSamples 3 = 1024 := by decide
  have v4 : Gpp.fiveSamples 4 = 1280 := by decide
  have e0 := h 0
  have e1 := h 1
  have e2 := h 2
  have e3 := h 3
  have e4 := h 4
  rw [hr] at e0 e1 e2 e3 e4
  rw [if_neg (by decide)] at e0
  rw [if_pos (by decide), Gpp.boostLane_exact _ (hs _), show (1 : Int) - 1 = 0 from rfl, v0]
    at e1
  rw [if_pos (by decide), Gpp.boostLane_exact _ (hs _), show (2 : Int) - 1 = 1 from rfl, v1]
    at e2
  rw [if_pos (by decide), Gpp.boostLane_exact _ (hs _), show (3 : Int) - 1 = 2 from rfl, v2]
    at e3
  rw [if_pos (by decide), Gpp.boostLane_exact _ (hs _), show (4 : Int) - 1 = 3 from rfl, v3]
    at e4
  refine ⟨out, hout, e0, e1, e2, e3, e4, by rw [v4], ?_⟩
  rw [e4, v4]
  decide

/-! ## The kernel generator of the host -/

theorem ceil_nat_div (a b : Nat) (hb : 0 < b) :
    ⌈((a : ℚ) / (b : ℚ))⌉ = (((a + b - 1) / b : Nat) : Int) := by
  rw [Int.ceil_eq_iff]
  have hbq : (0 : ℚ) < (b : ℚ) := by exact_mod_cast hb
  have h1 : b * ((a + b - 1) / b) ≤ a + b - 1 := Nat.mul_div_le _ _
  have h2 : a + b - 1 < b * ((a + b - 1) / b + 1) := Nat.lt_mul_div_succ _ hb
  set q := (a + b - 1) / b with hq
  constructor
  · rw [lt_div_iff₀ hbq]
    have h3 : b * q < a + b := by omega
    have h4 : ((b * q : Nat) : ℚ) < ((a + b : Nat) : ℚ) := by exact_mod_cast h3
    push_cast at h4 ⊢
    linarith
  · rw [div_le_iff₀ hbq]
    have h3 : a ≤ b * q := by
      rw [Nat.mul_succ] at h2
      omega
    have h4 : ((a : Nat) : ℚ) ≤ ((b * q : Nat) : ℚ) := by exact_mod_cast h3
    push_cast at h4 ⊢
    linarith

/-- The model of `ceil(2.5 * sigma)` is the ceiling of the exact product. -/
theorem Gpp.ceilProduct_eq (sigma : Gpp.Float32) :
    ((Gpp.ceilProduct sigma : Nat) : Int) = ⌈(5 / 2 : ℚ) * sigma.toRat⌉ := by
  obtain ⟨m, e, hm⟩ := sigma
  unfold Gpp.ceilProduct Gpp.Float32.toRat
  simp only []
  rw [roundSig_of_lt 53 (5 * m) (by omega)]
  have h2 : (2 : ℚ) ≠ 0 := by norm_num
  by_cases he : 0 ≤ e - 1
  · rw [if_pos he]
    have hk : e = ((e - 1).toNat : Int) + 1 := by omega
    have hval : (5 / 2 : ℚ) * ((m : ℚ) * (2 : ℚ) ^ e)
        = ((5 * m * 2 ^ (e - 1).toNat : Nat) : ℚ) := by
      conv_lhs => rw [hk, zpow_add₀ h2, zpow_natCast, zpow_one]
      push_cast
      ring
    rw [hval, Int.ceil_natCast]
  · rw [if_neg he]
    have hk : e = 1 - ((1 - e).toNat : Int) := by omega
    have hpow : (0 : ℚ) < (2 : ℚ) ^ (1 - e).toNat := by positivity
    have hval : (5 / 2 : ℚ) * ((m : ℚ) * (2 : ℚ) ^ e)
        = ((5 * m : Nat) : ℚ) / ((2 ^ (1 - e).toNat : Nat) : ℚ) := by
      conv_lhs => rw [hk, zpow_sub₀ h2, zpow_natCast, zpow_one]
      push_cast
      field_simp
      ring
    rw [hval, ceil_nat_div _ _ (by positivity)]

theorem Gpp.windowsizeOf_of_fits (sigma : Gpp.Float32)
    (h : 1 + 2 * Gpp.ceilProduct sigma < 2147483648) :
    Gpp.windowsizeOf sigma = some (((1 + 2 * Gpp.ceilProduct sigma : Nat) : Int)) := by
  unfold Gpp.windowsizeOf
  simp only []
  rw [roundSig_of_lt 53 _ (by omega), if_pos h]

/-- C16. Window size: for every `float` `sigma > 0` for which `1 + 2*ceil(2.5*sigma)`
is a value of `int`, `make_gaussian_kernel` sets `windowsize = 1 + 2*ceil(2.5*sigma)`,
which is odd and at least 3, and fills the kernel with `center = windowsize/2`, so
that `windowsize = 2*center + 1`. -/
theorem Gpp.make_gaussian_kernel_windowsize (sigma : Gpp.Float32) (rawWeight : Int → Nat)
    (kernel0 : Int → Nat) (hpos : 0 < sigma.mant)
    (hfit : 1 + 2 * ⌈(5 / 2 : ℚ) * sigma.toRat⌉ < 2147483648) :
    ∃ kernel windowsize,
      Gpp.make_gaussian_kernel sigma rawWeight kernel0 = some (kernel, windowsize) ∧
      windowsize = 1 + 2 * ⌈(5 / 2 : ℚ) * sigma.toRat⌉ ∧
      windowsize % 2 = 1 ∧ 3 ≤ windowsize ∧
      windowsize = 2 * Int.tdiv windowsize 2 + 1 ∧
      kernel = Gpp.normalizeLoop windowsize
        (Gpp.rawLoop rawWeight windowsize (Int.tdiv windowsize 2) kernel0).2
        (Gpp.rawLoop rawWeight windowsize (Int.tdiv windowsize 2) kernel0).1 := by
  have hc := Gpp.ceilProduct_eq sigma
  rw [← hc] at hfit ⊢
  have hcpos : 0 < ⌈(5 / 2 : ℚ) * sigma.toRat⌉ := by
    rw [Int.ceil_pos]
    unfold Gpp.Float32.toRat
    have : (0 : ℚ) < (sigma.mant : ℚ) := by exact_mod_cast hpos
    positivity
  rw [← hc] at hcpos
  have hws := Gpp.windowsizeOf_of_fits sigma (by omega)
  unfold Gpp.make_gaussian_kernel
  rw [hws]
  have htdiv : Int.tdiv ((1 + 2 * Gpp.ceilProduct sigma : Nat) : Int) 2
      = ((1 + 2 * Gpp.ceilProduct sigma : Nat) : Int) / 2 :=
    Int.tdiv_eq_ediv (by omega) (by decide)
  refine ⟨_, _, rfl, by push_cast; ring, by omega, by omega, ?_, rfl⟩
  rw [htdiv]
  omega

theorem Gpp.make_gaussian_kernel_windowsize_witness :
    0 < Gpp.sigmaDefault.mant ∧
    ∃ kernel windowsize,
      Gpp.make_gaussian_kernel Gpp.sigmaDefault Gpp.rawTwo (fun _ => 0)
        = some (kernel, windowsize) ∧
      windowsize = 1 + 2 * ⌈(5 / 2 : ℚ) * Gpp.sigmaDefault.toRat⌉ ∧
      windowsize % 2 = 1 ∧ 3 ≤ windowsize ∧
      windowsize = 2 * Int.tdiv windowsize 2 + 1 ∧
      kernel = Gpp.normalizeLoop windowsize
        (Gpp.rawLoop Gpp.rawTwo windowsize (Int.tdiv windowsize 2) (fun _ => 0)).2
        (Gpp.rawLoop Gpp.rawTwo windowsize (Int.tdiv windowsize 2) (fun _ => 0)).1 :=
  ⟨by decide,
   Gpp.make_gaussian_kernel_windowsize Gpp.sigmaDefault Gpp.rawTwo (fun _ => 0) (by decide)
    (by
      rw [← Gpp.ceilProduct_eq]
      decide)⟩

/-- A loop that stores `f i` in cell `i` and adds it, modulo `2^32`, to an accumulator. -/
theorem foldl_store_acc (f : Int → Nat) (k0 : Int → Nat) (n : Nat) :
    ((List.range n).foldl
        (fun (st : (Int → Nat) × Nat) (k : Nat) =>
          (Function.update st.1 (0 + (k : Int)) (f (0 + (k : Int))),
           (st.2 + f (0 + (k : Int))) % 4294967296)) (k0, 0)).2
      = (∑ i ∈ Finset.range n, f (i : Int)) % 4294967296 ∧
    ∀ j : Int, ((List.range n).foldl
        (fun (st : (Int → Nat) × Nat) (k : Nat) =>
          (Function.update st.1 (0 + (k : Int)) (f (0 + (k : Int))),
           (st.2 + f (0 + (k : Int))) % 4294967296)) (k0, 0)).1 j
      = if 0 ≤ j ∧ j < (n : Int) then f j else k0 j := by
  induction n with
  | zero =>
    refine ⟨rfl, fun j => ?_⟩
    rw [if_neg (by push_cast; omega)]
    rfl
  | succ n ih =>
    obtain ⟨ih1, ih2⟩ := ih
    rw [List.range_succ, List.foldl_append]
    simp only [List.foldl_cons, List.foldl_nil, zero_add]
    simp only [zero_add] at ih1 ih2
    refine ⟨?_, fun j => ?_⟩
    · rw [ih1, Finset.sum_range_succ, Nat.mod_add_mod]
    · by_cases hj : j = (n : Int)
      · subst hj
        rw [Function.update_same, if_pos (by push_cast; omega)]
      · rw [Function.update_noteq hj, ih2 j]
        push_cast
        by_cases hj2 : 0 ≤ j ∧ j < (n : Int)
        · rw [if_pos hj2, if_pos (by omega)]
        · rw [if_neg hj2, if_neg (by omega)]

/-- A loop that replaces each cell `i` by `g` of its content. -/
theorem foldl_map_in_place (g : Nat → Nat) (k0 : Int → Nat) (n : Nat) (j : Int) :
    (List.range n).foldl
        (fun (k : Int → Nat) (i : Nat) =>
          Function.update k (0 + (i : Int)) (g (k (0 + (i : Int))))) k0 j
      = if 0 ≤ j ∧ j < (n : Int) then g (k0 j) else k0 j := by
  induction n generalizing j with
  | zero =>
    rw [if_neg (by push_cast; omega)]
    rfl
  | succ n ih =>
    rw [List.range_succ, List.foldl_append]
    simp only [List.foldl_cons, List.foldl_nil, zero_add]
    simp only [zero_add] at ih
    by_cases hj : j = (n : Int)
    · subst hj
      rw [Function.update_same, if_pos (by push_cast; omega), ih, if_neg (by omega)]
    · rw [Function.update_noteq hj, ih j]
      push_cast
      by_cases hj2 : 0 ≤ j ∧ j < (n : Int)
      · rw [if_pos hj2, if_pos (by omega)]
      · rw [if_neg hj2, if_neg (by omega)]

theorem Gpp.rawLoop_spec (raw : Int → Nat) (ws : Int) (k0 : Int → Nat) :
    (Gpp.rawLoop raw ws (Int.tdiv ws 2) k0).2 = Gpp.rawSum raw ws % 4294967296 ∧
    ∀ j : Int, (Gpp.rawLoop raw ws (Int.tdiv ws 2) k0).1 j
      = if 0 ≤ j ∧ j < ws then raw ((j - Int.tdiv ws 2) * (j - Int.tdiv ws 2)) else k0 j := by
  unfold Gpp.rawLoop forLoop Gpp.rawSum
  rw [Int.sub_zero]
  obtain ⟨h1, h2⟩ := foldl_store_acc
    (fun i => raw ((i - Int.tdiv ws 2) * (i - Int.tdiv ws 2))) k0 ws.toNat
  refine ⟨h1, fun j => ?_⟩
  rw [h2 j]
  by_cases hj : 0 ≤ j ∧ j < ws
  · rw [if_pos hj, if_pos (by omega)]
  · rw [if_neg hj, if_neg (by omega)]

theorem Gpp.normalizeLoop_spec (ws : Int) (S : Nat) (k0 : Int → Nat) (j : Int) :
    Gpp.normalizeLoop ws S k0 j
      = if 0 ≤ j ∧ j < ws then Gpp.DIVISION (k0 j) S else k0 j := by
  unfold Gpp.normalizeLoop forLoop
  rw [Int.sub_zero, foldl_map_in_place (fun a => Gpp.DIVISION a S) k0 ws.toNat j]
  by_cases hj : 0 ≤ j ∧ j < ws
  · rw [if_pos hj, if_pos (by omega)]
  · rw [if_neg hj, if_neg (by omega)]

/-- The rounding division of a raw weight `a` by a sum `S` that `a` does not exceed: the
quotient is at most `256` and `S` times it is within `S/2` of `256*a`. -/
theorem Gpp.DIVISION_weight (a S : Nat) (ha : a < 65536) (haS : a ≤ S) (hS0 : 0 < S)
    (hS : S < 4294967296) :
    Gpp.DIVISION a S ≤ 256 ∧ S * Gpp.DIVISION a S ≤ 256 * a + S / 2 ∧
    256 * a + S / 2 + 1 ≤ S * Gpp.DIVISION a S + S := by
  have hq : (a * 256 + S / 2) / S ≤ 256 := by
    apply Nat.le_of_lt_succ
    rw [Nat.div_lt_iff_lt_mul hS0]
    omega
  have hd : Gpp.DIVISION a S = (a * 256 + S / 2) / S := by
    unfold Gpp.DIVISION
    rw [Nat.mod_eq_of_lt (show a < 4294967296 by omega), Nat.mod_eq_of_lt hS,
      Nat.mod_eq_of_lt (show a * 256 < 4294967296 by omega),
      Nat.mod_eq_of_lt (show a * 256 + S / 2 < 4294967296 by omega),
      Nat.mod_eq_of_lt (by omega)]
  rw [hd]
  have h1 : S * ((a * 256 + S / 2) / S) ≤ a * 256 + S / 2 := Nat.mul_div_le _ _
  have h2 : a * 256 + S / 2 < S * ((a * 256 + S / 2) / S + 1) := Nat.lt_mul_div_succ _ hS0
  generalize (a * 256 + S / 2) / S = q at hq h1 h2 ⊢
  have h3 : S * (q + 1) = S * q + S := by ring
  rw [h3] at h2
  refine ⟨hq, by omega, by omega⟩

/-- The entries of the kernel that `make_gaussian_kernel` returns, when the raw weights
fit 16 bits and their sum is positive and fits 32 bits. -/
theorem Gpp.make_gaussian_kernel_entries (sigma : Gpp.Float32) (raw k0 : Int → Nat)
    (hfit : 1 + 2 * Gpp.ceilProduct sigma < 2147483648) :
    ∃ kernel, Gpp.make_gaussian_kernel sigma raw k0
        = some (kernel, ((1 + 2 * Gpp.ceilProduct sigma : Nat) : Int)) ∧
      ∀ j : Int, kernel j
        = if 0 ≤ j ∧ j < ((1 + 2 * Gpp.ceilProduct sigma : Nat) : Int) then
            Gpp.DIVISION
              (raw ((j - Int.tdiv ((1 + 2 * Gpp.ceilProduct sigma : Nat) : Int) 2)
                * (j - Int.tdiv ((1 + 2 * Gpp.ceilProduct sigma : Nat) : Int) 2)))
              (Gpp.rawSum raw ((1 + 2 * Gpp.ceilProduct sigma : Nat) : Int) % 4294967296)
          else k0 j := by
  unfold Gpp.make_gaussian_kernel
  rw [Gpp.windowsizeOf_of_fits sigma hfit]
  refine ⟨_, rfl, fun j => ?_⟩
  obtain ⟨h1, h2⟩ := Gpp.rawLoop_spec raw ((1 + 2 * Gpp.ceilProduct sigma : Nat) : Int) k0
  show Gpp.normalizeLoop _ _ _ j = _
  rw [Gpp.normalizeLoop_spec, h1, h2 j]
  by_cases hj : 0 ≤ j ∧ j < ((1 + 2 * Gpp.ceilProduct sigma : Nat) : Int)
  · simp only [if_pos hj]
  · simp only [if_neg hj]

/-- The sum of the rounded quotients `DIVISION(a i, S)` of `n` weights by their sum `S`
is within `n/2` of `256`. -/
theorem Gpp.normalized_sum_bound (a : Nat → Nat) (n : Nat)
    (ha : ∀ i, a i < 65536) (hS0 : 0 < ∑ i ∈ Finset.range n, a i)
    (hS : ∑ i ∈ Finset.range n, a i < 4294967296) :
    2 * (∑ i ∈ Finset.range n, Gpp.DIVISION (a i) (∑ i ∈ Finset.range n, a i)) ≤ 512 + n ∧
    512 ≤ 2 * (∑ i ∈ Finset.range n, Gpp.DIVISION (a i) (∑ i ∈ Finset.range n, a i)) + n := by
  have hle : ∀ i ∈ Finset.range n, a i ≤ ∑ i ∈ Finset.range n, a i := fun i hi =>
    Finset.single_le_sum (fun _ _ => Nat.zero_le _) hi
  have hsumA : ∑ i ∈ Finset.range n, 256 * a i = 256 * ∑ i ∈ Finset.range n, a i :=
    (Finset.mul_sum _ _ _).symm
  generalize hSdef : ∑ i ∈ Finset.range n, a i = S at hS0 hS hle hsumA ⊢
  have hsumD : ∑ i ∈ Finset.range n, S * Gpp.DIVISION (a i) S
      = S * ∑ i ∈ Finset.range n, Gpp.DIVISION (a i) S := (Finset.mul_sum _ _ _).symm
  have hup : ∑ i ∈ Finset.range n, S * Gpp.DIVISION (a i) S
      ≤ ∑ i ∈ Finset.range n, (256 * a i + S / 2) :=
    Finset.sum_le_sum (fun i hi =>
      (Gpp.DIVISION_weight (a i) S (ha i) (hle i hi) hS0 hS).2.1)
  have hlo : ∑ i ∈ Finset.range n, (256 * a i + S / 2 + 1)
      ≤ ∑ i ∈ Finset.range n, (S * Gpp.DIVISION (a i) S + S) :=
    Finset.sum_le_sum (fun i hi =>
      (Gpp.DIVISION_weight (a i) S (ha i) (hle i hi) hS0 hS).2.2)
  simp only [Finset.sum_add_distrib, Finset.sum_const, Finset.card_range, smul_eq_mul,
    hsumA, hsumD, Nat.mul_one] at hup hlo
  generalize ∑ i ∈ Finset.range n, Gpp.DIVISION (a i) S = T at hup hlo ⊢
  have hhalf1 : n * (2 * (S / 2)) ≤ n * S := Nat.mul_le_mul_left n (by omega)
  have hhalf2 : n * S ≤ n * (2 * (S / 2) + 1) := Nat.mul_le_mul_left n (by omega)
  constructor
  · apply Nat.le_of_mul_le_mul_left _ hS0
    nlinarith
  · apply Nat.le_of_mul_le_mul_left _ hS0
    nlinarith

/-- C17 (as stated) fails: for `sigma = 2.0` the window has 11 entries, the truncated
raw weights are `2, 6, 16, 30, 45, 51, 45, 30, 16, 6, 2` with sum `249`, and the
normalized weights `2, 6, 16, 31, 46, 52, 46, 31, 16, 6, 2` add up to `254`, which is
not within 1 of `256`. -/
theorem Gpp.make_gaussian_kernel_sum_off :
    Gpp.rawSum Gpp.rawTwo 11 = 249 ∧
    (Gpp.make_gaussian_kernel Gpp.sigmaTwo Gpp.rawTwo (fun _ => 0)).map
        (fun p => ((List.range 11).map (fun i => p.1 (i : Int)), p.2))
      = some ([2, 6, 16, 31, 46, 52, 46, 31, 16, 6, 2], 11) ∧
    (Gpp.make_gaussian_kernel Gpp.sigmaTwo Gpp.rawTwo (fun _ => 0)).map
        (fun p => Gpp.kernelSum p.1 p.2) = some 254 ∧
    ¬ (255 ≤ 254 ∧ 254 ≤ 257) := by
  decide

/-- C17 (amended). Kernel normalization: for every `float` `sigma` whose window size is
a value of `int` and whose truncated raw weights have a positive sum that fits 32 bits,
after `make_gaussian_kernel` normalizes each raw weight with `DIVISION(raw, sum)` the
normalized weights add up to a value within `windowsize/2` of `256`, the Q8
representation of 1.0: each weight is rounded to nearest, which moves it by at most one
half. -/
theorem Gpp.make_gaussian_kernel_sum (sigma : Gpp.Float32) (raw k0 : Int → Nat)
    (hfit : 1 + 2 * ⌈(5 / 2 : ℚ) * sigma.toRat⌉ < 2147483648)
    (hraw : ∀ xx, raw xx < 65536)
    (hS0 : 0 < Gpp.rawSum raw (1 + 2 * ⌈(5 / 2 : ℚ) * sigma.toRat⌉))
    (hS : Gpp.rawSum raw (1 + 2 * ⌈(5 / 2 : ℚ) * sigma.toRat⌉) < 4294967296) :
    ∃ kernel windowsize,
      Gpp.make_gaussian_kernel sigma raw k0 = some (kernel, windowsize) ∧
      windowsize = 1 + 2 * ⌈(5 / 2 : ℚ) * sigma.toRat⌉ ∧
      2 * (Gpp.kernelSum kernel windowsize : Int) ≤ 512 + windowsize ∧
      512 ≤ 2 * (Gpp.kernelSum kernel windowsize : Int) + windowsize := by
  rw [← Gpp.ceilProduct_eq] at hfit hS0 hS ⊢
  have hw : (1 : Int) + 2 * ((Gpp.ceilProduct sigma : Nat) : Int)
      = ((1 + 2 * Gpp.ceilProduct sigma : Nat) : Int) := by push_cast; ring
  rw [hw] at hS0 hS
  obtain ⟨kernel, hk, hent⟩ := Gpp.make_gaussian_kernel_entries sigma raw k0 (by omega)
  refine ⟨kernel, _, hk, hw.symm, ?_⟩
  have hsum : Gpp.kernelSum kernel ((1 + 2 * Gpp.ceilProduct sigma : Nat) : Int)
      = ∑ i ∈ Finset.range (1 + 2 * Gpp.ceilProduct sigma),
          Gpp.DIVISION
            (raw (((i : Int) - Int.tdiv ((1 + 2 * Gpp.ceilProduct sigma : Nat) : Int) 2)
              * ((i : Int) - Int.tdiv ((1 + 2 * Gpp.ceilProduct sigma : Nat) : Int) 2)))
            (∑ i ∈ Finset.range (1 + 2 * Gpp.ceilProduct sigma),
              raw (((i : Int) - Int.tdiv ((1 + 2 * Gpp.ceilProduct sigma : Nat) : Int) 2)
                * ((i : Int) - Int.tdiv ((1 + 2 * Gpp.ceilProduct sigma : Nat) : Int) 2))) := by
    unfold Gpp.kernelSum
    rw [Int.toNat_ofNat]
    refine Finset.sum_congr rfl (fun i hi => ?_)
    have hi2 := Finset.mem_range.1 hi
    rw [hent (i : Int), if_pos ⟨by omega, by exact_mod_cast hi2⟩, Nat.mod_eq_of_lt hS]
    unfold Gpp.rawSum
    rw [Int.toNat_ofNat]
  have hb := Gpp.normalized_sum_bound
    (fun i => raw (((i : Int) - Int.tdiv ((1 + 2 * Gpp.ceilProduct sigma : Nat) : Int) 2)
      * ((i : Int) - Int.tdiv ((1 + 2 * Gpp.ceilProduct sigma : Nat) : Int) 2)))
    (1 + 2 * Gpp.ceilProduct sigma) (fun _ => hraw _)
    (by
      unfold Gpp.rawSum at hS0
      rw [Int.toNat_ofNat] at hS0
      exact hS0)
    (by
      unfold Gpp.rawSum at hS
      rw [Int.toNat_ofNat] at hS
      exact hS)
  rw [hsum]
  simp only [] at hb
  constructor
  · exact_mod_cast hb.1
  · exact_mod_cast hb.2

theorem Gpp.make_gaussian_kernel_sum_witness :
    (0 < Gpp.rawSum Gpp.rawTwo (1 + 2 * ⌈(5 / 2 : ℚ) * Gpp.sigmaTwo.toRat⌉)) ∧
    ∃ kernel windowsize,
      Gpp.make_gaussian_kernel Gpp.sigmaTwo Gpp.rawTwo (fun _ => 0)
        = some (kernel, windowsize) ∧
      windowsize = 1 + 2 * ⌈(5 / 2 : ℚ) * Gpp.sigmaTwo.toRat⌉ ∧
      2 * (Gpp.kernelSum kernel windowsize : Int) ≤ 512 + windowsize ∧
      512 ≤ 2 * (Gpp.kernelSum kernel windowsize : Int) + windowsize :=
  have hc : ⌈(5 / 2 : ℚ) * Gpp.sigmaTwo.toRat⌉ = 5 := by
    rw [← Gpp.ceilProduct_eq]
    decide
  ⟨by rw [hc]; decide,
   Gpp.make_gaussian_kernel_sum Gpp.sigmaTwo Gpp.rawTwo (fun _ => 0)
    (by rw [hc]; decide)
    (fun xx => by
      unfold Gpp.rawTwo
      split_ifs <;> decide)
    (by rw [hc]; decide) (by rw [hc]; decide)⟩

/-! ## Bit length, integer square root and rounding -/

theorem lt_two_pow_bitLengthAux (fuel n : Nat) (h : n ≤ fuel) :
    n < 2 ^ bitLengthAux fuel n := by
  induction fuel generalizing n with
  | zero =>
    have : n = 0 := Nat.le_zero.1 h
    subst this
    simp [bitLengthAux]
  | succ fuel ih =>
    unfold bitLengthAux
    split_ifs with h0
    · subst h0
      simp
    · have h2 := ih (n / 2) (by omega)
      rw [pow_succ]
      omega

theorem lt_two_pow_bitLength (n : Nat) : n < 2 ^ bitLength n :=
  lt_two_pow_bitLengthAux n n (Nat.le_refl n)

theorem isqrtAux_spec (n b r : Nat) (h1 : r * r ≤ n) (h2 : n < (r + 2 ^ b) * (r + 2 ^ b)) :
    isqrtAux n b r * isqrtAux n b r ≤ n ∧
    n < (isqrtAux n b r + 1) * (isqrtAux n b r + 1) := by
  induction b generalizing r with
  | zero =>
    unfold isqrtAux
    simpa using ⟨h1, h2⟩
  | succ b ih =>
    unfold isqrtAux
    split_ifs with hc
    · refine ih _ hc ?_
      have : r + 2 ^ b + 2 ^ b = r + 2 ^ (b + 1) := by rw [pow_succ]; omega
      rw [this]
      exact h2
    · exact ih _ h1 (Nat.lt_of_not_le hc)

/-- The integer square root: `isqrt n` is the greatest number whose square is at most
`n`. -/
theorem isqrt_spec (n : Nat) : isqrt n * isqrt n ≤ n ∧ n < (isqrt n + 1) * (isqrt n + 1) := by
  unfold isqrt
  refine isqrtAux_spec n (bitLength n) 0 (Nat.zero_le _) ?_
  have h := lt_two_pow_bitLength n
  have h1 : 1 ≤ 2 ^ bitLength n := Nat.one_le_two_pow
  calc n < 2 ^ bitLength n := h
    _ = 2 ^ bitLength n * 1 := (Nat.mul_one _).symm
    _ ≤ 2 ^ bitLength n * 2 ^ bitLength n := Nat.mul_le_mul_left _ h1
    _ = (0 + 2 ^ bitLength n) * (0 + 2 ^ bitLength n) := by rw [Nat.zero_add]

/-- Rounding to `p` significant bits moves a number by at most the weight
`2^(bitLength n - p)` of its last kept bit. -/
theorem roundSig_near (p n : Nat) :
    n < roundSig p n + 2 ^ (bitLength n - p) ∧ roundSig p n ≤ n + 2 ^ (bitLength n - p) := by
  unfold roundSig
  simp only []
  have hX : 0 < 2 ^ (bitLength n - p) := Nat.two_pow_pos _
  have h1 := Nat.div_mul_le_self n (2 ^ (bitLength n - p))
  have h2 := Nat.lt_div_mul_add (a := n) hX
  have h3 : (n / 2 ^ (bitLength n - p) + 1) * 2 ^ (bitLength n - p)
      = n / 2 ^ (bitLength n - p) * 2 ^ (bitLength n - p) + 2 ^ (bitLength n - p) := by ring
  split_ifs
  · omega
  · rw [h3]
    omega

theorem Gpp.sqrtDouble_near (y : Nat) :
    isqrt (y * 2 ^ 104) < Gpp.sqrtDouble y + 2 ^ (bitLength (isqrt (y * 2 ^ 104)) - 53) ∧
    Gpp.sqrtDouble y
      ≤ isqrt (y * 2 ^ 104) + 2 ^ (bitLength (isqrt (y * 2 ^ 104)) - 53) := by
  unfold Gpp.sqrtDouble
  simp only []
  generalize isqrt (y * 2 ^ 104) = R
  have hX : 0 < 2 ^ (bitLength R - 53) := Nat.two_pow_pos _
  have h1 := Nat.div_mul_le_self R (2 ^ (bitLength R - 53))
  have h2 := Nat.lt_div_mul_add (a := R) hX
  have h3 : (R / 2 ^ (bitLength R - 53) + 1) * 2 ^ (bitLength R - 53)
      = R / 2 ^ (bitLength R - 53) * 2 ^ (bitLength R - 53) + 2 ^ (bitLength R - 53) := by
    ring
  split_ifs
  · rw [h3]
    omega
  · omega

/-! ## The magnitude stage -/

/-- The number `roundSqrt y` is the `m` with `(2m - 1)^2 ≤ 4y < (2m + 1)^2`. -/
theorem Gpp.roundSqrt_spec (y : Nat) :
    4 * y < (2 * Gpp.roundSqrt y + 1) * (2 * Gpp.roundSqrt y + 1) ∧
    (2 * Gpp.roundSqrt y - 1) * (2 * Gpp.roundSqrt y - 1) ≤ 4 * y := by
  unfold Gpp.roundSqrt
  obtain ⟨h1, h2⟩ := isqrt_spec (4 * y)
  generalize isqrt (4 * y) = s at h1 h2
  constructor
  · have h3 : s + 1 ≤ 2 * ((s + 1) / 2) + 1 := by omega
    exact lt_of_lt_of_le h2 (Nat.mul_le_mul h3 h3)
  · have h3 : 2 * ((s + 1) / 2) - 1 ≤ s := by omega
    exact le_trans (Nat.mul_le_mul h3 h3) h1

theorem odd_sq_mod_four (u : Nat) (hu : u % 2 = 1) : u * u % 4 = 1 := by
  obtain ⟨k, rfl⟩ : ∃ k, u = 2 * k + 1 := ⟨u / 2, by omega⟩
  have : (2 * k + 1) * (2 * k + 1) = 4 * (k * k + k) + 1 := by ring
  rw [this]
  omega

set_option maxRecDepth 100000 in
/-- The `double` chain `0.5 + sqrt(y)`, truncated, is the integer nearest to the square
root of `y`, for every integer `y` below `2^32`: neither the rounding of the root nor
that of the sum reaches the next integer. -/
theorem Gpp.sqrt_round_exact (y : Nat) (hy : y < 4294967296) :
    roundSig 53 (2 ^ 51 + Gpp.sqrtDouble y) / 2 ^ 52 = Gpp.roundSqrt y := by
  by_cases hy0 : y = 0
  · subst hy0
    decide
  obtain ⟨hup, hlo⟩ := Gpp.roundSqrt_spec y
  generalize Gpp.roundSqrt y = m at hup hlo ⊢
  have hm1 : 1 ≤ m := by
    by_contra h
    have : m = 0 := by omega
    subst this
    omega
  have hm2 : m ≤ 65536 := by
    by_contra h
    have h3 : 131072 ≤ 2 * m - 1 := by omega
    have := Nat.mul_le_mul h3 h3
    omega
  obtain ⟨u, hu⟩ : ∃ u, u = 2 * m - 1 := ⟨_, rfl⟩
  have hv : 2 * m + 1 = u + 2 := by omega
  rw [← hu] at hlo
  rw [hv] at hup
  have hpar := odd_sq_mod_four u (by omega)
  obtain ⟨hR1, hR2⟩ := isqrt_spec (y * 2 ^ 104)
  obtain ⟨hV1, hV2⟩ := Gpp.sqrtDouble_near y
  generalize hR : isqrt (y * 2 ^ 104) = R at hR1 hR2 hV1 hV2
  -- the root is well inside the interval of the two half-integers around `m`
  have hA : u * 2 ^ 51 + 2 ^ 30 ≤ R := by
    by_contra h
    have h3 : R + 1 ≤ u * 2 ^ 51 + 2 ^ 30 := by omega
    have h4 := Nat.mul_le_mul h3 h3
    have h5 : (u * 2 ^ 51 + 2 ^ 30) * (u * 2 ^ 51 + 2 ^ 30)
        = u * u * 2 ^ 102 + u * 2 ^ 82 + 2 ^ 60 := by ring
    rw [h5] at h4
    generalize u * u = P at hlo hpar h4
    generalize (R + 1) * (R + 1) = Q at hR2 h4
    omega
  have hB : R + 2 ^ 30 < (u + 2) * 2 ^ 51 := by
    by_contra h
    have h3 : (u + 2) * 2 ^ 51 - 2 ^ 30 ≤ R := by omega
    have h4 := Nat.mul_le_mul h3 h3
    obtain ⟨B, hBdef⟩ : ∃ B, B + 2 ^ 30 = (u + 2) * 2 ^ 51 := ⟨(u + 2) * 2 ^ 51 - 2 ^ 30, by omega⟩
    have hBeq : (u + 2) * 2 ^ 51 - 2 ^ 30 = B := by omega
    rw [hBeq] at h4
    have h5 : (B + 2 ^ 30) * (B + 2 ^ 30) = B * B + B * 2 ^ 31 + 2 ^ 60 := by ring
    have h6 : (B + 2 ^ 30) * (B + 2 ^ 30) = (u + 2) * (u + 2) * 2 ^ 102 := by
      rw [hBdef]
      ring
    rw [h5] at h6
    generalize (u + 2) * (u + 2) = Vsq at hup h6
    generalize B * B = Bsq at h4 h6
    generalize R * R = Rsq at hR1 h4
    omega
  have hbl : bitLength R ≤ 69 := bitLength_le R 69 (by omega)
  have hX : 2 ^ (bitLength R - 53) ≤ 2 ^ 16 := Nat.pow_le_pow_right (by decide) (by omega)
  generalize 2 ^ (bitLength R - 53) = X at hV1 hV2 hX
  obtain ⟨hW1, hW2⟩ := roundSig_near 53 (2 ^ 51 + Gpp.sqrtDouble y)
  generalize Gpp.sqrtDouble y = V at hV1 hV2 hW1 hW2 ⊢
  have hbl2 : bitLength (2 ^ 51 + V) ≤ 70 := bitLength_le _ 70 (by omega)
  have hX2 : 2 ^ (bitLength (2 ^ 51 + V) - 53) ≤ 2 ^ 17 :=
    Nat.pow_le_pow_right (by decide) (by omega)
  generalize 2 ^ (bitLength (2 ^ 51 + V) - 53) = X2 at hW1 hW2 hX2
  generalize roundSig 53 (2 ^ 51 + V) = V2 at hW1 hW2 ⊢
  omega

/-- The integer `roundSqrt y` is `floor(sqrt(y) + 1/2)`. -/
theorem Gpp.roundSqrt_eq_floor (y : Nat) :
    ⌊Real.sqrt (y : ℝ) + 1 / 2⌋ = ((Gpp.roundSqrt y : Nat) : Int) := by
  obtain ⟨hup, hlo⟩ := Gpp.roundSqrt_spec y
  generalize Gpp.roundSqrt y = m at hup hlo
  rw [Int.floor_eq_iff]
  have hupR : (4 : ℝ) * (y : ℝ) < (2 * (m : ℝ) + 1) * (2 * (m : ℝ) + 1) := by
    exact_mod_cast hup
  constructor
  · by_cases hm : m = 0
    · subst hm
      have := Real.sqrt_nonneg (y : ℝ)
      push_cast
      linarith
    · have hm1 : 1 ≤ m := Nat.one_le_iff_ne_zero.2 hm
      have hloR : ((2 * m - 1 : Nat) : ℝ) * ((2 * m - 1 : Nat) : ℝ) ≤ (4 : ℝ) * (y : ℝ) := by
        exact_mod_cast hlo
      have hcast : ((2 * m - 1 : Nat) : ℝ) = 2 * (m : ℝ) - 1 := by
        rw [Nat.cast_sub (by omega)]
        push_cast
        ring
      rw [hcast] at hloR
      have hm1R : (1 : ℝ) ≤ (m : ℝ) := by exact_mod_cast hm1
      have h1 : (m : ℝ) - 1 / 2 ≤ Real.sqrt (y : ℝ) := by
        rw [Real.le_sqrt' (by linarith)]
        nlinarith
      push_cast
      linarith
  · have h1 : Real.sqrt (y : ℝ) < (m : ℝ) + 1 / 2 := by
      rw [Real.sqrt_lt' (by positivity)]
      nlinarith
    push_cast
    linarith

/-- The value `magnitudeCell dx dy` for derivatives that are values of `short`: the
integer nearest to the square root of the `float` sum of the two squares, with its low
16 bits kept. -/
theorem Gpp.magnitudeCell_eq (dx dy : Int) (hdx : -32768 ≤ dx ∧ dx ≤ 32767)
    (hdy : -32768 ≤ dy ∧ dy ≤ 32767) :
    Gpp.magnitudeCell dx dy
      = toShort ((Gpp.roundSqrt
          (roundSig 24 (roundSig 24 (dx * dx).toNat + roundSig 24 (dy * dy).toNat)) : Nat)
          : Int) := by
  unfold Gpp.magnitudeCell
  simp only []
  have hsq : ∀ d : Int, -32768 ≤ d ∧ d ≤ 32767 → (d * d).toNat ≤ 1073741824 := by
    intro d hd
    have h1 : d * d ≤ 32768 * 32768 := by nlinarith
    omega
  have ha := hsq dx hdx
  have hb := hsq dy hdy
  generalize (dx * dx).toNat = a at ha
  generalize (dy * dy).toNat = b at hb
  have ha2 := (roundSig_near 24 a).2
  have hb2 := (roundSig_near 24 b).2
  have hXa : 2 ^ (bitLength a - 24) ≤ 2 ^ 7 :=
    Nat.pow_le_pow_right (by decide) (by have := bitLength_le a 31 (by omega); omega)
  have hXb : 2 ^ (bitLength b - 24) ≤ 2 ^ 7 :=
    Nat.pow_le_pow_right (by decide) (by have := bitLength_le b 31 (by omega); omega)
  generalize 2 ^ (bitLength a - 24) = Xa at ha2 hXa
  generalize 2 ^ (bitLength b - 24) = Xb at hb2 hXb
  generalize roundSig 24 a = fa at ha2
  generalize roundSig 24 b = fb at hb2
  have hs2 := (roundSig_near 24 (fa + fb)).2
  have hXs : 2 ^ (bitLength (fa + fb) - 24) ≤ 2 ^ 8 :=
    Nat.pow_le_pow_right (by decide) (by have := bitLength_le (fa + fb) 32 (by omega); omega)
  generalize 2 ^ (bitLength (fa + fb) - 24) = Xs at hs2 hXs
  rw [Gpp.sqrt_round_exact _ (by omega)]

/-- A loop that writes `f pos` at the running position `pos`, which advances by one. -/
theorem forLoop_running (f : Int → Int) (n : Int) (t : Int → Int) (p0 : Int) :
    (forLoop 0 n
        (fun (st : (Int → Int) × Int) (_ : Int) =>
          (Function.update st.1 st.2 (f st.2), st.2 + 1)) (t, p0)).2
      = p0 + (n.toNat : Int) ∧
    ∀ j : Int, (forLoop 0 n
        (fun (st : (Int → Int) × Int) (_ : Int) =>
          (Function.update st.1 st.2 (f st.2), st.2 + 1)) (t, p0)).1 j
      = if p0 ≤ j ∧ j < p0 + (n.toNat : Int) then f j else t j := by
  obtain ⟨h1, h2, h3⟩ := forLoop_strided f 1 0 n t p0
  rw [Int.sub_zero] at h1 h2 h3
  refine ⟨by rw [h1, mul_one], fun j => ?_⟩
  by_cases hj : p0 ≤ j ∧ j < p0 + (n.toNat : Int)
  · rw [if_pos hj]
    have h := h2 (j - p0).toNat (by omega)
    have hc : (((j - p0).toNat : Nat) : Int) = j - p0 := by omega
    rw [hc, mul_one, show p0 + (j - p0) = j by ring] at h
    exact h
  · rw [if_neg hj]
    exact h3 j (fun i hi => by omega)

/-- The loop nest of `magnitude_x_y` after `R` trips of the outer loop. -/
theorem Gpp.magnitude_rows (f : Int → Int) (cols : Int) (m0 : Int → Int) (R : Nat) :
    ((List.range R).foldl
        (fun (st : (Int → Int) × Int) (_ : Nat) =>
          forLoop 0 cols
            (fun (st : (Int → Int) × Int) (_ : Int) =>
              (Function.update st.1 st.2 (f st.2), st.2 + 1)) st) (m0, 0)).2
      = (R : Int) * (cols.toNat : Int) ∧
    ∀ j : Int, ((List.range R).foldl
        (fun (st : (Int → Int) × Int) (_ : Nat) =>
          forLoop 0 cols
            (fun (st : (Int → Int) × Int) (_ : Int) =>
              (Function.update st.1 st.2 (f st.2), st.2 + 1)) st) (m0, 0)).1 j
      = if 0 ≤ j ∧ j < (R : Int) * (cols.toNat : Int) then f j else m0 j := by
  induction R with
  | zero =>
    refine ⟨by simp, fun j => ?_⟩
    rw [if_neg (by push_cast; omega)]
    rfl
  | succ R ih =>
    obtain ⟨ih1, ih2⟩ := ih
    rw [List.range_succ, List.foldl_append]
    simp only [List.foldl_cons, List.foldl_nil]
    generalize (List.range R).foldl
        (fun (st : (Int → Int) × Int) (_ : Nat) =>
          forLoop 0 cols
            (fun (st : (Int → Int) × Int) (_ : Int) =>
              (Function.update st.1 st.2 (f st.2), st.2 + 1)) st) (m0, 0) = st
      at ih1 ih2 ⊢
    obtain ⟨t, p⟩ := st
    simp only at ih1 ih2
    subst ih1
    obtain ⟨h1, h2⟩ := forLoop_running f cols t ((R : Int) * (cols.toNat : Int))
    refine ⟨by rw [h1]; push_cast; ring, fun j => ?_⟩
    rw [h2 j, ih2 j]
    have hmul : ((R + 1 : Nat) : Int) * (cols.toNat : Int)
        = (R : Int) * (cols.toNat : Int) + (cols.toNat : Int) := by push_cast; ring
    rw [hmul]
    have hnn : (0 : Int) ≤ (R : Int) * (cols.toNat : Int) := by positivity
    by_cases hj : (R : Int) * (cols.toNat : Int) ≤ j
        ∧ j < (R : Int) * (cols.toNat : Int) + (cols.toNat : Int)
    · rw [if_pos hj, if_pos (by omega)]
    · rw [if_neg hj]
      by_cases hj2 : 0 ≤ j ∧ j < (R : Int) * (cols.toNat : Int)
      · rw [if_pos hj2, if_pos (by omega)]
      · rw [if_neg hj2, if_neg (by omega)]

/-- The cell of `magnitude` at pixel `(r, c)` after `magnitude_x_y`. -/
theorem Gpp.magnitude_x_y_cell (dx dy : Int → Int) (rows cols : Int) (m0 : Int → Int)
    (r c : Int) (hr : 0 ≤ r ∧ r < rows) (hc : 0 ≤ c ∧ c < cols) :
    Gpp.magnitude_x_y dx dy rows cols m0 (r * cols + c)
      = Gpp.magnitudeCell (dx (r * cols + c)) (dy (r * cols + c)) := by
  unfold Gpp.magnitude_x_y
  have h := (Gpp.magnitude_rows (fun p => Gpp.magnitudeCell (dx p) (dy p)) cols m0
    rows.toNat).2 (r * cols + c)
  have hrows : ((rows.toNat : Nat) : Int) = rows := by omega
  have hcols : ((cols.toNat : Nat) : Int) = cols := by omega
  rw [hrows, hcols] at h
  have h1 : (r + 1) * cols ≤ rows * cols :=
    Int.mul_le_mul_of_nonneg_right (by omega) (by omega)
  have h2 : 0 ≤ r * cols := Int.mul_nonneg hr.1 (by omega)
  rw [add_mul, one_mul] at h1
  rw [if_pos ⟨by omega, by omega⟩] at h
  rw [← h]
  unfold forLoop
  simp only [Int.sub_zero]

/-- C12 (as stated) fails: for `dx = 2601`, `dy = 3170` the sum of the squares is
`16814101`, whose square root rounds to `4101`, a value of `short`; the `float` sum of
the squares is `16814100`, and `magnitude_x_y` stores `4100`. -/
theorem Gpp.magnitude_float_rounding :
    2601 * 2601 + 3170 * 3170 = 16814101 ∧
    (2 * 4101 - 1) * (2 * 4101 - 1) ≤ 4 * 16814101 ∧
    4 * 16814101 < (2 * 4101 + 1) * (2 * 4101 + 1) ∧
    roundSig 24 (roundSig 24 (2601 * 2601) + roundSig 24 (3170 * 3170)) = 16814100 ∧
    Gpp.magnitude_x_y (fun _ => 2601) (fun _ => 3170) 1 1 (fun _ => 0) 0 = 4100 ∧
    Gpp.magnitude_x_y (fun _ => 2601) (fun _ => 3170) 1 1 (fun _ => 0) 0 ≠ 4101 := by
  set_option maxRecDepth 100000 in decide

/-- C12 (amended). Magnitude: for every pixel `p` whose derivatives are values of
`short` with `dx[p]^2 + dy[p]^2 < 2^24`, so that the two squares and their sum are exact
as `float`, `magnitude_x_y` stores `mag[p] = floor(sqrt(dx[p]^2 + dy[p]^2) + 1/2)`, the unique
integer `m ≥ 0` with `4*(dx[p]^2 + dy[p]^2) < (2m+1)^2` and, unless `m = 0`,
`(2m-1)^2 ≤ 4*(dx[p]^2 + dy[p]^2)`; in particular `dx = 3`, `dy = 4` gives `5`. -/
theorem Gpp.magnitude_exact (dx dy : Int → Int) (rows cols : Int) (m0 : Int → Int)
    (r c : Int) (hr : 0 ≤ r ∧ r < rows) (hc : 0 ≤ c ∧ c < cols)
    (hdx : -32768 ≤ dx (r * cols + c) ∧ dx (r * cols + c) ≤ 32767)
    (hdy : -32768 ≤ dy (r * cols + c) ∧ dy (r * cols + c) ≤ 32767)
    (hsmall : dx (r * cols + c) * dx (r * cols + c) + dy (r * cols + c) * dy (r * cols + c)
      < 16777216) :
    Gpp.magnitude_x_y dx dy rows cols m0 (r * cols + c)
      = ⌊Real.sqrt (((dx (r * cols + c) * dx (r * cols + c)
          + dy (r * cols + c) * dy (r * cols + c) : Int) : ℝ)) + 1 / 2⌋ ∧
    0 ≤ Gpp.magnitude_x_y dx dy rows cols m0 (r * cols + c) ∧
    4 * (dx (r * cols + c) * dx (r * cols + c) + dy (r * cols + c) * dy (r * cols + c))
      < (2 * Gpp.magnitude_x_y dx dy rows cols m0 (r * cols + c) + 1)
        * (2 * Gpp.magnitude_x_y dx dy rows cols m0 (r * cols + c) + 1) ∧
    (Gpp.magnitude_x_y dx dy rows cols m0 (r * cols + c) = 0 ∨
      (2 * Gpp.magnitude_x_y dx dy rows cols m0 (r * cols + c) - 1)
        * (2 * Gpp.magnitude_x_y dx dy rows cols m0 (r * cols + c) - 1)
        ≤ 4 * (dx (r * cols + c) * dx (r * cols + c)
          + dy (r * cols + c) * dy (r * cols + c))) ∧
    (∀ m : Int, 0 ≤ m →
      4 * (dx (r * cols + c) * dx (r * cols + c) + dy (r * cols + c) * dy (r * cols + c))
        < (2 * m + 1) * (2 * m + 1) →
      (m = 0 ∨ (2 * m - 1) * (2 * m - 1)
        ≤ 4 * (dx (r * cols + c) * dx (r * cols + c)
          + dy (r * cols + c) * dy (r * cols + c))) →
      m = Gpp.magnitude_x_y dx dy rows cols m0 (r * cols + c)) ∧
    Gpp.magnitude_x_y (fun _ => 3) (fun _ => 4) 1 1 m0 0 = 5 := by
  have hcell : ∀ a b : Int, -32768 ≤ a ∧ a ≤ 32767 → -32768 ≤ b ∧ b ≤ 32767 →
      a * a + b * b < 16777216 →
      Gpp.magnitudeCell a b = ((Gpp.roundSqrt (a * a + b * b).toNat : Nat) : Int) ∧
      Gpp.roundSqrt (a * a + b * b).toNat ≤ 4096 := by
    intro a b ha hb hab
    have hna : 0 ≤ a * a := mul_self_nonneg a
    have hnb : 0 ≤ b * b := mul_self_nonneg b
    rw [Gpp.magnitudeCell_eq a b ha hb, roundSig_of_lt 24 (a * a).toNat (by omega),
      roundSig_of_lt 24 (b * b).toNat (by omega),
      roundSig_of_lt 24 ((a * a).toNat + (b * b).toNat) (by omega),
      show (a * a).toNat + (b * b).toNat = (a * a + b * b).toNat by omega]
    have hle : Gpp.roundSqrt (a * a + b * b).toNat ≤ 4096 := by
      obtain ⟨-, hlo⟩ := Gpp.roundSqrt_spec (a * a + b * b).toNat
      by_contra h
      have h3 : 8193 ≤ 2 * Gpp.roundSqrt (a * a + b * b).toNat - 1 := by omega
      have := Nat.mul_le_mul h3 h3
      omega
    exact ⟨toShort_of_fits _ (by omega), hle⟩
  have h34 : Gpp.magnitude_x_y (fun _ => 3) (fun _ => 4) 1 1 m0 0 = 5 := by
    have h := Gpp.magnitude_x_y_cell (fun _ => 3) (fun _ => 4) 1 1 m0 0 0 (by decide)
      (by decide)
    rw [show (0 : Int) * 1 + 0 = 0 from rfl] at h
    rw [h]
    set_option maxRecDepth 100000 in decide
  rw [Gpp.magnitude_x_y_cell dx dy rows cols m0 r c hr hc]
  generalize dx (r * cols + c) = a at hdx hsmall
  generalize dy (r * cols + c) = b at hdy hsmall
  obtain ⟨heq, hle⟩ := hcell a b hdx hdy hsmall
  have hna : 0 ≤ a * a := mul_self_nonneg a
  have hnb : 0 ≤ b * b := mul_self_nonneg b
  obtain ⟨hup, hlo⟩ := Gpp.roundSqrt_spec (a * a + b * b).toNat
  have hfl := Gpp.roundSqrt_eq_floor (a * a + b * b).toNat
  have hcast : (((a * a + b * b).toNat : Nat) : ℝ) = ((a * a + b * b : Int) : ℝ) := by
    have : (((a * a + b * b).toNat : Nat) : Int) = a * a + b * b := by omega
    exact_mod_cast this
  rw [hcast] at hfl
  rw [heq]
  generalize Gpp.roundSqrt (a * a + b * b).toNat = m at hup hlo hfl hle
  have hn : (((a * a + b * b).toNat : Nat) : Int) = a * a + b * b := by omega
  have hupZ : 4 * (a * a + b * b) < (2 * (m : Int) + 1) * (2 * (m : Int) + 1) := by
    rw [← hn]
    exact_mod_cast hup
  have hloZ : (m : Int) = 0
      ∨ (2 * (m : Int) - 1) * (2 * (m : Int) - 1) ≤ 4 * (a * a + b * b) := by
    by_cases hm : m = 0
    · left
      exact_mod_cast hm
    · right
      rw [← hn]
      have h1 : ((2 * m - 1 : Nat) : Int) = 2 * (m : Int) - 1 := by omega
      rw [← h1]
      exact_mod_cast hlo
  refine ⟨hfl.symm, by omega, hupZ, hloZ, ?_, h34⟩
  intro k hk hkup hklo
  rcases lt_trichotomy k (m : Int) with hlt | heq2 | hgt
  · exfalso
    rcases hloZ with h0 | hlo2
    · omega
    · have h1 : (2 * k + 1) * (2 * k + 1) ≤ (2 * (m : Int) - 1) * (2 * (m : Int) - 1) :=
        mul_self_le_mul_self (by omega) (by omega)
      omega
  · exact heq2
  · exfalso
    rcases hklo with h0 | hlo2
    · omega
    · have h1 : (2 * (m : Int) + 1) * (2 * (m : Int) + 1) ≤ (2 * k - 1) * (2 * k - 1) :=
        mul_self_le_mul_self (by omega) (by omega)
      omega

theorem Gpp.magnitude_exact_witness :
    Gpp.magnitude_x_y (fun _ => 3) (fun _ => 4) 1 1 (fun _ => 0) (0 * 1 + 0)
      = ⌊Real.sqrt ((((fun _ => 3) (0 * 1 + 0 : Int) * (fun _ => 3) (0 * 1 + 0 : Int)
          + (fun _ => 4) (0 * 1 + 0 : Int) * (fun _ => 4) (0 * 1 + 0 : Int) : Int) : ℝ))
          + 1 / 2⌋ :=
  (Gpp.magnitude_exact (fun _ => 3) (fun _ => 4) 1 1 (fun _ => 0) 0 0 (by decide)
    (by decide) (by decide) (by decide) (by decide)).1

/-- C13 (as stated) fails: for `dx = dy = 32767`, both values of `short`, the rounded
square root `46340` is above `32767`, and the cast `(short)` leaves `-19196`. -/
theorem Gpp.magnitude_wraps_negative :
    Gpp.magnitude_x_y (fun _ => 32767) (fun _ => 32767) 1 1 (fun _ => 0) 0 = -19196 ∧
    Gpp.magnitude_x_y (fun _ => 32767) (fun _ => 32767) 1 1 (fun _ => 0) 0 < 0 := by
  set_option maxRecDepth 100000 in decide

/-- C13 (amended). Magnitude values are non-negative whenever the true magnitude fits:
for all signed 16-bit `dx` and `dy` with `dx^2 + dy^2 ≤ 32767^2`, the signed 16-bit
value stored by `magnitude_x_y` is `≥ 0` (and `≤ 32767`). -/
theorem Gpp.magnitude_nonneg (dx dy : Int → Int) (rows cols : Int) (m0 : Int → Int)
    (r c : Int) (hr : 0 ≤ r ∧ r < rows) (hc : 0 ≤ c ∧ c < cols)
    (hdx : -32768 ≤ dx (r * cols + c) ∧ dx (r * cols + c) ≤ 32767)
    (hdy : -32768 ≤ dy (r * cols + c) ∧ dy (r * cols + c) ≤ 32767)
    (hfit : dx (r * cols + c) * dx (r * cols + c) + dy (r * cols + c) * dy (r * cols + c)
      ≤ 32767 * 32767) :
    0 ≤ Gpp.magnitude_x_y dx dy rows cols m0 (r * cols + c) ∧
    Gpp.magnitude_x_y dx dy rows cols m0 (r * cols + c) ≤ 32767 := by
  rw [Gpp.magnitude_x_y_cell dx dy rows cols m0 r c hr hc]
  generalize dx (r * cols + c) = a at hdx hfit
  generalize dy (r * cols + c) = b at hdy hfit
  have hna : 0 ≤ a * a := mul_self_nonneg a
  have hnb : 0 ≤ b * b := mul_self_nonneg b
  rw [Gpp.magnitudeCell_eq a b hdx hdy]
  have hA := (roundSig_near 24 (a * a).toNat).2
  have hB := (roundSig_near 24 (b * b).toNat).2
  have hbA : bitLength (a * a).toNat ≤ 30 := bitLength_le _ 30 (by omega)
  have hbB : bitLength (b * b).toNat ≤ 30 := bitLength_le _ 30 (by omega)
  have hpA : 2 ^ (bitLength (a * a).toNat - 24) ≤ 2 ^ 6 :=
    Nat.pow_le_pow_right (by decide) (by omega)
  have hpB : 2 ^ (bitLength (b * b).toNat - 24) ≤ 2 ^ 6 :=
    Nat.pow_le_pow_right (by decide) (by omega)
  generalize roundSig 24 (a * a).toNat = fa at hA ⊢
  generalize roundSig 24 (b * b).toNat = fb at hB ⊢
  have hsum : fa + fb ≤ 1073676289 + 128 := by omega
  have hS := (roundSig_near 24 (fa + fb)).2
  have hbS : bitLength (fa + fb) ≤ 30 := bitLength_le _ 30 (by omega)
  have hpS : 2 ^ (bitLength (fa + fb) - 24) ≤ 2 ^ 6 :=
    Nat.pow_le_pow_right (by decide) (by omega)
  generalize roundSig 24 (fa + fb) = f at hS ⊢
  have hf : f ≤ 1073676481 := by omega
  obtain ⟨-, hlo⟩ := Gpp.roundSqrt_spec f
  have hle : Gpp.roundSqrt f ≤ 32767 := by
    by_contra h
    have h3 : 65535 ≤ 2 * Gpp.roundSqrt f - 1 := by omega
    have := Nat.mul_le_mul h3 h3
    omega
  rw [toShort_of_fits _ (by omega)]
  omega

theorem Gpp.magnitude_nonneg_witness :
    0 ≤ Gpp.magnitude_x_y (fun _ => 23040) (fun _ => -23040) 1 1 (fun _ => 0) (0 * 1 + 0) ∧
    Gpp.magnitude_x_y (fun _ => 23040) (fun _ => -23040) 1 1 (fun _ => 0) (0 * 1 + 0)
      ≤ 32767 :=
  Gpp.magnitude_nonneg (fun _ => 23040) (fun _ => -23040) 1 1 (fun _ => 0) 0 0 (by decide)
    (by decide) (by decide) (by decide) (by decide)

/-! ## The stages on a uniform raster -/

/-- The co-processor blur of a constant raster: with weights of at most 256 and non-zero
in-range weight sums, every pixel is the Q8 value of the constant. -/
theorem Dsp.smoothedim_const (s : Dsp.State) (v : Nat) (r c : Int) (hv : v ≤ 255)
    (himg : ∀ r c : Int, 0 ≤ r ∧ r < s.rows → 0 ≤ c ∧ c < s.cols →
      s.image (r * s.cols + c) = v)
    (hker : ∀ i, s.kernel i ≤ 256) (hcap : s.windowSize ≤ 20)
    (hr : 0 ≤ r ∧ r < s.rows) (hc : 0 ≤ c ∧ c < s.cols)
    (hx : Dsp.xSumSpec s c ≠ 0) (hy : Dsp.ySumSpec s r ≠ 0) :
    (Dsp.gaussian_smooth s).smoothedim (r * s.cols + c) = 256 * v := by
  have hker16 : ∀ i, s.kernel i < 65536 := fun i => lt_of_le_of_lt (hker i) (by decide)
  have hdot : Dsp.yDotSpec s (Dsp.blurX s).tempim r c = v * Dsp.ySumSpec s r := by
    unfold Dsp.yDotSpec Dsp.ySumSpec
    rw [Finset.mul_sum]
    refine Finset.sum_congr rfl (fun rr hrr => ?_)
    have hin := (Finset.mem_filter.1 hrr).2
    rw [Dsp.blurX_tempim s (r + rr) c hin hc,
      Dsp.xPixel_const s v (r + rr) c hv himg hker hcap hin hx,
      Dsp.MULTIPLICATION_const v _ hv (hker _)]
  have hle : Dsp.ySumSpec s r ≤ 5376 :=
    Dsp.window_sum_le _ (fun rr => s.kernel (Dsp.center s + rr)) (Dsp.center s)
      (by have := tdiv_two_le s.windowSize hcap; unfold Dsp.center; omega) (fun _ => hker _)
  rw [Dsp.smoothedim_eq s r c hker16 hcap hr hc, hdot]
  exact Dsp.DIVISION_const v _ hv hy hle

/-- The weights of the 7-tap kernel that `make_gaussian_kernel` returns for
`sigma = 1.0`, when no raw weight exceeds the central one, which is positive: every
weight is at most 256 and the central weight is not zero. -/
theorem Gpp.seven_tap_weights (raw k0 : Int → Nat) (hraw : ∀ xx, raw xx ≤ raw 0)
    (h0 : 0 < raw 0) (h16 : raw 0 < 65536) :
    ∃ kernel, Gpp.make_gaussian_kernel Gpp.sigmaOne raw k0 = some (kernel, 7) ∧
      (∀ j : Int, 0 ≤ j ∧ j < 7 → kernel j ≤ 256) ∧ kernel 3 ≠ 0 := by
  obtain ⟨kernel, hk, hent⟩ := Gpp.make_gaussian_kernel_entries Gpp.sigmaOne raw k0
    (by decide)
  have hws : ((1 + 2 * Gpp.ceilProduct Gpp.sigmaOne : Nat) : Int) = 7 := by decide
  rw [hws] at hk hent
  have hcen : Int.tdiv 7 2 = 3 := by decide
  rw [hcen] at hent
  have hge : raw 0 ≤ Gpp.rawSum raw 7 := by
    unfold Gpp.rawSum
    have h := Finset.single_le_sum
      (f := fun i : Nat => raw (((i : Int) - Int.tdiv 7 2) * ((i : Int) - Int.tdiv 7 2)))
      (fun _ _ => Nat.zero_le _) (show 3 ∈ Finset.range (7 : Int).toNat by decide)
    exact h
  have hle : Gpp.rawSum raw 7 ≤ 7 * raw 0 := by
    unfold Gpp.rawSum
    have h := Finset.sum_le_card_nsmul (Finset.range (7 : Int).toNat)
      (fun i : Nat => raw (((i : Int) - Int.tdiv 7 2) * ((i : Int) - Int.tdiv 7 2)))
      (raw 0) (fun i _ => hraw _)
    simpa using h
  have hmod : Gpp.rawSum raw 7 % 4294967296 = Gpp.rawSum raw 7 :=
    Nat.mod_eq_of_lt (by omega)
  rw [hmod] at hent
  refine ⟨kernel, hk, fun j hj => ?_, ?_⟩
  · rw [hent j, if_pos hj]
    exact (Gpp.DIVISION_weight _ _ (lt_of_le_of_lt (hraw _) h16) ((hraw _).trans hge)
      (by omega) (by omega)).1
  · rw [hent 3, if_pos (by decide), show ((3 : Int) - 3) * (3 - 3) = 0 by decide]
    obtain ⟨-, -, h3⟩ := Gpp.DIVISION_weight (raw 0) (Gpp.rawSum raw 7) h16 hge (by omega)
      (by omega)
    intro hz
    rw [hz] at h3
    omega

/-- Two equal samples have the difference `0`. -/
theorem Gpp.shortDiff_same (S : Int → Nat) (a b : Int) (h : S a = S b) :
    Gpp.shortDiff S a b = 0 := by
  unfold Gpp.shortDiff
  rw [h, sub_self]
  rfl

/-- C18. End-to-end on a uniform raster: for the uniform 4 x 4 raster of value 100
smoothed with the kernel that `make_gaussian_kernel` returns for `sigma = 1.0` (7 taps;
no raw weight above the central one, which is positive), the co-processor
`gaussian_smooth` output is `25600`, the Q8 value of 100, at every pixel, the rescaled
raster of the host is `9000` at every pixel, and `derrivative_x_y` followed by
`magnitude_x_y` give `dx = 0`, `dy = 0` and magnitude `0` at every pixel. -/
theorem Gpp.uniform_end_to_end (raw k0 heap0 : Int → Nat) (dx0 dy0 m0 : Int → Int)
    (hraw : ∀ xx, raw xx ≤ raw 0) (h0 : 0 < raw 0) (h16 : raw 0 < 65536) :
    ∃ kernel smoothed,
      Gpp.make_gaussian_kernel Gpp.sigmaOne raw k0 = some (kernel, 7) ∧
      (∀ r c : Int, 0 ≤ r ∧ r < 4 → 0 ≤ c ∧ c < 4 →
        (Dsp.gaussian_smooth (Dsp.uniformSevenTap kernel)).smoothedim (r * 4 + c)
          = 256 * 100) ∧
      Gpp.gaussian_smooth (Dsp.gaussian_smooth (Dsp.uniformSevenTap kernel)).smoothedim
        4 4 heap0 = some smoothed ∧
      (∀ r c : Int, 0 ≤ r ∧ r < 4 → 0 ≤ c ∧ c < 4 → smoothed (r * 4 + c) = 9000) ∧
      ∀ r c : Int, 0 ≤ r ∧ r < 4 → 0 ≤ c ∧ c < 4 →
        (Gpp.derrivative_x_y smoothed 4 4 dx0 dy0).1 (r * 4 + c) = 0 ∧
        (Gpp.derrivative_x_y smoothed 4 4 dx0 dy0).2 (r * 4 + c) = 0 ∧
        Gpp.magnitude_x_y (Gpp.derrivative_x_y smoothed 4 4 dx0 dy0).1
          (Gpp.derrivative_x_y smoothed 4 4 dx0 dy0).2 4 4 m0 (r * 4 + c) = 0 := by
  obtain ⟨kernel, hk, hw, hcenter⟩ := Gpp.seven_tap_weights raw k0 hraw h0 h16
  have hker : ∀ i, (Dsp.uniformSevenTap kernel).kernel i ≤ 256 := fun i => by
    show (if 0 ≤ i ∧ i < 7 then kernel i else 0) ≤ 256
    split_ifs with hi
    · exact hw i hi
    · exact Nat.zero_le _
  have hcen3 : Dsp.center (Dsp.uniformSevenTap kernel) = 3 := by
    show Int.tdiv 7 2 = 3
    decide
  have hk3 : (Dsp.uniformSevenTap kernel).kernel (Dsp.center (Dsp.uniformSevenTap kernel) + 0)
      = kernel 3 := by
    show (if 0 ≤ Int.tdiv 7 2 + 0 ∧ Int.tdiv 7 2 + 0 < 7 then kernel (Int.tdiv 7 2 + 0) else 0)
      = kernel 3
    rw [show Int.tdiv 7 2 + 0 = 3 by decide, if_pos (by decide)]
  have hx : ∀ c : Int, 0 ≤ c ∧ c < 4 → Dsp.xSumSpec (Dsp.uniformSevenTap kernel) c ≠ 0 := by
    intro c hc hz
    have hmem : (0 : Int) ∈ Dsp.xTaps (Dsp.uniformSevenTap kernel) c := by
      unfold Dsp.xTaps
      rw [Finset.mem_filter, Finset.mem_Icc]
      refine ⟨by rw [hcen3]; decide, ?_⟩
      show 0 ≤ c + 0 ∧ c + 0 < 4
      omega
    have h := Finset.single_le_sum
      (f := fun cc : Int => (Dsp.uniformSevenTap kernel).kernel
        (Dsp.center (Dsp.uniformSevenTap kernel) + cc))
      (fun _ _ => Nat.zero_le _) hmem
    unfold Dsp.xSumSpec at hz
    rw [hz] at h
    simp only [hk3] at h
    omega
  have hy : ∀ r : Int, 0 ≤ r ∧ r < 4 → Dsp.ySumSpec (Dsp.uniformSevenTap kernel) r ≠ 0 := by
    intro r hr hz
    have hmem : (0 : Int) ∈ Dsp.yTaps (Dsp.uniformSevenTap kernel) r := by
      unfold Dsp.yTaps
      rw [Finset.mem_filter, Finset.mem_Icc]
      refine ⟨by rw [hcen3]; decide, ?_⟩
      show 0 ≤ r + 0 ∧ r + 0 < 4
      omega
    have h := Finset.single_le_sum
      (f := fun rr : Int => (Dsp.uniformSevenTap kernel).kernel
        (Dsp.center (Dsp.uniformSevenTap kernel) + rr))
      (fun _ _ => Nat.zero_le _) hmem
    unfold Dsp.ySumSpec at hz
    rw [hz] at h
    simp only [hk3] at h
    omega
  have hdsp : ∀ r c : Int, 0 ≤ r ∧ r < 4 → 0 ≤ c ∧ c < 4 →
      (Dsp.gaussian_smooth (Dsp.uniformSevenTap kernel)).smoothedim (r * 4 + c)
        = 256 * 100 := fun r c hr hc =>
    Dsp.smoothedim_const (Dsp.uniformSevenTap kernel) 100 r c (by decide)
      (fun _ _ _ _ => rfl) hker (show (7 : Int) ≤ 20 by decide) hr hc (hx c hc) (hy r hr)
  obtain ⟨smoothed, hsm, hout⟩ := Gpp.gaussian_smooth_spec
    (Dsp.gaussian_smooth (Dsp.uniformSevenTap kernel)).smoothedim 4 4 heap0 (by decide)
    (by decide)
  have hcell : ∀ k : Int, 0 ≤ k ∧ k < 16 → smoothed k = 9000 := by
    intro k hk
    rw [hout k, show (4 * 4 : Int) % 4 = 0 by decide, sub_zero, sub_zero,
      if_pos ⟨hk.1, by omega⟩]
    have h := hdsp (k / 4) (k % 4) (by omega) (by omega)
    rw [show k / 4 * 4 + k % 4 = k by omega] at h
    rw [h, Gpp.boostLane_exact _ (by decide)]
  have hsame : ∀ a b : Int, 0 ≤ a ∧ a < 16 → 0 ≤ b ∧ b < 16 →
      Gpp.shortDiff smoothed a b = 0 := fun a b ha hb =>
    Gpp.shortDiff_same smoothed a b ((hcell a ha).trans (hcell b hb).symm)
  refine ⟨kernel, smoothed, hk, hdsp, hsm, fun r c hr hc => hcell _ (by omega),
    fun r c hr hc => ?_⟩
  have hdx : (Gpp.derrivative_x_y smoothed 4 4 dx0 dy0).1 (r * 4 + c) = 0 := by
    rw [Gpp.delta_x_cell smoothed 4 4 dx0 dy0 (by decide) r c hr hc]
    split_ifs <;> exact hsame _ _ (by omega) (by omega)
  have hdy : (Gpp.derrivative_x_y smoothed 4 4 dx0 dy0).2 (r * 4 + c) = 0 := by
    rw [Gpp.delta_y_cell smoothed 4 4 dx0 dy0 (by decide) r c hr hc]
    split_ifs <;> exact hsame _ _ (by omega) (by omega)
  refine ⟨hdx, hdy, ?_⟩
  rw [Gpp.magnitude_x_y_cell _ _ 4 4 m0 r c hr hc, hdx, hdy]
  set_option maxRecDepth 100000 in decide

theorem Gpp.uniform_end_to_end_witness :
    (0 < Gpp.rawOne 0) ∧
    ∃ kernel smoothed,
      Gpp.make_gaussian_kernel Gpp.sigmaOne Gpp.rawOne (fun _ => 0) = some (kernel, 7) ∧
      (∀ r c : Int, 0 ≤ r ∧ r < 4 → 0 ≤ c ∧ c < 4 →
        (Dsp.gaussian_smooth (Dsp.uniformSevenTap kernel)).smoothedim (r * 4 + c)
          = 256 * 100) ∧
      Gpp.gaussian_smooth (Dsp.gaussian_smooth (Dsp.uniformSevenTap kernel)).smoothedim
        4 4 (fun _ => 0) = some smoothed ∧
      (∀ r c : Int, 0 ≤ r ∧ r < 4 → 0 ≤ c ∧ c < 4 → smoothed (r * 4 + c) = 9000) ∧
      ∀ r c : Int, 0 ≤ r ∧ r < 4 → 0 ≤ c ∧ c < 4 →
        (Gpp.derrivative_x_y smoothed 4 4 (fun _ => 0) (fun _ => 0)).1 (r * 4 + c) = 0 ∧
        (Gpp.derrivative_x_y smoothed 4 4 (fun _ => 0) (fun _ => 0)).2 (r * 4 + c) = 0 ∧
        Gpp.magnitude_x_y (Gpp.derrivative_x_y smoothed 4 4 (fun _ => 0) (fun _ => 0)).1
          (Gpp.derrivative_x_y smoothed 4 4 (fun _ => 0) (fun _ => 0)).2 4 4 (fun _ => 0)
          (r * 4 + c) = 0 :=
  ⟨by decide,
   Gpp.uniform_end_to_end Gpp.rawOne (fun _ => 0) (fun _ => 0) (fun _ => 0) (fun _ => 0)
    (fun _ => 0)
    (fun xx => by
      rw [show Gpp.rawOne 0 = 102 by decide]
      unfold Gpp.rawOne
      split_ifs <;> decide)
    (by decide) (by decide)⟩

/-! ## The order of the effects of `Task_execute` -/

theorem Dsp.taskStep_pc (prog : List Dsp.Effect) (cfg cfg2 : Dsp.Config)
    (h : Dsp.taskStep prog cfg = some cfg2) :
    cfg2.pc = cfg.pc + 1 ∧ cfg.pc < prog.length := by
  unfold Dsp.taskStep at h
  have hlt : cfg.pc < prog.length := by
    by_contra hge
    rw [List.getElem?_eq_none (by omega)] at h
    exact absurd h (by simp)
  refine ⟨?_, hlt⟩
  split at h
  · exact absurd h (by simp)
  · cases h; rfl
  · cases h; rfl
  · split_ifs at h
    cases h; rfl
  · exact absurd h (by simp)
  · cases h; rfl
  · cases h; rfl

/-- The effects performed along a run are the part of the program between the two
program counters, in program order. -/
theorem Dsp.performed_eq (prog : List Dsp.Effect) (evs : List Dsp.Event)
    (cfg cfg2 : Dsp.Config) (h : Dsp.run prog cfg evs = some cfg2) :
    prog.take cfg.pc ++ Dsp.performed prog cfg evs = prog.take cfg2.pc := by
  induction evs generalizing cfg with
  | nil =>
    simp only [Dsp.run, Option.some.injEq] at h
    subst h
    simp [Dsp.performed]
  | cons ev evs ih =>
    cases ev with
    | notify p =>
      have h2 : Dsp.run prog (Dsp.onNotify cfg p) evs = some cfg2 := h
      have hpc : (Dsp.onNotify cfg p).pc = cfg.pc := by
        unfold Dsp.onNotify
        split_ifs <;> rfl
      have ih2 := ih (Dsp.onNotify cfg p) h2
      rw [hpc] at ih2
      exact ih2
    | task =>
      cases hst : Dsp.taskStep prog cfg with
      | none =>
        have h2 : (match Dsp.taskStep prog cfg with
          | none => none
          | some c => Dsp.run prog c evs) = some cfg2 := h
        rw [hst] at h2
        exact absurd h2 (by simp)
      | some cfg1 =>
        have h2 : (match Dsp.taskStep prog cfg with
          | none => none
          | some c => Dsp.run prog c evs) = some cfg2 := h
        rw [hst] at h2
        have ih2 := ih cfg1 h2
        obtain ⟨hpc, -⟩ := Dsp.taskStep_pc prog cfg cfg1 hst
        rw [hpc, List.take_succ, List.append_assoc] at ih2
        show prog.take cfg.pc ++ (match Dsp.taskStep prog cfg with
          | none => []
          | some c => (prog[cfg.pc]?).toList ++ Dsp.performed prog c evs) = _
        rw [hst]
        exact ih2

/-- The bracket inside the program of `Task_execute`: a copy out of the buffer stands
two places after a wait and right after an invalidate; the last notification stands
right after the copy of the result and the write-back. -/
theorem Dsp.Task_execute_positions :
    ∀ i, i < 11 →
      ((Dsp.Task_execute.1[i]?).map Dsp.Effect.readsBuffer = some true →
        2 ≤ i ∧ Dsp.Task_execute.1[i - 2]? = some (Dsp.Effect.semPend true) ∧
        Dsp.Task_execute.1[i - 1]? = some Dsp.Effect.cacheInv) ∧
      (Dsp.Task_execute.1[i]? = some Dsp.Effect.notifyHost → 4 ≤ i →
        Dsp.Task_execute.1[i - 2]? = some Dsp.Effect.copyResult ∧
        Dsp.Task_execute.1[i - 1]? = some Dsp.Effect.cacheWb) := by
  decide

/-- C21. Handoff bracket on the co-processor: the effects of `Task_execute` are, in
program order, wait, invalidate, copy the image out, notify the host; wait, invalidate,
copy the kernel out; `gaussian_smooth`; copy the result into the buffer, write back,
notify the host. In every run the effects performed are an initial part of that list,
in that order, so every copy out of the buffer that is performed has a wait and an
invalidate performed right before it, and the result notification has the copy of the
result and the write-back right before it; and with a notification from the host
before each of the two waits the run goes through all eleven effects. -/
theorem Dsp.Task_execute_bracket :
    Dsp.Task_execute.1
      = [Dsp.Effect.semPend true, Dsp.Effect.cacheInv, Dsp.Effect.copyImage,
         Dsp.Effect.notifyHost,
         Dsp.Effect.semPend true, Dsp.Effect.cacheInv, Dsp.Effect.copyKernel,
         Dsp.Effect.smooth,
         Dsp.Effect.copyResult, Dsp.Effect.cacheWb, Dsp.Effect.notifyHost] ∧
    (∀ (s : Dsp.State) (evs : List Dsp.Event) (cfg2 : Dsp.Config),
      Dsp.run Dsp.Task_execute.1 (Dsp.executeStart s) evs = some cfg2 →
      Dsp.performed Dsp.Task_execute.1 (Dsp.executeStart s) evs
        = Dsp.Task_execute.1.take cfg2.pc ∧
      (∀ (i : Nat) (e : Dsp.Effect),
        (Dsp.performed Dsp.Task_execute.1 (Dsp.executeStart s) evs)[i]? = some e →
        e.readsBuffer = true →
        2 ≤ i ∧
        (Dsp.performed Dsp.Task_execute.1 (Dsp.executeStart s) evs)[i - 2]?
          = some (Dsp.Effect.semPend true) ∧
        (Dsp.performed Dsp.Task_execute.1 (Dsp.executeStart s) evs)[i - 1]?
          = some Dsp.Effect.cacheInv) ∧
      ((Dsp.performed Dsp.Task_execute.1 (Dsp.executeStart s) evs)[10]?
          = some Dsp.Effect.notifyHost →
        (Dsp.performed Dsp.Task_execute.1 (Dsp.executeStart s) evs)[8]?
          = some Dsp.Effect.copyResult ∧
        (Dsp.performed Dsp.Task_execute.1 (Dsp.executeStart s) evs)[9]?
          = some Dsp.Effect.cacheWb)) ∧
    (∀ (s : Dsp.State) (p q : Nat), s.sem = 0 →
      ∃ cfg2, Dsp.run Dsp.Task_execute.1 (Dsp.executeStart s) (Dsp.executeEvents p q)
          = some cfg2 ∧
        cfg2.pc = 11 ∧
        Dsp.performed Dsp.Task_execute.1 (Dsp.executeStart s) (Dsp.executeEvents p q)
          = Dsp.Task_execute.1) := by
  refine ⟨rfl, fun s evs cfg2 h => ?_, fun s p q hs => ?_⟩
  · have hp := Dsp.performed_eq Dsp.Task_execute.1 evs (Dsp.executeStart s) cfg2 h
    have hp2 : Dsp.performed Dsp.Task_execute.1 (Dsp.executeStart s) evs
        = Dsp.Task_execute.1.take cfg2.pc := by
      rw [← hp]
      rfl
    have hget : ∀ j i : Nat, j ≤ i → (Dsp.Task_execute.1.take cfg2.pc)[i]?.isSome = true →
        (Dsp.Task_execute.1.take cfg2.pc)[j]? = Dsp.Task_execute.1[j]? := by
      intro j i hji hi
      rw [List.getElem?_take] at hi ⊢
      split_ifs at hi with hlt
      · rw [if_pos (by omega)]
      · exact absurd hi (by simp)
    rw [hp2]
    refine ⟨rfl, fun i e hi he => ?_, fun h10 => ?_⟩
    · have hsome : (Dsp.Task_execute.1.take cfg2.pc)[i]?.isSome = true := by
        rw [hi]; rfl
      have hi2 := hi
      rw [hget i i le_rfl hsome] at hi2
      have hlt : i < 11 := by
        by_contra hge
        rw [List.getElem?_eq_none (by
          show Dsp.Task_execute.1.length ≤ i
          have : Dsp.Task_execute.1.length = 11 := rfl
          omega)] at hi2
        exact absurd hi2 (by simp)
      have hpos := (Dsp.Task_execute_positions i hlt).1 (by rw [hi2]; simp [he])
      rw [hget (i - 2) i (by omega) hsome, hget (i - 1) i (by omega) hsome]
      exact hpos
    · have hsome : (Dsp.Task_execute.1.take cfg2.pc)[10]?.isSome = true := by
        rw [h10]; rfl
      rw [hget 8 10 (by decide) hsome, hget 9 10 (by decide) hsome]
      exact ⟨rfl, rfl⟩
  · have hrun : ∃ cfg2, Dsp.run Dsp.Task_execute.1 (Dsp.executeStart s)
        (Dsp.executeEvents p q) = some cfg2 ∧ cfg2.pc = 11 := by
      simp [Dsp.run, Dsp.step, Dsp.taskStep, Dsp.onNotify, Dsp.executeStart,
        Dsp.executeEvents, Dsp.Task_execute, Dsp.Task_notify_sem, hs]
    obtain ⟨cfg2, h, hpc⟩ := hrun
    refine ⟨cfg2, h, hpc, ?_⟩
    have hp := Dsp.performed_eq Dsp.Task_execute.1 _ (Dsp.executeStart s) cfg2 h
    rw [hpc] at hp
    rw [← List.nil_append (Dsp.performed _ _ _)]
    exact hp

/-! ## A failed allocation in `Task_create` -/

/-- C26 fails on the code: when `MEM_calloc` returns `NULL`, `Task_create` skips the
fill, the registration and the readiness notification with `status = SYS_EALLOC`, and
then reaches the three `SEM_pend (&(info->notifySemObj), SYS_FOREVER)` calls, which
stand outside every guard, with `info == NULL`: it waits on the semaphore of the absent
structure. In no run does the task get past the first of these calls, so it never
returns `SYS_EALLOC` to its caller. -/
theorem Dsp.Task_create_alloc_failure (rs ns : Dsp.Status) :
    Dsp.Task_create ⟨false, rs, ns⟩
      = ([Dsp.Effect.memCalloc, Dsp.Effect.semPend false, Dsp.Effect.semPend false,
          Dsp.Effect.semPend false], Dsp.Status.SYS_EALLOC) ∧
    Dsp.Effect.notifyRegister ∉ (Dsp.Task_create ⟨false, rs, ns⟩).1 ∧
    Dsp.Effect.notifyHost ∉ (Dsp.Task_create ⟨false, rs, ns⟩).1 ∧
    Dsp.Effect.semPend false ∈ (Dsp.Task_create ⟨false, rs, ns⟩).1 ∧
    ∀ (s : Dsp.State) (evs : List Dsp.Event) (cfg : Dsp.Config),
      Dsp.run (Dsp.Task_create ⟨false, rs, ns⟩).1 (Dsp.start s) evs = some cfg →
      cfg.pc ≤ 1 ∧ cfg.pc < (Dsp.Task_create ⟨false, rs, ns⟩).1.length := by
  have h1 : Dsp.Task_create ⟨false, rs, ns⟩
      = ([Dsp.Effect.memCalloc, Dsp.Effect.semPend false, Dsp.Effect.semPend false,
          Dsp.Effect.semPend false], Dsp.Status.SYS_EALLOC) := by
    simp [Dsp.Task_create]
  rw [h1]
  refine ⟨rfl, by decide, by decide, by decide, ?_⟩
  have key : ∀ (evs : List Dsp.Event) (cfg0 cfg : Dsp.Config), cfg0.pc ≤ 1 →
      Dsp.run [Dsp.Effect.memCalloc, Dsp.Effect.semPend false, Dsp.Effect.semPend false,
        Dsp.Effect.semPend false] cfg0 evs = some cfg → cfg.pc ≤ 1 := by
    intro evs
    induction evs with
    | nil =>
      intro cfg0 cfg h0 h
      simp only [Dsp.run, Option.some.injEq] at h
      subst h
      exact h0
    | cons ev evs ih =>
      intro cfg0 cfg h0 h
      cases ev with
      | notify p =>
        refine ih (Dsp.onNotify cfg0 p) cfg ?_ h
        unfold Dsp.onNotify
        split_ifs <;> exact h0
      | task =>
        have h2 : (match Dsp.taskStep [Dsp.Effect.memCalloc, Dsp.Effect.semPend false,
            Dsp.Effect.semPend false, Dsp.Effect.semPend false] cfg0 with
          | none => none
          | some c => Dsp.run [Dsp.Effect.memCalloc, Dsp.Effect.semPend false,
              Dsp.Effect.semPend false, Dsp.Effect.semPend false] c evs) = some cfg := h
        rcases Nat.lt_or_ge cfg0.pc 1 with hlt | hge
        · have hpc : cfg0.pc = 0 := by omega
          have hst : Dsp.taskStep [Dsp.Effect.memCalloc, Dsp.Effect.semPend false,
              Dsp.Effect.semPend false, Dsp.Effect.semPend false] cfg0
              = some { cfg0 with pc := cfg0.pc + 1 } := by
            unfold Dsp.taskStep
            rw [hpc]
            rfl
          rw [hst] at h2
          exact ih _ cfg (by show cfg0.pc + 1 ≤ 1; omega) h2
        · have hpc : cfg0.pc = 1 := by omega
          have hst : Dsp.taskStep [Dsp.Effect.memCalloc, Dsp.Effect.semPend false,
              Dsp.Effect.semPend false, Dsp.Effect.semPend false] cfg0 = none := by
            unfold Dsp.taskStep
            rw [hpc]
            rfl
          rw [hst] at h2
          exact absurd h2 (by simp)
  intro s evs cfg h
  have := key evs (Dsp.start s) cfg (by show (0 : Nat) ≤ 1; omega) h
  exact ⟨this, by show cfg.pc < 4; omega⟩

theorem Dsp.Task_create_alloc_failure_witness :
    Dsp.Task_create Dsp.allocFails
      = ([Dsp.Effect.memCalloc, Dsp.Effect.semPend false, Dsp.Effect.semPend false,
          Dsp.Effect.semPend false], Dsp.Status.SYS_EALLOC) :=
  (Dsp.Task_create_alloc_failure Dsp.Status.SYS_OK Dsp.Status.SYS_OK).1

/-! ## Symmetry of the kernel -/

/-- C27. Kernel symmetry: for every `float` `sigma` whose window size is a value of
`int` and whose raw weights have a sum that is not zero in the `uint32_t` accumulator
`sum`, the divisor of the normalization is that non-zero sum and the normalized kernel
that `make_gaussian_kernel` returns is symmetric about its center:
`kernel[i] = kernel[windowsize-1-i]` for every `0 ≤ i < windowsize`. -/
theorem Gpp.make_gaussian_kernel_symmetric (sigma : Gpp.Float32) (raw k0 : Int → Nat)
    (hfit : 1 + 2 * ⌈(5 / 2 : ℚ) * sigma.toRat⌉ < 2147483648)
    (hsum : Gpp.rawSum raw (1 + 2 * ⌈(5 / 2 : ℚ) * sigma.toRat⌉) % 4294967296 ≠ 0) :
    ∃ kernel windowsize,
      Gpp.make_gaussian_kernel sigma raw k0 = some (kernel, windowsize) ∧
      windowsize = 1 + 2 * ⌈(5 / 2 : ℚ) * sigma.toRat⌉ ∧
      (Gpp.rawLoop raw windowsize (Int.tdiv windowsize 2) k0).2 ≠ 0 ∧
      ∀ i : Int, 0 ≤ i ∧ i < windowsize → kernel i = kernel (windowsize - 1 - i) := by
  rw [← Gpp.ceilProduct_eq] at hfit hsum ⊢
  have hw : (1 : Int) + 2 * ((Gpp.ceilProduct sigma : Nat) : Int)
      = ((1 + 2 * Gpp.ceilProduct sigma : Nat) : Int) := by push_cast; ring
  rw [hw] at hsum
  obtain ⟨kernel, hk, hent⟩ := Gpp.make_gaussian_kernel_entries sigma raw k0 (by omega)
  refine ⟨kernel, _, hk, hw.symm, ?_, fun i hi => ?_⟩
  · rw [(Gpp.rawLoop_spec raw _ k0).1]
    exact hsum
  · have htdiv : Int.tdiv ((1 + 2 * Gpp.ceilProduct sigma : Nat) : Int) 2
        = (Gpp.ceilProduct sigma : Int) := by
      rw [Int.tdiv_eq_ediv (by omega) (by decide)]
      omega
    rw [hent i, hent _, if_pos hi, if_pos ⟨by omega, by omega⟩, htdiv]
    congr 2
    push_cast
    ring

theorem Gpp.make_gaussian_kernel_symmetric_witness :
    (Gpp.rawSum Gpp.rawTwo (1 + 2 * ⌈(5 / 2 : ℚ) * Gpp.sigmaTwo.toRat⌉) % 4294967296 ≠ 0) ∧
    ∃ kernel windowsize,
      Gpp.make_gaussian_kernel Gpp.sigmaTwo Gpp.rawTwo (fun _ => 0)
        = some (kernel, windowsize) ∧
      windowsize = 1 + 2 * ⌈(5 / 2 : ℚ) * Gpp.sigmaTwo.toRat⌉ ∧
      (Gpp.rawLoop Gpp.rawTwo windowsize (Int.tdiv windowsize 2) (fun _ => 0)).2 ≠ 0 ∧
      ∀ i : Int, 0 ≤ i ∧ i < windowsize → kernel i = kernel (windowsize - 1 - i) :=
  have hc : ⌈(5 / 2 : ℚ) * Gpp.sigmaTwo.toRat⌉ = 5 := by
    rw [← Gpp.ceilProduct_eq]
    decide
  ⟨by rw [hc]; decide,
   Gpp.make_gaussian_kernel_symmetric Gpp.sigmaTwo Gpp.rawTwo (fun _ => 0)
    (by rw [hc]; decide) (by rw [hc]; decide)⟩

/-! ## The width of the accumulators -/

/-- The accumulators of a guarded loop of at most 21 trips with terms below `2^16` hold,
after any number of trips, the exact guarded sums of the terms added so far: no
wraparound. -/
theorem forLoop_guarded_acc_prefix (p : Int → Prop) [DecidablePred p] (f g : Int → Nat)
    (lo hi : Int) (hn : hi - lo ≤ 21) (hf : ∀ i, f i ≤ 65535) (hg : ∀ i, g i ≤ 65535) :
    forLoop lo hi
        (fun (acc : Nat × Nat) (cc : Int) =>
          if p cc then ((acc.1 + f cc) % 4294967296, (acc.2 + g cc) % 4294967296) else acc)
        (0, 0)
      = (∑ cc ∈ (Finset.Icc lo (hi - 1)).filter p, f cc,
         ∑ cc ∈ (Finset.Icc lo (hi - 1)).filter p, g cc) ∧
    (∑ cc ∈ (Finset.Icc lo (hi - 1)).filter p, f cc) ≤ 21 * 65535 ∧
    (∑ cc ∈ (Finset.Icc lo (hi - 1)).filter p, g cc) ≤ 21 * 65535 := by
  unfold forLoop
  rw [foldl_guarded_acc p f g lo _]
  have hn2 : (hi - lo).toNat ≤ 21 := by omega
  have h1 := guarded_sum_le p f lo (hi - lo).toNat 65535 hf
  have h2 := guarded_sum_le p g lo (hi - lo).toNat 65535 hg
  have h3 : (hi - lo).toNat * 65535 ≤ 21 * 65535 := Nat.mul_le_mul_right _ hn2
  have e1 := sum_range_eq_sum_Icc p f lo (hi - 1)
  have e2 := sum_range_eq_sum_Icc p g lo (hi - 1)
  rw [show hi - 1 + 1 - lo = hi - lo by ring] at e1 e2
  rw [Nat.mod_eq_of_lt (by omega), Nat.mod_eq_of_lt (by omega), e1, e2]
  exact ⟨rfl, by omega, by omega⟩

/-- The intermediate values of `DIVISION(dot, sum)` for accumulators of at most 21
terms below `2^16`: neither the shift nor the sum wraps. -/
theorem Dsp.DIVISION_no_wrap (dot sum : Nat) (hdot : dot ≤ 21 * 65535)
    (hsum : sum ≤ 21 * 65535) :
    dot * 256 + sum / 2 < 4294967296 ∧
    Dsp.DIVISION dot sum = (dot * 256 + sum / 2) / sum % 65536 := by
  refine ⟨by omega, ?_⟩
  unfold Dsp.DIVISION
  rw [Nat.mod_eq_of_lt (show dot < 4294967296 by omega),
    Nat.mod_eq_of_lt (show sum < 4294967296 by omega),
    Nat.mod_eq_of_lt (show dot * 256 < 4294967296 by omega),
    Nat.mod_eq_of_lt (show dot * 256 + sum / 2 < 4294967296 by omega)]

/-- C22. Accumulator width: for every image and every kernel of at most 20 unsigned
16-bit weights, in both passes of the co-processor `gaussian_smooth` the accumulators
`dot` and `sum` hold, after any number of trips of the window loop, the exact sums of
the terms added so far, both at most `21 * 65535`, and the intermediate
`(dot << 8) + sum/2` of `DIVISION` is below `2^32`: no 32-bit wraparound occurs. -/
theorem Dsp.accumulators_no_wraparound (s : Dsp.State) (r c hi : Int)
    (hker : ∀ i, s.kernel i < 65536) (hcap : s.windowSize ≤ 20)
    (hhi : hi ≤ Dsp.center s + 1) :
    (forLoop (-(Dsp.center s)) hi (Dsp.xTap s (Dsp.center s) r c) (0, 0)
        = (∑ cc ∈ (Finset.Icc (-(Dsp.center s)) (hi - 1)).filter
              (fun cc => 0 ≤ c + cc ∧ c + cc < s.cols),
            Dsp.MULTIPLICATION (Dsp.INT_FIXED (s.image (r * s.cols + (c + cc))))
              (s.kernel (Dsp.center s + cc)),
           ∑ cc ∈ (Finset.Icc (-(Dsp.center s)) (hi - 1)).filter
              (fun cc => 0 ≤ c + cc ∧ c + cc < s.cols), s.kernel (Dsp.center s + cc)) ∧
      forLoop (-(Dsp.center s)) hi (Dsp.yTap (Dsp.blurX s) (Dsp.center s) r c) (0, 0)
        = (∑ rr ∈ (Finset.Icc (-(Dsp.center s)) (hi - 1)).filter
              (fun rr => 0 ≤ r + rr ∧ r + rr < s.rows),
            Dsp.MULTIPLICATION ((Dsp.blurX s).tempim ((r + rr) * s.cols + c))
              (s.kernel (Dsp.center s + rr)),
           ∑ rr ∈ (Finset.Icc (-(Dsp.center s)) (hi - 1)).filter
              (fun rr => 0 ≤ r + rr ∧ r + rr < s.rows), s.kernel (Dsp.center s + rr))) ∧
    (Dsp.xAcc s (Dsp.center s) r c = (Dsp.xDotSpec s r c, Dsp.xSumSpec s c) ∧
      Dsp.xDotSpec s r c ≤ 21 * 65535 ∧ Dsp.xSumSpec s c ≤ 21 * 65535 ∧
      Dsp.xDotSpec s r c * 256 + Dsp.xSumSpec s c / 2 < 4294967296 ∧
      Dsp.xPixel s (Dsp.center s) r c
        = (Dsp.xDotSpec s r c * 256 + Dsp.xSumSpec s c / 2) / Dsp.xSumSpec s c % 65536) ∧
    (Dsp.yAcc (Dsp.blurX s) (Dsp.center s) r c
        = (Dsp.yDotSpec s (Dsp.blurX s).tempim r c, Dsp.ySumSpec s r) ∧
      Dsp.yDotSpec s (Dsp.blurX s).tempim r c ≤ 21 * 65535 ∧
      Dsp.ySumSpec s r ≤ 21 * 65535 ∧
      Dsp.yDotSpec s (Dsp.blurX s).tempim r c * 256 + Dsp.ySumSpec s r / 2 < 4294967296 ∧
      Dsp.yPixel (Dsp.blurX s) (Dsp.center s) r c
        = (Dsp.yDotSpec s (Dsp.blurX s).tempim r c * 256 + Dsp.ySumSpec s r / 2)
            / Dsp.ySumSpec s r % 65536) := by
  have hcen := tdiv_two_le s.windowSize hcap
  have hcen2 : Dsp.center s ≤ 10 := hcen
  have hker2 : ∀ i, s.kernel i ≤ 65535 := fun i => Nat.le_of_lt_succ (hker i)
  have hx := forLoop_guarded_acc_prefix (fun cc => 0 ≤ c + cc ∧ c + cc < s.cols)
    (fun cc => Dsp.MULTIPLICATION (Dsp.INT_FIXED (s.image (r * s.cols + (c + cc))))
      (s.kernel (Dsp.center s + cc)))
    (fun cc => s.kernel (Dsp.center s + cc)) (-(Dsp.center s)) hi (by omega)
    (fun _ => Dsp.MULTIPLICATION_le _ _) (fun _ => hker2 _)
  have hy := forLoop_guarded_acc_prefix (fun rr => 0 ≤ r + rr ∧ r + rr < s.rows)
    (fun rr => Dsp.MULTIPLICATION ((Dsp.blurX s).tempim ((r + rr) * s.cols + c))
      (s.kernel (Dsp.center s + rr)))
    (fun rr => s.kernel (Dsp.center s + rr)) (-(Dsp.center s)) hi (by omega)
    (fun _ => Dsp.MULTIPLICATION_le _ _) (fun _ => hker2 _)
  have hxe := forLoop_guarded_acc_prefix (fun cc => 0 ≤ c + cc ∧ c + cc < s.cols)
    (fun cc => Dsp.MULTIPLICATION (Dsp.INT_FIXED (s.image (r * s.cols + (c + cc))))
      (s.kernel (Dsp.center s + cc)))
    (fun cc => s.kernel (Dsp.center s + cc)) (-(Dsp.center s)) (Dsp.center s + 1)
    (by omega) (fun _ => Dsp.MULTIPLICATION_le _ _) (fun _ => hker2 _)
  have hye := forLoop_guarded_acc_prefix (fun rr => 0 ≤ r + rr ∧ r + rr < s.rows)
    (fun rr => Dsp.MULTIPLICATION ((Dsp.blurX s).tempim ((r + rr) * s.cols + c))
      (s.kernel (Dsp.center s + rr)))
    (fun rr => s.kernel (Dsp.center s + rr)) (-(Dsp.center s)) (Dsp.center s + 1)
    (by omega) (fun _ => Dsp.MULTIPLICATION_le _ _) (fun _ => hker2 _)
  rw [add_sub_cancel_right] at hxe hye
  have hxd : Dsp.xDotSpec s r c ≤ 21 * 65535 := hxe.2.1
  have hxs : Dsp.xSumSpec s c ≤ 21 * 65535 := hxe.2.2
  have hyd : Dsp.yDotSpec s (Dsp.blurX s).tempim r c ≤ 21 * 65535 := hye.2.1
  have hys : Dsp.ySumSpec s r ≤ 21 * 65535 := hye.2.2
  have hxa := Dsp.xAcc_eq s r c hker hcap
  have hya : Dsp.yAcc (Dsp.blurX s) (Dsp.center s) r c
      = (Dsp.yDotSpec s (Dsp.blurX s).tempim r c, Dsp.ySumSpec s r) :=
    Dsp.yAcc_eq (Dsp.blurX s) r c hker hcap
  refine ⟨⟨hx.1, hy.1⟩, ⟨hxa, hxd, hxs, (Dsp.DIVISION_no_wrap _ _ hxd hxs).1, ?_⟩,
    ⟨hya, hyd, hys, (Dsp.DIVISION_no_wrap _ _ hyd hys).1, ?_⟩⟩
  · rw [Dsp.xPixel, hxa]
    exact (Dsp.DIVISION_no_wrap _ _ hxd hxs).2
  · rw [Dsp.yPixel, hya]
    exact (Dsp.DIVISION_no_wrap _ _ hyd hys).2

theorem Dsp.accumulators_no_wraparound_witness :
    Dsp.xAcc Dsp.sampleState (Dsp.center Dsp.sampleState) 1 2
        = (Dsp.xDotSpec Dsp.sampleState 1 2, Dsp.xSumSpec Dsp.sampleState 2) ∧
      Dsp.xDotSpec Dsp.sampleState 1 2 ≤ 21 * 65535 ∧
      Dsp.xSumSpec Dsp.sampleState 2 ≤ 21 * 65535 ∧
      Dsp.xDotSpec Dsp.sampleState 1 2 * 256 + Dsp.xSumSpec Dsp.sampleState 2 / 2
        < 4294967296 ∧
      Dsp.xPixel Dsp.sampleState (Dsp.center Dsp.sampleState) 1 2
        = (Dsp.xDotSpec Dsp.sampleState 1 2 * 256 + Dsp.xSumSpec Dsp.sampleState 2 / 2)
            / Dsp.xSumSpec Dsp.sampleState 2 % 65536 :=
  (Dsp.accumulators_no_wraparound Dsp.sampleState 1 2 3
    (fun i => by
      show (if i = 2 then 116 else if i = 1 ∨ i = 3 then 60 else 10) < 65536
      split_ifs <;> decide)
    (by decide) (by decide)).2.1

/-! ## The x-pass as a weighted mean -/

/-- The macro `DIVISION` on a numerator and a divisor for which nothing wraps and the
quotient fits 16 bits. -/
theorem Dsp.DIVISION_exact (D S : Nat) (hS2 : S < 4294967296)
    (hD : D * 256 + S / 2 < 4294967296) (hq : (D * 256 + S / 2) / S < 65536) :
    Dsp.DIVISION D S = (D * 256 + S / 2) / S := by
  unfold Dsp.DIVISION
  rw [Nat.mod_eq_of_lt (show D < 4294967296 by omega), Nat.mod_eq_of_lt hS2,
    Nat.mod_eq_of_lt (show D * 256 < 4294967296 by omega), Nat.mod_eq_of_lt hD,
    Nat.mod_eq_of_lt hq]

/-- A rounded quotient of a weighted sum by the sum of its weights lies between the
bounds of the weighted values. -/
theorem weighted_quotient_bounds (D S lo hi : Nat) (hS : 0 < S) (hlo : lo * S ≤ D)
    (hhi : D ≤ hi * S) :
    256 * lo ≤ (D * 256 + S / 2) / S ∧ (D * 256 + S / 2) / S ≤ 256 * hi := by
  constructor
  · rw [Nat.le_div_iff_mul_le hS]
    have : 256 * lo * S = lo * S * 256 := by ring
    omega
  · apply Nat.le_of_lt_succ
    rw [Nat.div_lt_iff_lt_mul hS]
    have h1 : (256 * hi).succ * S = hi * S * 256 + S := by
      rw [Nat.succ_mul]
      ring
    have h2 : S / 2 < S := Nat.div_lt_self hS (by decide)
    omega

/-- C23. X-pass output is a weighted mean in range: for every 8-bit image and every
kernel held in the 20-cell kernel array whose weights are all at most 256, at every
pixel whose in-range weight sum is positive, `MULTIPLICATION(INT_FIXED(p), k)` equals
`p*k` exactly, `tempim[r*cols+c]` is the rounded quotient of the exact weighted sum by
the weight sum, with no truncation by the 16-bit store, and it lies between `256*lo`
and `256*hi` for all bounds `lo` and `hi` of the in-range pixels of that row window (so
for their minimum and maximum); hence it is at most `65280`. -/
theorem Dsp.xpass_weighted_mean (s : Dsp.State) (r c : Int) (lo hi : Nat)
    (himg : ∀ i, s.image i ≤ 255) (hker : ∀ i, s.kernel i ≤ 256)
    (hcap : s.windowSize ≤ 20) (hr : 0 ≤ r ∧ r < s.rows) (hc : 0 ≤ c ∧ c < s.cols)
    (hx : 0 < Dsp.xSumSpec s c)
    (hlo : ∀ cc ∈ Dsp.xTaps s c, lo ≤ s.image (r * s.cols + (c + cc)))
    (hhi : ∀ cc ∈ Dsp.xTaps s c, s.image (r * s.cols + (c + cc)) ≤ hi) :
    (∀ p k : Nat, p ≤ 255 → k ≤ 256 → Dsp.MULTIPLICATION (Dsp.INT_FIXED p) k = p * k) ∧
    (Dsp.gaussian_smooth s).tempim (r * s.cols + c)
      = ((∑ cc ∈ Dsp.xTaps s c,
            s.image (r * s.cols + (c + cc)) * s.kernel (Dsp.center s + cc)) * 256
          + Dsp.xSumSpec s c / 2) / Dsp.xSumSpec s c ∧
    256 * lo ≤ (Dsp.gaussian_smooth s).tempim (r * s.cols + c) ∧
    (Dsp.gaussian_smooth s).tempim (r * s.cols + c) ≤ 256 * hi ∧
    (Dsp.gaussian_smooth s).tempim (r * s.cols + c) ≤ 65280 := by
  have hmul : ∀ p k : Nat, p ≤ 255 → k ≤ 256 →
      Dsp.MULTIPLICATION (Dsp.INT_FIXED p) k = p * k := fun p k hp hk => by
    rw [Dsp.INT_FIXED_byte p hp, Dsp.MULTIPLICATION_const p k hp hk]
  have hcen := tdiv_two_le s.windowSize hcap
  have hdot : Dsp.xDotSpec s r c
      = ∑ cc ∈ Dsp.xTaps s c,
          s.image (r * s.cols + (c + cc)) * s.kernel (Dsp.center s + cc) := by
    unfold Dsp.xDotSpec
    exact Finset.sum_congr rfl (fun cc _ => hmul _ _ (himg _) (hker _))
  have hS : Dsp.xSumSpec s c ≤ 5376 :=
    Dsp.window_sum_le _ (fun cc => s.kernel (Dsp.center s + cc)) (Dsp.center s)
      (by unfold Dsp.center; omega) (fun _ => hker _)
  have hsumlo : ∀ b : Nat, (∀ cc ∈ Dsp.xTaps s c, b ≤ s.image (r * s.cols + (c + cc))) →
      b * Dsp.xSumSpec s c
        ≤ ∑ cc ∈ Dsp.xTaps s c,
            s.image (r * s.cols + (c + cc)) * s.kernel (Dsp.center s + cc) := by
    intro b hb
    unfold Dsp.xSumSpec
    rw [Finset.mul_sum]
    exact Finset.sum_le_sum (fun cc hcc => Nat.mul_le_mul_right _ (hb cc hcc))
  have hsumhi : ∀ b : Nat, (∀ cc ∈ Dsp.xTaps s c, s.image (r * s.cols + (c + cc)) ≤ b) →
      (∑ cc ∈ Dsp.xTaps s c,
          s.image (r * s.cols + (c + cc)) * s.kernel (Dsp.center s + cc))
        ≤ b * Dsp.xSumSpec s c := by
    intro b hb
    unfold Dsp.xSumSpec
    rw [Finset.mul_sum]
    exact Finset.sum_le_sum (fun cc hcc => Nat.mul_le_mul_right _ (hb cc hcc))
  have h255 := hsumhi 255 (fun cc _ => himg _)
  have hb := weighted_quotient_bounds _ _ lo hi hx (hsumlo lo hlo) (hsumhi hi hhi)
  have hb255 := weighted_quotient_bounds _ _ 0 255 hx (by simp) h255
  have hD : (∑ cc ∈ Dsp.xTaps s c,
      s.image (r * s.cols + (c + cc)) * s.kernel (Dsp.center s + cc)) ≤ 255 * 5376 :=
    h255.trans (Nat.mul_le_mul_left _ hS)
  have htemp := Dsp.tempim_eq s r c (fun i => lt_of_le_of_lt (hker i) (by decide)) hcap hr hc
  rw [hdot, Dsp.DIVISION_exact _ _ (by omega) (by omega) (by omega)] at htemp
  rw [htemp]
  exact ⟨hmul, rfl, hb.1, hb.2, hb255.2⟩

theorem Dsp.xpass_weighted_mean_witness :
    0 < Dsp.xSumSpec Dsp.uniformState 0 ∧
    256 * 100 ≤ (Dsp.gaussian_smooth Dsp.uniformState).tempim (3 * Dsp.uniformState.cols + 0) ∧
    (Dsp.gaussian_smooth Dsp.uniformState).tempim (3 * Dsp.uniformState.cols + 0)
      ≤ 256 * 100 :=
  have h := Dsp.xpass_weighted_mean Dsp.uniformState 3 0 100 100
    (fun _ => by
      show (100 : Nat) ≤ 255
      decide)
    (fun i => by
      show (if i = 1 then 128 else 64) ≤ 256
      split_ifs <;> decide)
    (by decide) (by decide) (by decide) (by decide) (fun _ _ => le_refl _)
    (fun _ _ => le_refl _)
  ⟨by decide, h.2.2.1, h.2.2.2.1⟩

/-! ## The range of the values downstream of the rescale -/

/-- The value stored by `magnitude_x_y` for derivatives whose sum of squares is at most
`n`: the three `float` roundings add at most `192`, and the rounded square root stays at
most `M`. -/
theorem Gpp.magnitudeCell_range (a b : Int) (hdx : -32768 ≤ a ∧ a ≤ 32767)
    (hdy : -32768 ≤ b ∧ b ≤ 32767) (n M : Nat) (hn : a * a + b * b ≤ n)
    (h30 : n + 128 < 1073741824) (hM : 4 * (n + 192) < (2 * M + 1) * (2 * M + 1))
    (hM2 : M ≤ 32767) :
    0 ≤ Gpp.magnitudeCell a b ∧ Gpp.magnitudeCell a b ≤ M := by
  have hna : 0 ≤ a * a := mul_self_nonneg a
  have hnb : 0 ≤ b * b := mul_self_nonneg b
  rw [Gpp.magnitudeCell_eq a b hdx hdy]
  have hA := (roundSig_near 24 (a * a).toNat).2
  have hB := (roundSig_near 24 (b * b).toNat).2
  have hbA : bitLength (a * a).toNat ≤ 30 := bitLength_le _ 30 (by omega)
  have hbB : bitLength (b * b).toNat ≤ 30 := bitLength_le _ 30 (by omega)
  have hpA : 2 ^ (bitLength (a * a).toNat - 24) ≤ 2 ^ 6 :=
    Nat.pow_le_pow_right (by decide) (by omega)
  have hpB : 2 ^ (bitLength (b * b).toNat - 24) ≤ 2 ^ 6 :=
    Nat.pow_le_pow_right (by decide) (by omega)
  generalize roundSig 24 (a * a).toNat = fa at hA ⊢
  generalize roundSig 24 (b * b).toNat = fb at hB ⊢
  have hsum : fa + fb ≤ n + 128 := by omega
  have hS := (roundSig_near 24 (fa + fb)).2
  have hbS : bitLength (fa + fb) ≤ 30 := bitLength_le _ 30 (by omega)
  have hpS : 2 ^ (bitLength (fa + fb) - 24) ≤ 2 ^ 6 :=
    Nat.pow_le_pow_right (by decide) (by omega)
  generalize roundSig 24 (fa + fb) = f at hS ⊢
  have hf : f ≤ n + 192 := by omega
  obtain ⟨-, hlo⟩ := Gpp.roundSqrt_spec f
  have hle : Gpp.roundSqrt f ≤ M := by
    by_contra h
    have h3 : 2 * M + 1 ≤ 2 * Gpp.roundSqrt f - 1 := by omega
    have h4 := Nat.mul_le_mul h3 h3
    have h5 : (2 * Gpp.roundSqrt f - 1) * (2 * Gpp.roundSqrt f - 1) ≤ 4 * (n + 192) :=
      hlo.trans (by omega)
    exact absurd (h4.trans h5) (not_le.2 hM)
  rw [toShort_of_fits _ (by omega)]
  omega

/-- The rescaled value of an unsigned 16-bit sample is at most `23040`. -/
theorem Gpp.boostLane_le (s : Nat) (hs : s < 65536) :
    Gpp.boostLane (Gpp.FIXED_FLOAT s) ≤ 23040 := by
  rw [Gpp.boostLane_exact s hs]
  omega

/-- C24. No 16-bit wraparound downstream of rescale: for every unsigned 16-bit sample
`s` the rescaled value is at most `23040`, so for every raster of rescaled samples with
`rows ≥ 2` and `cols ≥ 2` the casts to `short` in `derrivative_x_y` preserve the
values, every `dx` and `dy` lies in `[-23040, 23040]`, and every value stored by
`magnitude_x_y` lies in `[0, 32583]`, inside the range of a signed 16-bit integer. -/
theorem Gpp.no_wraparound_downstream (S : Int → Nat) (rows cols : Int)
    (dx0 dy0 m0 : Int → Int) (hrows : 2 ≤ rows) (hcols : 2 ≤ cols)
    (hS : ∀ r c : Int, 0 ≤ r ∧ r < rows → 0 ≤ c ∧ c < cols →
      ∃ s : Nat, s < 65536 ∧ S (r * cols + c) = Gpp.boostLane (Gpp.FIXED_FLOAT s))
    (r c : Int) (hr : 0 ≤ r ∧ r < rows) (hc : 0 ≤ c ∧ c < cols) :
    (∀ s : Nat, s < 65536 → Gpp.boostLane (Gpp.FIXED_FLOAT s) ≤ 23040) ∧
    toShort (S (r * cols + c)) = S (r * cols + c) ∧
    (-23040 ≤ (Gpp.derrivative_x_y S rows cols dx0 dy0).1 (r * cols + c) ∧
      (Gpp.derrivative_x_y S rows cols dx0 dy0).1 (r * cols + c) ≤ 23040) ∧
    (-23040 ≤ (Gpp.derrivative_x_y S rows cols dx0 dy0).2 (r * cols + c) ∧
      (Gpp.derrivative_x_y S rows cols dx0 dy0).2 (r * cols + c) ≤ 23040) ∧
    (0 ≤ Gpp.magnitude_x_y (Gpp.derrivative_x_y S rows cols dx0 dy0).1
        (Gpp.derrivative_x_y S rows cols dx0 dy0).2 rows cols m0 (r * cols + c) ∧
      Gpp.magnitude_x_y (Gpp.derrivative_x_y S rows cols dx0 dy0).1
        (Gpp.derrivative_x_y S rows cols dx0 dy0).2 rows cols m0 (r * cols + c) ≤ 32583) := by
  have hle : ∀ r c : Int, 0 ≤ r ∧ r < rows → 0 ≤ c ∧ c < cols →
      S (r * cols + c) ≤ 23040 := by
    intro r c hr hc
    obtain ⟨s, hs, he⟩ := hS r c hr hc
    rw [he]
    exact Gpp.boostLane_le s hs
  have hdiff : ∀ r1 c1 r2 c2 : Int, 0 ≤ r1 ∧ r1 < rows → 0 ≤ c1 ∧ c1 < cols →
      0 ≤ r2 ∧ r2 < rows → 0 ≤ c2 ∧ c2 < cols →
      -23040 ≤ Gpp.shortDiff S (r1 * cols + c1) (r2 * cols + c2) ∧
      Gpp.shortDiff S (r1 * cols + c1) (r2 * cols + c2) ≤ 23040 := by
    intro r1 c1 r2 c2 hr1 hc1 hr2 hc2
    have h1 := hle r1 c1 hr1 hc1
    have h2 := hle r2 c2 hr2 hc2
    rw [Gpp.shortDiff_exact S _ _ (by omega) (by omega)]
    omega
  have hdx : -23040 ≤ (Gpp.derrivative_x_y S rows cols dx0 dy0).1 (r * cols + c) ∧
      (Gpp.derrivative_x_y S rows cols dx0 dy0).1 (r * cols + c) ≤ 23040 := by
    rw [Gpp.delta_x_cell S rows cols dx0 dy0 hcols r c hr hc]
    split_ifs
    · have h := hdiff r 1 r 0 hr (by omega) hr (by omega)
      rw [add_zero] at h
      exact h
    · exact hdiff r (cols - 1) r (cols - 2) hr (by omega) hr (by omega)
    · exact hdiff r (c + 1) r (c - 1) hr (by omega) hr (by omega)
  have hdy : -23040 ≤ (Gpp.derrivative_x_y S rows cols dx0 dy0).2 (r * cols + c) ∧
      (Gpp.derrivative_x_y S rows cols dx0 dy0).2 (r * cols + c) ≤ 23040 := by
    rw [Gpp.delta_y_cell S rows cols dx0 dy0 hrows r c hr hc]
    split_ifs
    · exact hdiff 1 c 0 c (by omega) hc (by omega) hc
    · exact hdiff (rows - 1) c (rows - 2) c (by omega) hc (by omega) hc
    · exact hdiff (r + 1) c (r - 1) c (by omega) hc (by omega) hc
  refine ⟨Gpp.boostLane_le, ?_, hdx, hdy, ?_⟩
  · have h := hle r c hr hc
    exact toShort_of_fits _ (by omega)
  · rw [Gpp.magnitude_x_y_cell _ _ rows cols m0 r c hr hc]
    generalize (Gpp.derrivative_x_y S rows cols dx0 dy0).1 (r * cols + c) = a at hdx
    generalize (Gpp.derrivative_x_y S rows cols dx0 dy0).2 (r * cols + c) = b at hdy
    have ha : a * a ≤ 23040 * 23040 := by nlinarith
    have hb : b * b ≤ 23040 * 23040 := by nlinarith
    have h := Gpp.magnitudeCell_range a b (by omega) (by omega) 1061683200 32583
      (by omega) (by norm_num) (by norm_num) (by norm_num)
    exact_mod_cast h

theorem Gpp.no_wraparound_downstream_witness :
    (-23040 ≤ (Gpp.derrivative_x_y Gpp.extremeRaster 2 2 (fun _ => 0) (fun _ => 0)).1
        (0 * 2 + 0) ∧
      (Gpp.derrivative_x_y Gpp.extremeRaster 2 2 (fun _ => 0) (fun _ => 0)).1 (0 * 2 + 0)
        ≤ 23040) ∧
    (0 ≤ Gpp.magnitude_x_y (Gpp.derrivative_x_y Gpp.extremeRaster 2 2 (fun _ => 0)
          (fun _ => 0)).1
        (Gpp.derrivative_x_y Gpp.extremeRaster 2 2 (fun _ => 0) (fun _ => 0)).2 2 2
        (fun _ => 0) (0 * 2 + 0) ∧
      Gpp.magnitude_x_y (Gpp.derrivative_x_y Gpp.extremeRaster 2 2 (fun _ => 0)
          (fun _ => 0)).1
        (Gpp.derrivative_x_y Gpp.extremeRaster 2 2 (fun _ => 0) (fun _ => 0)).2 2 2
        (fun _ => 0) (0 * 2 + 0) ≤ 32583) :=
  have h := Gpp.no_wraparound_downstream Gpp.extremeRaster 2 2 (fun _ => 0) (fun _ => 0)
    (fun _ => 0) (by decide) (by decide)
    (fun r c _ _ => by
      unfold Gpp.extremeRaster
      split_ifs
      · exact ⟨65535, by decide, rfl⟩
      · exact ⟨0, by decide, rfl⟩)
    0 0 (by decide) (by decide)
  ⟨h.2.2.1, h.2.2.2.2⟩

/-! ## Degenerate rasters in `derrivative_x_y` -/

/-- C25 fails on the code: for a raster of one row and one column, whose arrays have
the single cell `0`, `derrivative_x_y` computes `delta_x[0]` and `delta_y[0]` from
`smoothedim[1]`, a cell outside the raster, and stores the same difference in
`delta_x[1]` and `delta_y[1]`, cells outside the two allocated arrays; for two rows of
one column it stores in `delta_x[2]`, and for one row of two columns in `delta_y[2]`. -/
theorem Gpp.derrivative_x_y_degenerate (S : Int → Nat) (dx0 dy0 : Int → Int) :
    ((Gpp.derrivative_x_y S 1 1 dx0 dy0).1 0 = Gpp.shortDiff S 1 0 ∧
      (Gpp.derrivative_x_y S 1 1 dx0 dy0).1 1 = Gpp.shortDiff S 1 0 ∧
      (Gpp.derrivative_x_y S 1 1 dx0 dy0).2 0 = Gpp.shortDiff S 1 0 ∧
      (Gpp.derrivative_x_y S 1 1 dx0 dy0).2 1 = Gpp.shortDiff S 1 0) ∧
    (Gpp.derrivative_x_y S 2 1 dx0 dy0).1 2 = Gpp.shortDiff S 2 1 ∧
    (Gpp.derrivative_x_y S 1 2 dx0 dy0).2 2 = Gpp.shortDiff S 2 0 ∧
    (Gpp.derrivative_x_y Gpp.stepRaster 1 1 (fun _ => 0) (fun _ => 0)).1 0 = 5 ∧
    (Gpp.derrivative_x_y Gpp.stepRaster 1 1 (fun _ => 0) (fun _ => 0)).1 1 = 5 ∧
    (Gpp.derrivative_x_y Gpp.stepRaster 1 1 (fun _ => 0) (fun _ => 0)).1 1
      ≠ (fun _ => (0 : Int)) 1 := by
  refine ⟨⟨?_, ?_, ?_, ?_⟩, ?_, ?_, by decide, by decide, by decide⟩ <;>
    simp [Gpp.derrivative_x_y, Gpp.dxRow, Gpp.dyCol, forLoop, Function.update_apply,
      List.range_succ]
